import Mathlib

/-!
# Lispy (`variables.c`): a shallow embedding of the evaluation core

The C program keeps every Lisp value in a heap-allocated `lval`, the global
scope in an `lenv`, and three pieces of process-wide state: the array
`builtins` of protected names, the run flag `while_var` and standard output.

Conventions of the embedding

* `lval` is an inductive type with one constructor per `LVAL_*` tag.  Only the
  fields that the constructor functions of the C code initialise are present,
  so reading a field that C leaves uninitialised (for instance `y->num` of a
  Q-Expression) has no value here: such a read ends the run with
  `Outcome.crash`.
* `long` is the 64-bit and `int` the 32-bit two's-complement integer.  Numbers
  are carried as `Int`; every arithmetic result is reduced with `wrapLong`
  (`wrapInt`), i.e. signed overflow is modelled as wrap-around.  Division or
  remainder by zero, and the division or remainder of the smallest `long` by
  `-1`, trap: they end the run with `Outcome.crash`.
* C strings are `String`s; the symbol grammar and every message of the program
  are ASCII, so characters and bytes coincide.
* Ownership (`lval_del`, `free`, `realloc`) is not represented: values are
  immutable.  The deep copy `lval_copy` is kept as an explicit function; the
  one allocation whose size is represented is the buffer of `sizeof(char*) + 1`
  bytes into which it copies a string: a longer string is written past the end
  of the buffer, which ends the run with `Outcome.crash`.
* `lval_eval` and `builtin_eval` are mutually recursive and need not
  terminate; `lval_eval` therefore takes a bound on the depth of nested
  `lval_eval` calls and ends with `Outcome.nofuel` when the bound is reached.
-/

namespace Lispy

/-! ## Machine integers -/

/-- Smallest value of the C type `long` (LP64). -/
def LONG_MIN : Int := -9223372036854775808

/-- Largest value of the C type `long` (LP64). -/
def LONG_MAX : Int := 9223372036854775807

/-- Smallest value of the C type `int`. -/
def INT_MIN : Int := -2147483648

/-- Largest value of the C type `int`. -/
def INT_MAX : Int := 2147483647

/-- Reduction of a mathematical integer to the two's-complement `long` that
represents it modulo `2^64`. -/
def wrapLong (x : Int) : Int :=
  (x + 9223372036854775808) % 18446744073709551616 - 9223372036854775808

/-- Reduction of a mathematical integer to the two's-complement `int` that
represents it modulo `2^32` (the conversion `long` to `int`). -/
def wrapInt (x : Int) : Int :=
  (x + 2147483648) % 4294967296 - 2147483648

/-! ## Outcomes of a run -/

/-- The way a call of the C code ends: it returns a value, it reaches
behaviour that C leaves undefined (a trap or a read of uninitialised or
out-of-bounds memory), or the recursion bound of the model is exhausted. -/
inductive Outcome (α : Type) where
  | ret (a : α)
  | crash
  | nofuel
  deriving DecidableEq, Repr

/-- Sequencing of two steps of a run. -/
def Outcome.bind {α β : Type} : Outcome α → (α → Outcome β) → Outcome β
  | .ret a, k => k a
  | .crash, _ => .crash
  | .nofuel, _ => .nofuel

/-! ## Values -/

/-- The type tags: `enum { LVAL_NUM, LVAL_ERR, LVAL_SYM, LVAL_FUN, LVAL_SEXPR, LVAL_QEXPR }`. -/
inductive ltype where
  | LVAL_NUM | LVAL_ERR | LVAL_SYM | LVAL_FUN | LVAL_SEXPR | LVAL_QEXPR
  deriving DecidableEq, Repr

/-- The values a function pointer of type `lbuiltin` takes in the program: the
addresses of the nineteen `builtin_*` functions passed to `lenv_add_builtin`. -/
inductive lbuiltin where
  | builtin_head | builtin_tail | builtin_list | builtin_eval | builtin_join
  | builtin_cons | builtin_len | builtin_init
  | builtin_add | builtin_sub | builtin_mul | builtin_div | builtin_mod
  | builtin_pow | builtin_min | builtin_max
  | builtin_def | builtin_values | builtin_exit
  deriving DecidableEq, Repr

/-- A Lisp value (`struct lval`), by type tag: `lval_num`, `lval_err`,
`lval_sym`, `lval_fun`, `lval_sexpr` and `lval_qexpr` with the cells added by
`lval_add`. -/
inductive lval where
  | num (n : Int)
  | err (m : String)
  | sym (s : String)
  | func (f : lbuiltin)
  | sexpr (cell : List lval)
  | qexpr (cell : List lval)
  deriving Repr

mutual
/-- Decision procedure for equality of values. -/
def lval.decEq : (a b : lval) → Decidable (a = b)
  | .num a, .num b =>
    if h : a = b then isTrue (by rw [h]) else isFalse (by intro e; cases e; exact h rfl)
  | .err a, .err b =>
    if h : a = b then isTrue (by rw [h]) else isFalse (by intro e; cases e; exact h rfl)
  | .sym a, .sym b =>
    if h : a = b then isTrue (by rw [h]) else isFalse (by intro e; cases e; exact h rfl)
  | .func a, .func b =>
    if h : a = b then isTrue (by rw [h]) else isFalse (by intro e; cases e; exact h rfl)
  | .sexpr a, .sexpr b =>
    match lval.decEqList a b with
    | isTrue h => isTrue (by rw [h])
    | isFalse h => isFalse (by intro e; cases e; exact h rfl)
  | .qexpr a, .qexpr b =>
    match lval.decEqList a b with
    | isTrue h => isTrue (by rw [h])
    | isFalse h => isFalse (by intro e; cases e; exact h rfl)
  | .num _, .err _ | .num _, .sym _ | .num _, .func _ | .num _, .sexpr _
  | .num _, .qexpr _ => isFalse (by intro e; cases e)
  | .err _, .num _ | .err _, .sym _ | .err _, .func _ | .err _, .sexpr _
  | .err _, .qexpr _ => isFalse (by intro e; cases e)
  | .sym _, .num _ | .sym _, .err _ | .sym _, .func _ | .sym _, .sexpr _
  | .sym _, .qexpr _ => isFalse (by intro e; cases e)
  | .func _, .num _ | .func _, .err _ | .func _, .sym _ | .func _, .sexpr _
  | .func _, .qexpr _ => isFalse (by intro e; cases e)
  | .sexpr _, .num _ | .sexpr _, .err _ | .sexpr _, .sym _ | .sexpr _, .func _
  | .sexpr _, .qexpr _ => isFalse (by intro e; cases e)
  | .qexpr _, .num _ | .qexpr _, .err _ | .qexpr _, .sym _ | .qexpr _, .func _
  | .qexpr _, .sexpr _ => isFalse (by intro e; cases e)
/-- Decision procedure for equality of cell arrays. -/
def lval.decEqList : (a b : List lval) → Decidable (a = b)
  | [], [] => isTrue rfl
  | [], _ :: _ => isFalse (by intro e; cases e)
  | _ :: _, [] => isFalse (by intro e; cases e)
  | x :: xs, y :: ys =>
    match lval.decEq x y, lval.decEqList xs ys with
    | isTrue h1, isTrue h2 => isTrue (by rw [h1, h2])
    | isFalse h1, _ => isFalse (by intro e; cases e; exact h1 rfl)
    | _, isFalse h2 => isFalse (by intro e; cases e; exact h2 rfl)
end

instance : DecidableEq lval := lval.decEq

/-- The field `v->type`. -/
def lval.type : lval → ltype
  | .num _ => .LVAL_NUM
  | .err _ => .LVAL_ERR
  | .sym _ => .LVAL_SYM
  | .func _ => .LVAL_FUN
  | .sexpr _ => .LVAL_SEXPR
  | .qexpr _ => .LVAL_QEXPR

/-- The fields `v->count` and `v->cell`, which only `lval_sexpr` and
`lval_qexpr` initialise. -/
def lval.cells : lval → Option (List lval)
  | .sexpr c => some c
  | .qexpr c => some c
  | _ => none

/-- `lval_err`: the message, already formatted, cut by `vsnprintf(v->err, 511, ...)`
to at most 510 characters. -/
def lval_err (msg : String) : lval :=
  .err ⟨msg.data.take 510⟩

/-- The size of a pointer, `sizeof(char*)`, on the LP64 target on which `long`
has 64 bits. -/
def sizeof_char_ptr : Nat := 8

/-- The copy of a string in `lval_copy`: `malloc(sizeof(v->sym) + 1)` followed
by `strcpy`, which writes the bytes of the string and the terminating zero.
The argument of `sizeof` is the pointer, so the buffer has
`sizeof_char_ptr + 1` bytes whatever the string; a string that does not fit is
written past its end. -/
def strcpy_sized (s : String) : Outcome String :=
  if s.utf8ByteSize + 1 ≤ sizeof_char_ptr + 1 then .ret s else .crash

mutual
/-- `lval_copy`: a deep copy of a value. -/
def lval_copy : lval → Outcome lval
  | .num n => .ret (.num n)
  | .err m =>
    (match strcpy_sized m with
     | .ret m1 => .ret (.err m1)
     | .crash => .crash
     | .nofuel => .nofuel)
  | .sym s =>
    (match strcpy_sized s with
     | .ret s1 => .ret (.sym s1)
     | .crash => .crash
     | .nofuel => .nofuel)
  | .func f => .ret (.func f)
  | .sexpr c =>
    (match lval_copy_cells c with
     | .ret c1 => .ret (.sexpr c1)
     | .crash => .crash
     | .nofuel => .nofuel)
  | .qexpr c =>
    (match lval_copy_cells c with
     | .ret c1 => .ret (.qexpr c1)
     | .crash => .crash
     | .nofuel => .nofuel)
/-- The loop of `lval_copy` over `v->cell`. -/
def lval_copy_cells : List lval → Outcome (List lval)
  | [] => .ret []
  | x :: xs =>
    (match lval_copy x with
     | .ret x1 =>
       (match lval_copy_cells xs with
        | .ret xs1 => .ret (x1 :: xs1)
        | .crash => .crash
        | .nofuel => .nofuel)
     | .crash => .crash
     | .nofuel => .nofuel)
end

/-- `lval_pop`: item `i` of the cell array together with the array without
it; `none` when `i` is out of bounds. -/
def lval_pop (cell : List lval) (i : Nat) : Option (lval × List lval) :=
  match cell.get? i with
  | some x => some (x, cell.eraseIdx i)
  | none => none

/-- `lval_take`: item `i` of the cell array, the rest being deleted. -/
def lval_take (cell : List lval) (i : Nat) : Option lval :=
  match lval_pop cell i with
  | some (x, _) => some x
  | none => none

/-! ## Printing -/

mutual
/-- `lval_print`: the text written to standard output for a value. -/
def lval_print : lval → String
  | .num n => toString n
  | .err m => "Error: " ++ m
  | .sym s => s
  | .func _ => "<function>"
  | .sexpr c => "(" ++ lval_expr_print_cells c ++ ")"
  | .qexpr c => "\x7b" ++ lval_expr_print_cells c ++ "\x7d"
/-- The loop of `lval_expr_print` over the cells still to print: each cell is
followed by a space unless it is the last one. -/
def lval_expr_print_cells : List lval → String
  | [] => ""
  | x :: xs => lval_print x ++ (if xs.length > 0 then " " else "") ++ lval_expr_print_cells xs
end

/-- `lval_println`. -/
def lval_println (v : lval) : String :=
  lval_print v ++ "\n"

/-! ## Environment and process state -/

/-- The environment (`struct lenv`): entry `i` is the pair of `syms[i]` and
`vals[i]`, and `count` is the length of the list. -/
abbrev lenv := List (String × lval)

/-- `lenv_new`. -/
def lenv_new : lenv := []

/-- `lenv_get`: a copy of the value of the first entry named `k`, or the
Error `Unbound symbol` when there is none. -/
def lenv_get : lenv → String → Outcome lval
  | [], k => .ret (lval_err ("Unbound symbol '" ++ k ++ "'"))
  | (s, v) :: rest, k => if s = k then lval_copy v else lenv_get rest k

/-- `lenv_put`: replaces the value of the first entry named `k` by a copy of
`v`, or appends a new entry when there is none. -/
def lenv_put : lenv → String → lval → Outcome lenv
  | [], k, v => (lval_copy v).bind fun c => .ret [(k, c)]
  | (s, x) :: rest, k, v =>
    if s = k then (lval_copy v).bind fun c => .ret ((s, c) :: rest)
    else (lenv_put rest k v).bind fun r => .ret ((s, x) :: r)

/-- The state a builtin can reach: the environment `e` passed to it, the
globals `builtins` (with `builtins_count` its length) and `while_var`, and the
text written to standard output so far. -/
structure State where
  env : lenv
  builtins : List String
  while_var : Int
  out : String
  deriving DecidableEq, Repr

/-- The initial values of the globals, with the environment of `lenv_new`. -/
def State.start : State :=
  { env := lenv_new, builtins := [], while_var := 1, out := "" }

/-- `lenv_print`: appends to the output one line per entry, in the order of
the entries.  A name in which `strstr` finds `%` is replaced by the output of
`printf("%%")`, a single `%`; any other name is the format string of `printf`
and, holding no conversion, is written verbatim. -/
def lenv_print : lenv → String → String
  | [], out => out
  | (s, _) :: rest, out =>
    lenv_print rest (out ++ (if '%' ∈ s.data then "%" else s) ++ "\n")

/-! ## Builtins -/

/-- `ltype_name`. -/
def ltype_name : ltype → String
  | .LVAL_NUM => "Number"
  | .LVAL_ERR => "Error"
  | .LVAL_SYM => "Symbol"
  | .LVAL_FUN => "Function"
  | .LVAL_SEXPR => "S-Expression"
  | .LVAL_QEXPR => "Q-Expression"

/-- The macro `INCARGS(args, num, func)`: `some err` when the macro returns
`err` from the enclosing function, `none` when execution continues. -/
def INCARGS (args : List lval) (num : Nat) (func : String) : Outcome (Option lval) :=
  if args.length ≠ num then
    .ret (some (lval_err ("Function '" ++ func ++ "' passed incorrect number of arguments. Got "
      ++ toString args.length ++ ", expected " ++ toString num ++ ".")))
  else .ret none

/-- The macro `INCTYPE(args, i, typ, func)`.  Its body never uses `i`: it
tests `args->cell[0]`, which is outside the array when `args` is empty. -/
def INCTYPE (args : List lval) (_i : Nat) (typ : ltype) (func : String) :
    Outcome (Option lval) :=
  match args with
  | [] => .crash
  | c :: _ =>
    if c.type ≠ typ then
      .ret (some (lval_err ("Function '" ++ func ++ "' passed incorrect type for argument 0. Got "
        ++ ltype_name c.type ++ ", expected " ++ ltype_name typ ++ ".")))
    else .ret none

/-- The loop `for (i = 0; i < args->count; i++) INCTYPE(args, i, typ, func);`
with `n` iterations left, iteration `i` being the one in progress. -/
def INCTYPE_loop (args : List lval) (typ : ltype) (func : String) (i : Nat) :
    Nat → Outcome (Option lval)
  | 0 => .ret none
  | n + 1 =>
    match INCTYPE args i typ func with
    | .ret none => INCTYPE_loop args typ func (i + 1) n
    | r => r

/-- The macro `EMPLST(args, func)`, which reads `args->cell[0]->count`. -/
def EMPLST (args : List lval) (func : String) : Outcome (Option lval) :=
  match args with
  | [] => .crash
  | c :: _ =>
    match c.cells with
    | none => .crash
    | some cs =>
      if cs.length = 0 then
        .ret (some (lval_err ("Function '" ++ func ++ "' passed empty list \x7b\x7d.")))
      else .ret none

/-- The macro `LASSERT(args, cond, fmt)`. -/
def LASSERT (cond : Bool) (fmt : String) : Outcome (Option lval) :=
  if !cond then .ret (some (lval_err fmt)) else .ret none

/-- Runs a check macro in a builtin called with environment `e`: the builtin
returns the error of the check, or goes on with `k`. -/
def check (c : Outcome (Option lval)) (e : State) (k : Outcome (State × lval)) :
    Outcome (State × lval) :=
  match c with
  | .ret (some err) => .ret (e, err)
  | .ret none => k
  | .crash => .crash
  | .nofuel => .nofuel

/-- `power(int x, int y)`.  For `y != 0` the function does not call itself
but the mathematical library: it returns `x * pow(x, y-1)`, a `double`,
converted to `int`.  The product is exact when it fits an `int`; a product
outside the range of `int`, or not a number, has no defined conversion.  With
a negative exponent `y - 1` the product is `x^y`, of magnitude below one unless
`x` is `0`, `1` or `-1`. -/
def power (x y : Int) : Outcome Int :=
  if y = 0 then .ret 1
  else
    let k := wrapInt (y - 1)
    if 0 ≤ k then
      let r := x * x ^ k.toNat
      if INT_MIN ≤ r ∧ r ≤ INT_MAX then .ret r else .crash
    else if x = 0 then .crash
    else if x = 1 then .ret 1
    else if x = -1 then .ret (if k % 2 = 0 then -1 else 1)
    else .ret 0

/-- The `while (a->count > 0)` loop of `builtin_op`: `x` is `x->num`, the list
holds the cells still in `a`.  The `if (strcmp(op, ...) == 0)` statements of
the body are mutually exclusive and appear here as one chain.  An operand that
is not a Number has no `num` field to read.  The operators `/=` and `%=` trap
on a zero divisor and on the smallest `long` divided by `-1`; only the zero
divisor of `/` is tested before. -/
def builtin_op_loop (op : String) : Int → List lval → Outcome lval
  | x, [] => .ret (.num x)
  | x, y :: rest =>
    match y with
    | .num yn =>
      if op = "+" then builtin_op_loop op (wrapLong (x + yn)) rest
      else if op = "-" then builtin_op_loop op (wrapLong (x - yn)) rest
      else if op = "*" then builtin_op_loop op (wrapLong (x * yn)) rest
      else if op = "/" then
        if yn = 0 then .ret (lval_err "Division by zero!")
        else if x = LONG_MIN ∧ yn = -1 then .crash
        else builtin_op_loop op (wrapLong (Int.tdiv x yn)) rest
      else if op = "%" then
        if yn = 0 then .crash
        else if x = LONG_MIN ∧ yn = -1 then .crash
        else builtin_op_loop op (wrapLong (Int.tmod x yn)) rest
      else if op = "^" then
        if yn < 0 then .ret (lval_err "Invalid number!")
        else
          match power (wrapInt x) (wrapInt yn) with
          | .ret p => builtin_op_loop op p rest
          | .crash => .crash
          | .nofuel => .nofuel
      else if op = "min" then
        let v := wrapInt x
        let w := wrapInt yn
        builtin_op_loop op (v * (if v ≤ w then 1 else 0) + w * (if v > w then 1 else 0)) rest
      else if op = "max" then
        -- the maximum is stored in `y->num`, and `y` is deleted
        builtin_op_loop op x rest
      else builtin_op_loop op x rest
    | _ => .crash

/-- `builtin_op`. -/
def builtin_op (e : State) (a : List lval) (op : String) : Outcome (State × lval) :=
  check (INCTYPE_loop a .LVAL_NUM op 0 a.length) e <|
  match lval_pop a 0 with
  | none => .crash
  | some (x, a1) =>
    match x with
    | .num xn =>
      let x0 := if op = "-" ∧ a1.length = 0 then wrapLong (-xn) else xn
      (builtin_op_loop op x0 a1).bind fun r => .ret (e, r)
    | _ => .crash

/-- `builtin_add`. -/
def builtin_add (e : State) (a : List lval) : Outcome (State × lval) := builtin_op e a "+"

/-- `builtin_sub`. -/
def builtin_sub (e : State) (a : List lval) : Outcome (State × lval) := builtin_op e a "-"

/-- `builtin_mul`. -/
def builtin_mul (e : State) (a : List lval) : Outcome (State × lval) := builtin_op e a "*"

/-- `builtin_div`. -/
def builtin_div (e : State) (a : List lval) : Outcome (State × lval) := builtin_op e a "/"

/-- `builtin_mod`. -/
def builtin_mod (e : State) (a : List lval) : Outcome (State × lval) := builtin_op e a "%"

/-- `builtin_pow`. -/
def builtin_pow (e : State) (a : List lval) : Outcome (State × lval) := builtin_op e a "^"

/-- `builtin_min`. -/
def builtin_min (e : State) (a : List lval) : Outcome (State × lval) := builtin_op e a "min"

/-- `builtin_max`. -/
def builtin_max (e : State) (a : List lval) : Outcome (State × lval) := builtin_op e a "max"

/-- The loop `while (v->count > 1) lval_del(lval_pop(v, 1));` of
`builtin_head`, with at most `n` iterations left. -/
def builtin_head_loop : Nat → List lval → List lval
  | 0, v => v
  | n + 1, v => if v.length > 1 then builtin_head_loop n (v.eraseIdx 1) else v

/-- `builtin_head`. -/
def builtin_head (e : State) (a : List lval) : Outcome (State × lval) :=
  check (INCARGS a 1 "head") e <|
  check (INCTYPE a 0 .LVAL_QEXPR "head") e <|
  check (EMPLST a "head") e <|
  match lval_take a 0 with
  | some (.qexpr v) => .ret (e, .qexpr (builtin_head_loop v.length v))
  | some (.sexpr v) => .ret (e, .sexpr (builtin_head_loop v.length v))
  | _ => .crash

/-- `builtin_tail`. -/
def builtin_tail (e : State) (a : List lval) : Outcome (State × lval) :=
  check (INCARGS a 1 "tail") e <|
  check (INCTYPE a 0 .LVAL_QEXPR "tail") e <|
  check (EMPLST a "tail") e <|
  match lval_take a 0 with
  | some (.qexpr v) =>
    (match lval_pop v 0 with
     | some (_, v1) => .ret (e, .qexpr v1)
     | none => .crash)
  | some (.sexpr v) =>
    (match lval_pop v 0 with
     | some (_, v1) => .ret (e, .sexpr v1)
     | none => .crash)
  | _ => .crash

/-- `builtin_list`: the argument list itself, retagged `LVAL_QEXPR`. -/
def builtin_list (e : State) (a : List lval) : Outcome (State × lval) :=
  .ret (e, .qexpr a)

/-- `builtin_eval`, over the evaluator `ev` that stands for `lval_eval`. -/
def builtin_eval (ev : State → lval → Outcome (State × lval)) (e : State) (a : List lval) :
    Outcome (State × lval) :=
  check (INCARGS a 1 "eval") e <|
  check (INCTYPE a 0 .LVAL_QEXPR "eval") e <|
  match lval_take a 0 with
  | some (.qexpr x) => ev e (.sexpr x)
  | some (.sexpr x) => ev e (.sexpr x)
  | _ => .crash

/-- `lval_add`: appends `x` to the cells of `v`, which must have cells. -/
def lval_add (v x : lval) : Outcome lval :=
  match v with
  | .sexpr c => .ret (.sexpr (c ++ [x]))
  | .qexpr c => .ret (.qexpr (c ++ [x]))
  | _ => .crash

/-- The loop `while (y->count) x = lval_add(x, lval_pop(y, 0));` of `lval_join`
over the cells still in `y`. -/
def lval_join_loop : lval → List lval → Outcome lval
  | x, [] => .ret x
  | x, c :: cs => (lval_add x c).bind fun x1 => lval_join_loop x1 cs

/-- `lval_join`. -/
def lval_join (x y : lval) : Outcome lval :=
  match y.cells with
  | none => .crash
  | some cs => lval_join_loop x cs

/-- The loop `while (a->count) x = lval_join(x, lval_pop(a, 0));` of
`builtin_join` over the cells still in `a`. -/
def builtin_join_loop : lval → List lval → Outcome lval
  | x, [] => .ret x
  | x, y :: rest => (lval_join x y).bind fun x1 => builtin_join_loop x1 rest

/-- `builtin_join`. -/
def builtin_join (e : State) (a : List lval) : Outcome (State × lval) :=
  check (INCTYPE_loop a .LVAL_QEXPR "join" 0 a.length) e <|
  match lval_pop a 0 with
  | none => .crash
  | some (x, a1) => (builtin_join_loop x a1).bind fun r => .ret (e, r)

/-- `builtin_cons`. -/
def builtin_cons (e : State) (a : List lval) : Outcome (State × lval) :=
  check (INCARGS a 2 "cons") e <|
  check (INCTYPE a 0 .LVAL_NUM "cons") e <|
  check (INCTYPE a 1 .LVAL_QEXPR "cons") e <|
  match lval_pop a 1 with
  | none => .crash
  | some (x, a1) =>
    (builtin_list e a1).bind fun (e1, l) =>
    (lval_join l x).bind fun r => .ret (e1, r)

/-- The loop of `builtin_len`, which empties the list and counts in `n->num`. -/
def builtin_len_loop : Int → List lval → Int
  | n, [] => n
  | n, _ :: rest => builtin_len_loop (wrapLong (n + 1)) rest

/-- `builtin_len`. -/
def builtin_len (e : State) (a : List lval) : Outcome (State × lval) :=
  check (INCARGS a 1 "len") e <|
  check (INCTYPE a 0 .LVAL_QEXPR "len") e <|
  match lval_take a 0 with
  | some x =>
    (match x.cells with
     | some c => .ret (e, .num (builtin_len_loop 0 c))
     | none => .crash)
  | none => .crash

/-- `builtin_init`.  The empty-list check is made under the name `head`. -/
def builtin_init (e : State) (a : List lval) : Outcome (State × lval) :=
  check (INCARGS a 1 "init") e <|
  check (INCTYPE a 0 .LVAL_QEXPR "init") e <|
  check (EMPLST a "head") e <|
  match lval_take a 0 with
  | some (.qexpr v) =>
    (match lval_pop v (v.length - 1) with
     | some (_, v1) => .ret (e, .qexpr v1)
     | none => .crash)
  | some (.sexpr v) =>
    (match lval_pop v (v.length - 1) with
     | some (_, v1) => .ret (e, .sexpr v1)
     | none => .crash)
  | _ => .crash

/-- The second loop of `builtin_def`, at iteration `i`: `syms` holds
`syms->cell[i..]` and `vals` holds `a->cell[i+1..]`.  Each symbol is compared
with every entry of `builtins` and then bound with `lenv_put`; a cell that is
not a Symbol has no `sym` field to read. -/
def builtin_def_loop : State → List lval → List lval → Outcome (State × lval)
  | e, [], _ => .ret (e, .sexpr [])
  | e, k :: syms, vals =>
    match k with
    | .sym name =>
      if name ∈ e.builtins then
        .ret (e, lval_err "Function 'def' cannot define builtin symbol")
      else
        match vals with
        | v :: vals1 =>
          (lenv_put e.env name v).bind fun env1 =>
            builtin_def_loop { e with env := env1 } syms vals1
        | [] => .crash
    | _ => .crash

/-- `builtin_def`. -/
def builtin_def (e : State) (a : List lval) : Outcome (State × lval) :=
  check (INCTYPE a 0 .LVAL_QEXPR "def") e <|
  match a with
  | [] => .crash
  | s :: vals =>
    match s.cells with
    | none => .crash
    | some syms =>
      check (INCTYPE_loop syms .LVAL_SYM "def" 0 syms.length) e <|
      check (LASSERT (syms.length == a.length - 1)
        "Function 'def' cannot define incorrect number of values to symbols") e <|
      builtin_def_loop e syms vals

/-- The test `a->cell[0]->count == 0` of `builtin_values` and `builtin_exit`. -/
def first_is_empty (a : List lval) : Outcome Bool :=
  match a with
  | [] => .crash
  | c :: _ =>
    match c.cells with
    | some cs => .ret (cs.length == 0)
    | none => .crash

/-- `builtin_values`. -/
def builtin_values (e : State) (a : List lval) : Outcome (State × lval) :=
  check (INCARGS a 1 "values") e <|
  check (INCTYPE a 0 .LVAL_SEXPR "values") e <|
  check ((first_is_empty a).bind fun b =>
    LASSERT b "Function 'values' passed invalid input") e <|
  .ret ({ e with out := lenv_print e.env e.out }, .sexpr [])

/-- `builtin_exit`.  Its checks are those of `builtin_values`, with the same
messages. -/
def builtin_exit (e : State) (a : List lval) : Outcome (State × lval) :=
  check (INCARGS a 1 "values") e <|
  check (INCTYPE a 0 .LVAL_SEXPR "values") e <|
  check ((first_is_empty a).bind fun b =>
    LASSERT b "Function 'values' passed invalid input") e <|
  .ret ({ e with while_var := 2 }, .sexpr [])

/-- The call `f->fun(e, v)` through a function pointer. -/
def call_fun (ev : State → lval → Outcome (State × lval)) :
    lbuiltin → State → List lval → Outcome (State × lval)
  | .builtin_head => builtin_head
  | .builtin_tail => builtin_tail
  | .builtin_list => builtin_list
  | .builtin_eval => builtin_eval ev
  | .builtin_join => builtin_join
  | .builtin_cons => builtin_cons
  | .builtin_len => builtin_len
  | .builtin_init => builtin_init
  | .builtin_add => builtin_add
  | .builtin_sub => builtin_sub
  | .builtin_mul => builtin_mul
  | .builtin_div => builtin_div
  | .builtin_mod => builtin_mod
  | .builtin_pow => builtin_pow
  | .builtin_min => builtin_min
  | .builtin_max => builtin_max
  | .builtin_def => builtin_def
  | .builtin_values => builtin_values
  | .builtin_exit => builtin_exit

/-! ## Registration of the builtins -/

/-- `lenv_add_builtin`, with `lenv_add_builtin_to_array`: the name is appended
to `builtins` and bound to the function in the environment. -/
def lenv_add_builtin (e : State) (name : String) (func : lbuiltin) : Outcome State :=
  (lenv_put e.env name (.func func)).bind fun env1 =>
    .ret { e with builtins := e.builtins ++ [name], env := env1 }

/-- The calls of `lenv_add_builtins`, in order. -/
def builtin_table : List (String × lbuiltin) :=
  [("head", .builtin_head), ("tail", .builtin_tail), ("list", .builtin_list),
   ("eval", .builtin_eval), ("join", .builtin_join), ("cons", .builtin_cons),
   ("len", .builtin_len), ("init", .builtin_init),
   ("+", .builtin_add), ("add", .builtin_add), ("-", .builtin_sub), ("sub", .builtin_sub),
   ("*", .builtin_mul), ("mul", .builtin_mul), ("/", .builtin_div), ("div", .builtin_div),
   ("%", .builtin_mod), ("mod", .builtin_mod), ("^", .builtin_pow), ("pow", .builtin_pow),
   ("min", .builtin_min), ("max", .builtin_max),
   ("def", .builtin_def), ("values", .builtin_values),
   ("exit", .builtin_exit)]

/-- `lenv_add_builtins`. -/
def lenv_add_builtins (e : State) : Outcome State :=
  builtin_table.foldl (fun st p => st.bind fun e1 => lenv_add_builtin e1 p.1 p.2) (.ret e)

/-- The state in which `main` enters its loop: the one that `lenv_new`
followed by `lenv_add_builtins` returns (every value copied there is a
Function, so the registration does return). -/
def State.initial : State :=
  match lenv_add_builtins State.start with
  | .ret e => e
  | _ => State.start

/-! ## Evaluation -/

/-- The first loop of `lval_eval_sexpr`: every cell is replaced by its
evaluation, from left to right, the state being passed along. -/
def lval_eval_cells (ev : State → lval → Outcome (State × lval)) :
    State → List lval → Outcome (State × List lval)
  | e, [] => .ret (e, [])
  | e, c :: cs =>
    (ev e c).bind fun (e1, r) =>
    (lval_eval_cells ev e1 cs).bind fun (e2, rs) => .ret (e2, r :: rs)

/-- The second loop of `lval_eval_sexpr`: the first cell of type `LVAL_ERR`. -/
def first_error : List lval → Option lval
  | [] => none
  | c :: cs => if c.type = .LVAL_ERR then some c else first_error cs

/-- `lval_eval_sexpr` on an S-Expression with cells `cell`, over the evaluator
`ev` that stands for `lval_eval`. -/
def lval_eval_sexpr (ev : State → lval → Outcome (State × lval)) (e : State)
    (cell : List lval) : Outcome (State × lval) :=
  (lval_eval_cells ev e cell).bind fun (e1, v) =>
    match first_error v with
    | some x => .ret (e1, x)
    | none =>
      if v.length = 0 then .ret (e1, .sexpr v)
      else if v.length = 1 then
        (match lval_take v 0 with
         | some x => .ret (e1, x)
         | none => .crash)
      else
        match lval_pop v 0 with
        | none => .crash
        | some (f, args) =>
          match f with
          | .func g => call_fun ev g e1 args
          | _ => .ret (e1, lval_err "First element is not a function!")

/-- `lval_eval`, with a bound on the depth of nested calls of `lval_eval`. -/
def lval_eval : Nat → State → lval → Outcome (State × lval)
  | 0, _, _ => .nofuel
  | n + 1, e, v =>
    match v with
    | .sym s => (lenv_get e.env s).bind fun x => .ret (e, x)
    | .sexpr cell => lval_eval_sexpr (lval_eval n) e cell
    | _ => .ret (e, v)

/-! ## Reference folds -/

/-- The left fold `((a1 op a2) op a3) ... op an` of a binary operation over
`long`, each intermediate result being reduced to the range of `long`. -/
def fold_long (op : Int → Int → Int) (a1 : Int) (rest : List Int) : Int :=
  rest.foldl (fun acc y => wrapLong (op acc y)) a1

/-- Whether the division loop of `builtin_op`, started with `x` in `x->num` on
the operands `ys`, divides the smallest `long` by `-1` before it meets a zero
operand. -/
def div_overflows : Int → List Int → Bool
  | _, [] => false
  | x, y :: ys =>
    if y = 0 then false
    else if x = LONG_MIN ∧ y = -1 then true
    else div_overflows (wrapLong (Int.tdiv x y)) ys

/-! ## Reachable states -/

/-- The states that the loop of `main` can be in: it starts from
`State.initial`, calls `lval_eval` on the expression read from a line, and
assigns `0` or `1` to `while_var` after a line read in confirmation mode. -/
inductive Reachable : State → Prop where
  | initial : Reachable State.initial
  | eval (n : Nat) (e e' : State) (v r : lval) :
      Reachable e → lval_eval n e v = .ret (e', r) → Reachable e'
  | flag (e : State) (w : Int) :
      Reachable e → w = 0 ∨ w = 1 → Reachable { e with while_var := w }

/-- The protected names and their bindings are in `e'` what they are in `e`:
`builtins` is the same array, and `lenv_get` for each of its names returns the
same value. -/
def protected_kept (e e' : State) : Prop :=
  e'.builtins = e.builtins ∧ ∀ k ∈ e.builtins, lenv_get e'.env k = lenv_get e.env k

/-- The state `e'` comes from `e` by calls of `builtin_def` that return, none
or more, between which the output and `while_var` may change while the
environment and `builtins` stay as they are. -/
inductive def_steps : State → State → Prop where
  | same (e e' : State) :
      e'.env = e.env → e'.builtins = e.builtins → def_steps e e'
  | call (e e' : State) (a : List lval) (r : lval) :
      builtin_def e a = .ret (e', r) → def_steps e e'
  | trans (e e1 e' : State) : def_steps e e1 → def_steps e1 e' → def_steps e e'

/-! ## Reading -/

/-- The test `strstr(hay, needle) != NULL` on the characters of two strings:
whether `needle` occurs in `hay`. -/
def strstr_chars : List Char → List Char → Bool
  | [], needle => needle.isEmpty
  | c :: cs, needle => needle.isPrefixOf (c :: cs) || strstr_chars cs needle

/-- The test `strstr(hay, needle) != NULL`. -/
def strstr (hay needle : String) : Bool :=
  strstr_chars hay.data needle.data

/-- Modelled from the spec: the syntax-tree node `mpc_ast_t` of the parser,
whose declaration (`mpc.h`) is not in the repository: a tag string, the
literal text, and the ordered list of child nodes (`children_num` is its
length). -/
inductive mpc_ast_t where
  | mk (tag : String) (contents : String) (children : List mpc_ast_t)

/-- The field `t->tag`. -/
def mpc_ast_t.tag : mpc_ast_t → String
  | .mk t _ _ => t

/-- The field `t->contents`. -/
def mpc_ast_t.contents : mpc_ast_t → String
  | .mk _ c _ => c

/-- The C library predicate `isspace` in the C locale. -/
def isspace (c : Char) : Bool :=
  c = ' ' || c = '\t' || c = '\n' || c = '\x0b' || c = '\x0c' || c = '\r'

/-- The optional sign read by `strtol`: whether it is `-`, and the text after
it. -/
def strtol_sign : List Char → Bool × List Char
  | '-' :: r => (true, r)
  | '+' :: r => (false, r)
  | r => (false, r)

/-- Modelled from the spec: the library call `strtol(s, NULL, 10)` together
with the test `errno == ERANGE` after it, the text being parsed as a signed
integer as the C standard lays down: white space is skipped, then an optional
sign and the longest run of decimal digits are read (no digit gives `0`); a
value outside the range of `long` is replaced by `LONG_MAX` or `LONG_MIN` and
reported by `ERANGE`. -/
def strtol (s : String) : Int × Bool :=
  let cs := s.data.dropWhile isspace
  let signed : Bool × List Char := strtol_sign cs
  let digits := signed.2.takeWhile Char.isDigit
  let mag : Nat := digits.foldl (fun acc c => 10 * acc + (c.toNat - 48)) 0
  let v : Int := if signed.1 then -(mag : Int) else (mag : Int)
  if v > LONG_MAX then (LONG_MAX, true)
  else if v < LONG_MIN then (LONG_MIN, true)
  else (v, false)

/-- `lval_read_num`. -/
def lval_read_num (t : mpc_ast_t) : lval :=
  let x := strtol t.contents
  if !x.2 then .num x.1 else lval_err "invalid number"

/-- The test of the loop of `lval_read` for the children it skips: the
delimiters and the nodes tagged `regex`. -/
def lval_read_skips (c : mpc_ast_t) : Bool :=
  c.contents = "(" || c.contents = ")" || c.contents = "\x7b" || c.contents = "\x7d" ||
    c.tag = "regex"

mutual
/-- `lval_read`.  For a tag that is none of those tested `x` stays `NULL`; a
null result, which no caller tests, ends the run. -/
def lval_read : mpc_ast_t → Outcome lval
  | .mk tag contents children =>
    if strstr tag "number" then .ret (lval_read_num (.mk tag contents []))
    else if strstr tag "symbol" then .ret (.sym contents)
    else
      let x1 : Option lval := if tag = ">" then some (.sexpr []) else none
      let x2 : Option lval := if strstr tag "sexpr" then some (.sexpr []) else x1
      let x3 : Option lval := if strstr tag "qexpr" then some (.qexpr []) else x2
      lval_read_children x3 children
/-- The loop of `lval_read` over the children still to read, `x` being the
list built so far. -/
def lval_read_children : Option lval → List mpc_ast_t → Outcome lval
  | some x, [] => .ret x
  | none, [] => .crash
  | x, c :: cs =>
    if lval_read_skips c then lval_read_children x cs
    else
      match lval_read c with
      | .ret y =>
        (match x with
         | some v =>
           (match lval_add v y with
            | .ret x1 => lval_read_children (some x1) cs
            | .crash => .crash
            | .nofuel => .nofuel)
         | none => .crash)
      | .crash => .crash
      | .nofuel => .nofuel
end

/-! ## Normal forms -/

/-- Whether a value is one that `lval_eval` returns as it is: a Number, an
Error, a Function, a Q-Expression, or the S-Expression without cells; not a
Symbol and not an S-Expression with cells. -/
def is_normal : lval → Bool
  | .sym _ => false
  | .sexpr (_ :: _) => false
  | _ => true

/-- Every value bound in the environment is in normal form. -/
def env_normal (env : lenv) : Prop :=
  ∀ p ∈ env, is_normal p.2 = true

/-! ## Occurrences of `builtin_eval` -/

mutual
/-- Whether the function pointer `builtin_eval` occurs in a value, at any
depth. -/
def has_eval_fun : lval → Bool
  | .func f => decide (f = .builtin_eval)
  | .sexpr c => has_eval_fun_cells c
  | .qexpr c => has_eval_fun_cells c
  | _ => false
/-- Whether the function pointer `builtin_eval` occurs in one of the cells. -/
def has_eval_fun_cells : List lval → Bool
  | [] => false
  | x :: xs => has_eval_fun x || has_eval_fun_cells xs
end

mutual
/-- The names of the Symbols that occur in a value, at any depth, inside
Q-Expressions too. -/
def syms_of : lval → List String
  | .sym s => [s]
  | .sexpr c => syms_of_cells c
  | .qexpr c => syms_of_cells c
  | _ => []
/-- The names of the Symbols that occur in the cells. -/
def syms_of_cells : List lval → List String
  | [] => []
  | x :: xs => syms_of x ++ syms_of_cells xs
end

mutual
/-- The number of calls of `lval_eval` nested inside the call on a value when
no builtin calls it: one more than that of the deepest cell for an
S-Expression, none for any other value. -/
def nesting : lval → Nat
  | .sexpr c => nesting_cells c + 1
  | _ => 0
/-- The largest `nesting` among the cells. -/
def nesting_cells : List lval → Nat
  | [] => 0
  | x :: xs => max (nesting x) (nesting_cells xs)
end

/-- Every name that `lenv_get` looks up in `e` to a value without the function
pointer `builtin_eval` is looked up in `e'` to such a value too. -/
def eval_free_kept (e e' : State) : Prop :=
  ∀ s : String, (∀ x, lenv_get e.env s = .ret x → has_eval_fun x = false) →
    ∀ x, lenv_get e'.env s = .ret x → has_eval_fun x = false

/-! ## Auxiliary facts -/

@[simp] theorem Outcome.bind_ret {α β : Type} (a : α) (k : α → Outcome β) :
    (Outcome.ret a).bind k = k a := rfl

@[simp] theorem Outcome.bind_crash {α β : Type} (k : α → Outcome β) :
    (Outcome.crash : Outcome α).bind k = .crash := rfl

@[simp] theorem Outcome.bind_nofuel {α β : Type} (k : α → Outcome β) :
    (Outcome.nofuel : Outcome α).bind k = .nofuel := rfl

theorem bind_ret_inv {α β : Type} {o : Outcome α} {k : α → Outcome β} {b : β}
    (h : o.bind k = .ret b) : ∃ a, o = .ret a ∧ k a = .ret b := by
  cases o with
  | ret a => exact ⟨a, rfl, h⟩
  | crash => cases h
  | nofuel => cases h

theorem bind_pair_ret {o : Outcome lval} {e e' : State} {r : lval}
    (h : (o.bind fun x => Outcome.ret (e, x)) = .ret (e', r)) : e' = e ∧ o = .ret r := by
  obtain ⟨a, ha, hk⟩ := bind_ret_inv h
  simp only [Outcome.ret.injEq, Prod.mk.injEq] at hk
  exact ⟨hk.1.symm, by rw [ha, hk.2]⟩

theorem strcpy_sized_ret {s r : String} (h : strcpy_sized s = .ret r) : r = s := by
  unfold strcpy_sized at h
  split at h
  · simp only [Outcome.ret.injEq] at h
    exact h.symm
  · cases h

theorem strcpy_sized_fuel (s : String) : strcpy_sized s ≠ .nofuel := by
  unfold strcpy_sized
  split <;> simp

mutual
theorem lval_copy_ret : ∀ (v r : lval), lval_copy v = .ret r → r = v
  | .num _, r, h => by
    simp only [lval_copy, Outcome.ret.injEq] at h
    exact h.symm
  | .err m, r, h => by
    simp only [lval_copy] at h
    cases hs : strcpy_sized m with
    | ret m1 =>
      rw [hs] at h
      simp only [Outcome.ret.injEq] at h
      rw [← h, strcpy_sized_ret hs]
    | crash => rw [hs] at h; cases h
    | nofuel => rw [hs] at h; cases h
  | .sym m, r, h => by
    simp only [lval_copy] at h
    cases hs : strcpy_sized m with
    | ret m1 =>
      rw [hs] at h
      simp only [Outcome.ret.injEq] at h
      rw [← h, strcpy_sized_ret hs]
    | crash => rw [hs] at h; cases h
    | nofuel => rw [hs] at h; cases h
  | .func _, r, h => by
    simp only [lval_copy, Outcome.ret.injEq] at h
    exact h.symm
  | .sexpr c, r, h => by
    simp only [lval_copy] at h
    cases hs : lval_copy_cells c with
    | ret c1 =>
      rw [hs] at h
      simp only [Outcome.ret.injEq] at h
      rw [← h, lval_copy_cells_ret c c1 hs]
    | crash => rw [hs] at h; cases h
    | nofuel => rw [hs] at h; cases h
  | .qexpr c, r, h => by
    simp only [lval_copy] at h
    cases hs : lval_copy_cells c with
    | ret c1 =>
      rw [hs] at h
      simp only [Outcome.ret.injEq] at h
      rw [← h, lval_copy_cells_ret c c1 hs]
    | crash => rw [hs] at h; cases h
    | nofuel => rw [hs] at h; cases h
theorem lval_copy_cells_ret : ∀ (c r : List lval), lval_copy_cells c = .ret r → r = c
  | [], r, h => by
    simp only [lval_copy_cells, Outcome.ret.injEq] at h
    exact h.symm
  | x :: xs, r, h => by
    simp only [lval_copy_cells] at h
    cases hx : lval_copy x with
    | ret x1 =>
      rw [hx] at h
      cases hs : lval_copy_cells xs with
      | ret xs1 =>
        rw [hs] at h
        simp only [Outcome.ret.injEq] at h
        rw [← h, lval_copy_ret x x1 hx, lval_copy_cells_ret xs xs1 hs]
      | crash => rw [hs] at h; cases h
      | nofuel => rw [hs] at h; cases h
    | crash => rw [hx] at h; cases h
    | nofuel => rw [hx] at h; cases h
end

mutual
theorem lval_copy_fuel : ∀ v : lval, lval_copy v ≠ .nofuel
  | .num _ => by simp [lval_copy]
  | .err m => by
    simp only [lval_copy]
    cases hs : strcpy_sized m with
    | ret m1 => simp
    | crash => simp
    | nofuel => exact absurd hs (strcpy_sized_fuel m)
  | .sym m => by
    simp only [lval_copy]
    cases hs : strcpy_sized m with
    | ret m1 => simp
    | crash => simp
    | nofuel => exact absurd hs (strcpy_sized_fuel m)
  | .func _ => by simp [lval_copy]
  | .sexpr c => by
    simp only [lval_copy]
    cases hs : lval_copy_cells c with
    | ret c1 => simp
    | crash => simp
    | nofuel => exact absurd hs (lval_copy_cells_fuel c)
  | .qexpr c => by
    simp only [lval_copy]
    cases hs : lval_copy_cells c with
    | ret c1 => simp
    | crash => simp
    | nofuel => exact absurd hs (lval_copy_cells_fuel c)
theorem lval_copy_cells_fuel : ∀ c : List lval, lval_copy_cells c ≠ .nofuel
  | [] => by simp [lval_copy_cells]
  | x :: xs => by
    simp only [lval_copy_cells]
    cases hx : lval_copy x with
    | ret x1 =>
      cases hs : lval_copy_cells xs with
      | ret xs1 => simp
      | crash => simp
      | nofuel => exact absurd hs (lval_copy_cells_fuel xs)
    | crash => simp
    | nofuel => exact absurd hx (lval_copy_fuel x)
end

theorem lval_copy_cases (v : lval) : lval_copy v = .ret v ∨ lval_copy v = .crash := by
  cases h : lval_copy v with
  | ret r => rw [lval_copy_ret v r h]; exact Or.inl rfl
  | crash => exact Or.inr rfl
  | nofuel => exact absurd h (lval_copy_fuel v)

theorem lval_copy_func (f : lbuiltin) : lval_copy (.func f) = .ret (.func f) := rfl

theorem lval_copy_num (n : Int) : lval_copy (.num n) = .ret (.num n) := rfl

theorem lval_eval_cells_length (ev : State → lval → Outcome (State × lval)) :
    ∀ (cell : List lval) (e e1 : State) (rs : List lval),
      lval_eval_cells ev e cell = .ret (e1, rs) → rs.length = cell.length
  | [], e, e1, rs, h => by
    simp [lval_eval_cells] at h
    rw [← h.2]
  | c :: cs, e, e1, rs, h => by
    simp only [lval_eval_cells] at h
    cases hc : ev e c with
    | ret p =>
      obtain ⟨e2, r⟩ := p
      rw [hc] at h
      simp only [Outcome.bind_ret] at h
      cases hcs : lval_eval_cells ev e2 cs with
      | ret q =>
        obtain ⟨e3, rs1⟩ := q
        rw [hcs] at h
        simp only [Outcome.bind_ret, Outcome.ret.injEq, Prod.mk.injEq] at h
        rw [← h.2, List.length_cons, List.length_cons,
          lval_eval_cells_length ev cs e2 e3 rs1 hcs]
      | crash => rw [hcs] at h; simp at h
      | nofuel => rw [hcs] at h; simp at h
    | crash => rw [hc] at h; simp at h
    | nofuel => rw [hc] at h; simp at h

theorem first_error_none (v : List lval) (h : ∀ r ∈ v, r.type ≠ .LVAL_ERR) :
    first_error v = none := by
  induction v with
  | nil => rfl
  | cons c cs ih =>
    have hc : c.type ≠ .LVAL_ERR := h c (List.mem_cons_self _ _)
    simp only [first_error, hc, if_false]
    exact ih (fun r hr => h r (List.mem_cons_of_mem _ hr))

theorem first_error_append (pre post : List lval) (x : lval)
    (hpre : ∀ r ∈ pre, r.type ≠ .LVAL_ERR) (hx : x.type = .LVAL_ERR) :
    first_error (pre ++ x :: post) = some x := by
  induction pre with
  | nil => simp [first_error, hx]
  | cons c cs ih =>
    have hc : c.type ≠ .LVAL_ERR := hpre c (List.mem_cons_self _ _)
    simp only [List.cons_append, first_error, hc, if_false]
    exact ih (fun r hr => hpre r (List.mem_cons_of_mem _ hr))

/-! ## Evaluation of S-Expressions -/

/-- Claim C1. When the items of an S-Expression with at least two items are
evaluated from left to right, the state being passed along, and yield a
Function `f` followed by values none of which is an Error, `lval_eval` ends
exactly as the call of `f` in the resulting state on the remaining values
does. -/
theorem lval_eval_applies_head (n : Nat) (e e1 : State) (cell : List lval)
    (f : lbuiltin) (args : List lval)
    (hlen : 2 ≤ cell.length)
    (hev : lval_eval_cells (lval_eval n) e cell = .ret (e1, .func f :: args))
    (hok : ∀ r ∈ args, r.type ≠ .LVAL_ERR) :
    lval_eval (n + 1) e (.sexpr cell) = call_fun (lval_eval n) f e1 args := by
  have hl := lval_eval_cells_length _ _ _ _ _ hev
  have hfe : first_error (.func f :: args) = none := by
    apply first_error_none
    intro r hr
    rcases List.mem_cons.1 hr with h | h
    · rw [h]; simp [lval.type]
    · exact hok r h
  have h0 : (lval.func f :: args).length ≠ 0 := by simp
  have h1 : (lval.func f :: args).length ≠ 1 := by rw [hl]; omega
  simp only [lval_eval, lval_eval_sexpr, hev, Outcome.bind_ret, hfe, h0, h1, if_false]
  simp [lval_pop]

/-- The expression `(+ 1 (* 2 3))` evaluates to `7` in the initial state. -/
theorem lval_eval_applies_head_witness :
    lval_eval 3 State.initial (.sexpr [.sym "+", .num 1, .sexpr [.sym "*", .num 2, .num 3]])
      = .ret (State.initial, .num 7) :=
  (lval_eval_applies_head 2 State.initial State.initial
    [.sym "+", .num 1, .sexpr [.sym "*", .num 2, .num 3]] .builtin_add [.num 1, .num 6]
    (by decide) (by decide) (by decide)).trans (by decide)

/-- Claim C2. A Number, a Q-Expression (whatever its cells are), a Function
and an Error evaluate to themselves, and the state is left as it was. -/
theorem lval_eval_self_evaluating (n : Nat) (e : State) (v : lval)
    (h : v.type = .LVAL_NUM ∨ v.type = .LVAL_QEXPR ∨ v.type = .LVAL_FUN ∨
      v.type = .LVAL_ERR) :
    lval_eval (n + 1) e v = .ret (e, v) := by
  cases v <;> simp [lval.type] at h <;> rfl

/-- A Q-Expression holding a Symbol, an S-Expression and an Error is returned
as it is. -/
theorem lval_eval_self_evaluating_witness :
    lval_eval 1 State.initial (.qexpr [.sym "x", .sexpr [.sym "+", .num 1], .err "e"])
      = .ret (State.initial, .qexpr [.sym "x", .sexpr [.sym "+", .num 1], .err "e"]) :=
  lval_eval_self_evaluating 0 State.initial _ (by decide)

theorem lenv_get_unbound (env : lenv) (name : String) (h : ∀ p ∈ env, p.1 ≠ name) :
    lenv_get env name = .ret (lval_err ("Unbound symbol '" ++ name ++ "'")) := by
  induction env with
  | nil => rfl
  | cons p rest ih =>
    obtain ⟨s, v⟩ := p
    have hs : s ≠ name := h (s, v) (List.mem_cons_self _ _)
    simp only [lenv_get, hs, if_false]
    exact ih (fun q hq => h q (List.mem_cons_of_mem _ hq))

theorem lenv_get_bound (pre post : lenv) (name : String) (v : lval)
    (h : ∀ p ∈ pre, p.1 ≠ name) :
    lenv_get (pre ++ (name, v) :: post) name = lval_copy v := by
  induction pre with
  | nil => simp [lenv_get]
  | cons p rest ih =>
    obtain ⟨s, x⟩ := p
    have hs : s ≠ name := h (s, x) (List.mem_cons_self _ _)
    simp only [List.cons_append, lenv_get, hs, if_false]
    exact ih (fun q hq => h q (List.mem_cons_of_mem _ hq))

theorem lval_err_short (msg : String) (h : msg.length ≤ 510) : lval_err msg = .err msg := by
  unfold lval_err
  have : msg.data.take 510 = msg.data := List.take_of_length_le h
  rw [this]

/-- Evaluating a Symbol leaves the state as it was.  For a name without entry
in the environment the result is the Error whose message is the first 510
characters of `Unbound symbol '<name>'`, hence that text itself when the name
has at most 493 characters.  For a name with an entry the evaluation ends as
`lval_copy` on the value of the first entry of that name does. -/
theorem lval_eval_symbol (n : Nat) (e : State) (name : String) :
    ((∀ p ∈ e.env, p.1 ≠ name) →
      lval_eval (n + 1) e (.sym name)
        = .ret (e, .err ⟨("Unbound symbol '" ++ name ++ "'").data.take 510⟩) ∧
      (name.length ≤ 493 →
        lval_eval (n + 1) e (.sym name) = .ret (e, .err ("Unbound symbol '" ++ name ++ "'")))) ∧
    (∀ (pre post : lenv) (v : lval), e.env = pre ++ (name, v) :: post →
      (∀ p ∈ pre, p.1 ≠ name) →
      lval_eval (n + 1) e (.sym name) = (lval_copy v).bind fun x => .ret (e, x)) := by
  refine ⟨fun h => ⟨?_, fun hl => ?_⟩, fun pre post v henv hpre => ?_⟩
  · simp only [lval_eval, lenv_get_unbound e.env name h, lval_err, Outcome.bind_ret]
  · simp only [lval_eval, lenv_get_unbound e.env name h, Outcome.bind_ret]
    rw [lval_err_short]
    simp only [String.length_append]
    have h1 : "Unbound symbol '".length = 16 := by decide
    have h2 : "'".length = 1 := by decide
    omega
  · simp only [lval_eval, henv, lenv_get_bound pre post name v hpre]

set_option maxRecDepth 100000 in
/-- Claim C3: the code departs from it.  `lval_copy` copies the text of a
Symbol or an Error into a buffer of `sizeof(char*) + 1` bytes, whatever the
length of the text: with `x` bound to the Q-Expression of a Symbol of nine
characters, evaluating `x` writes past that buffer and returns no value, while
with a Symbol of eight characters it returns the bound value.  And `lval_err`
keeps 510 characters of a message, one fewer than its comment announces: for
the unbound name of 494 characters the Error is not `Unbound symbol '<name>'`,
a text of 511 characters. -/
theorem lval_eval_symbol_copy_overflow :
    lval_eval 1
        { State.initial with
          env := State.initial.env ++ [("x", .qexpr [.sym "abcdefghi"])] } (.sym "x")
      = .crash ∧
    lval_eval 1
        { State.initial with
          env := State.initial.env ++ [("x", .qexpr [.sym "abcdefgh"])] } (.sym "x")
      = .ret ({ State.initial with
                env := State.initial.env ++ [("x", .qexpr [.sym "abcdefgh"])] },
          .qexpr [.sym "abcdefgh"]) ∧
    (∀ p ∈ State.initial.env, p.1 ≠ String.mk (List.replicate 494 'a')) ∧
    ("Unbound symbol '" ++ String.mk (List.replicate 494 'a') ++ "'").length = 511 ∧
    lval_eval 1 State.initial (.sym (String.mk (List.replicate 494 'a')))
      ≠ .ret (State.initial,
          .err ("Unbound symbol '" ++ String.mk (List.replicate 494 'a') ++ "'")) := by
  decide

theorem lval_eval_cells_append (ev : State → lval → Outcome (State × lval)) :
    ∀ (left right : List lval) (e e1 e2 : State) (rs1 rs2 : List lval),
      lval_eval_cells ev e left = .ret (e1, rs1) →
      lval_eval_cells ev e1 right = .ret (e2, rs2) →
      lval_eval_cells ev e (left ++ right) = .ret (e2, rs1 ++ rs2)
  | [], right, e, e1, e2, rs1, rs2, h1, h2 => by
    simp only [lval_eval_cells, Outcome.ret.injEq, Prod.mk.injEq] at h1
    rw [← h1.2, List.nil_append, List.nil_append, h1.1, h2]
  | c :: cs, right, e, e1, e2, rs1, rs2, h1, h2 => by
    rw [List.cons_append]
    simp only [lval_eval_cells] at h1 ⊢
    cases hc : ev e c with
    | ret p =>
      obtain ⟨e3, r⟩ := p
      rw [hc] at h1
      simp only [Outcome.bind_ret] at h1 ⊢
      cases hcs : lval_eval_cells ev e3 cs with
      | ret q =>
        obtain ⟨e4, rs⟩ := q
        rw [hcs] at h1
        simp only [Outcome.bind_ret, Outcome.ret.injEq, Prod.mk.injEq] at h1
        rw [h1.1] at hcs
        rw [lval_eval_cells_append ev cs right e3 e1 e2 rs rs2 hcs h2, ← h1.2]
        rfl
      | crash => rw [hcs] at h1; simp at h1
      | nofuel => rw [hcs] at h1; simp at h1
    | crash => rw [hc] at h1; simp at h1
    | nofuel => rw [hc] at h1; simp at h1

/-- Claim C4. When the evaluation of the items of an S-Expression returns and
at least one of the results is an Error, `lval_eval` returns the leftmost
Error among them: neither the Error of a later item nor the result of applying
the head. -/
theorem lval_eval_sexpr_leftmost_error (n : Nat) (e e1 : State) (cell pre post : List lval)
    (m : String)
    (hev : lval_eval_cells (lval_eval n) e cell = .ret (e1, pre ++ .err m :: post))
    (hpre : ∀ r ∈ pre, r.type ≠ .LVAL_ERR) :
    lval_eval (n + 1) e (.sexpr cell) = .ret (e1, .err m) := by
  simp only [lval_eval, lval_eval_sexpr, hev, Outcome.bind_ret,
    first_error_append pre post (.err m) hpre rfl]

/-- In `(+ 1 a (/ 1 0))` the unbound `a` is reported, not the division by
zero and not a sum. -/
theorem lval_eval_sexpr_leftmost_error_witness :
    lval_eval 3 State.initial
        (.sexpr [.sym "+", .num 1, .sym "a", .sexpr [.sym "/", .num 1, .num 0]])
      = .ret (State.initial, .err "Unbound symbol 'a'") :=
  lval_eval_sexpr_leftmost_error 2 State.initial State.initial
    [.sym "+", .num 1, .sym "a", .sexpr [.sym "/", .num 1, .num 0]]
    [.func .builtin_add, .num 1] [.err "Division by zero!"] "Unbound symbol 'a'"
    (by decide) (by decide)

/-- Claim C5, as stated, fails: in `(y (def {x} 5) (exit ()))` the first item
evaluates to an Error, and yet the `def` and the `exit` on its right are
carried out: afterwards `x` is bound to `5` and the run flag is `2`, whereas
after the evaluation of the first item alone `x` is unbound and the flag is
`1`. -/
theorem lval_eval_sexpr_runs_right_siblings :
    lval_eval 3 State.initial
        (.sexpr [.sym "y", .sexpr [.sym "def", .qexpr [.sym "x"], .num 5],
          .sexpr [.sym "exit", .sexpr []]])
      = .ret ({ State.initial with
                  env := State.initial.env ++ [("x", .num 5)], while_var := 2 },
              .err "Unbound symbol 'y'") ∧
    lval_eval 2 State.initial (.sym "y")
      = .ret (State.initial, .err "Unbound symbol 'y'") ∧
    lenv_get (State.initial.env ++ [("x", .num 5)]) "x" = .ret (.num 5) ∧
    lenv_get State.initial.env "x" = .ret (.err "Unbound symbol 'x'") ∧
    State.initial.while_var = 1 := by
  decide

/-- Claim C5, amended. The items on the right of the first item that evaluates
to an Error are evaluated as well, before any result is inspected: when the
items `left` evaluate from state `e` to results containing an Error, reaching
state `e1`, and the items `right` then evaluate from `e1`, reaching state `e2`,
`lval_eval` on the whole S-Expression returns the leftmost Error of the results
of `left` in state `e2`. -/
theorem lval_eval_sexpr_error_after_all_items (n : Nat) (e e1 e2 : State)
    (left right pre post rs : List lval) (m : String)
    (hleft : lval_eval_cells (lval_eval n) e left = .ret (e1, pre ++ .err m :: post))
    (hpre : ∀ r ∈ pre, r.type ≠ .LVAL_ERR)
    (hright : lval_eval_cells (lval_eval n) e1 right = .ret (e2, rs)) :
    lval_eval (n + 1) e (.sexpr (left ++ right)) = .ret (e2, .err m) := by
  have h := lval_eval_cells_append _ left right e e1 e2 _ rs hleft hright
  rw [List.append_assoc, List.cons_append] at h
  simp only [lval_eval, lval_eval_sexpr, h, Outcome.bind_ret,
    first_error_append pre (post ++ rs) (.err m) hpre rfl]

/-- In `(y (exit ()))` the Error of `y` is returned in the state that `exit`
has left, with run flag `2`. -/
theorem lval_eval_sexpr_error_after_all_items_witness :
    lval_eval 3 State.initial (.sexpr [.sym "y", .sexpr [.sym "exit", .sexpr []]])
      = .ret ({ State.initial with while_var := 2 }, .err "Unbound symbol 'y'") :=
  lval_eval_sexpr_error_after_all_items 2 State.initial State.initial
    { State.initial with while_var := 2 }
    [.sym "y"] [.sexpr [.sym "exit", .sexpr []]] [] [] [.sexpr []] "Unbound symbol 'y'"
    (by decide) (by decide) (by decide)

/-- Claim C6. When the items of an S-Expression with at least two items
evaluate to values none of which is an Error and the first of which is not a
Function, `lval_eval` returns the Error `First element is not a function!` in
the state reached by the evaluation of the items: no builtin is called. -/
theorem lval_eval_sexpr_head_not_function (n : Nat) (e e1 : State) (cell : List lval)
    (r0 : lval) (args : List lval)
    (hlen : 2 ≤ cell.length)
    (hev : lval_eval_cells (lval_eval n) e cell = .ret (e1, r0 :: args))
    (hok : ∀ r ∈ r0 :: args, r.type ≠ .LVAL_ERR)
    (hfun : r0.type ≠ .LVAL_FUN) :
    lval_eval (n + 1) e (.sexpr cell) = .ret (e1, .err "First element is not a function!") := by
  have hl := lval_eval_cells_length _ _ _ _ _ hev
  have hfe := first_error_none _ hok
  have h0 : (r0 :: args).length ≠ 0 := by simp
  have h1 : (r0 :: args).length ≠ 1 := by rw [hl]; omega
  simp only [lval_eval, lval_eval_sexpr, hev, Outcome.bind_ret, hfe, h0, h1, if_false]
  have herr : lval_err "First element is not a function!"
      = .err "First element is not a function!" := by decide
  cases r0 <;> simp [lval_pop, lval.type, herr] at hfun ⊢

/-- The expression `(5 1 2)` evaluates to the Error. -/
theorem lval_eval_sexpr_head_not_function_witness :
    lval_eval 2 State.initial (.sexpr [.num 5, .num 1, .num 2])
      = .ret (State.initial, .err "First element is not a function!") :=
  lval_eval_sexpr_head_not_function 1 State.initial State.initial
    [.num 5, .num 1, .num 2] (.num 5) [.num 1, .num 2]
    (by decide) (by decide) (by decide) (by decide)

/-- Claim C7. The empty S-Expression evaluates to itself, and an S-Expression
with one item ends exactly as the evaluation of that item does: the item is
not applied, whatever it evaluates to. -/
theorem lval_eval_sexpr_empty_or_single (n : Nat) (e : State) :
    lval_eval (n + 1) e (.sexpr []) = .ret (e, .sexpr []) ∧
    ∀ x : lval, lval_eval (n + 1) e (.sexpr [x]) = lval_eval n e x := by
  refine ⟨rfl, fun x => ?_⟩
  simp only [lval_eval, lval_eval_sexpr, lval_eval_cells]
  cases hx : lval_eval n e x with
  | ret p =>
    obtain ⟨e1, r⟩ := p
    simp only [Outcome.bind_ret, first_error]
    by_cases hr : r.type = .LVAL_ERR
    · simp [hr]
    · simp [hr, lval_take, lval_pop]
  | crash => rfl
  | nofuel => rfl

/-! ## Arithmetic builtins -/

theorem INCTYPE_loop_pass (c : lval) (cs : List lval) (typ : ltype) (func : String)
    (h : c.type = typ) :
    ∀ (n i : Nat), INCTYPE_loop (c :: cs) typ func i n = .ret none
  | 0, _ => rfl
  | n + 1, i => by
    simp only [INCTYPE_loop, INCTYPE, h, ne_eq, not_true_eq_false, if_false]
    exact INCTYPE_loop_pass c cs typ func h n (i + 1)

theorem builtin_op_numbers (e : State) (op : String) (a1 : Int) (rest : List Int) :
    builtin_op e ((a1 :: rest).map .num) op
      = (builtin_op_loop op (if op = "-" ∧ rest.length = 0 then wrapLong (-a1) else a1)
          (rest.map .num)).bind fun r => .ret (e, r) := by
  simp only [builtin_op, List.map_cons,
    INCTYPE_loop_pass (.num a1) (rest.map .num) .LVAL_NUM op rfl, check, lval_pop,
    List.get?_cons_zero, List.eraseIdx_cons_zero, List.length_map]

theorem builtin_op_loop_add (x : Int) (rest : List Int) :
    builtin_op_loop "+" x (rest.map .num) = .ret (.num (fold_long (· + ·) x rest)) := by
  induction rest generalizing x with
  | nil => rfl
  | cons y ys ih => simp [builtin_op_loop, fold_long, ih]

theorem builtin_op_loop_sub (x : Int) (rest : List Int) :
    builtin_op_loop "-" x (rest.map .num) = .ret (.num (fold_long (· - ·) x rest)) := by
  induction rest generalizing x with
  | nil => rfl
  | cons y ys ih => simp [builtin_op_loop, fold_long, ih]

theorem builtin_op_loop_mul (x : Int) (rest : List Int) :
    builtin_op_loop "*" x (rest.map .num) = .ret (.num (fold_long (· * ·) x rest)) := by
  induction rest generalizing x with
  | nil => rfl
  | cons y ys ih => simp [builtin_op_loop, fold_long, ih]

/-- Claim C8. On Numbers `a1 ... an`, `builtin_add`, `builtin_sub` and
`builtin_mul` return the state as it was and the Number obtained by folding
the operation from the left in wrap-around `long` arithmetic.  With the single
argument `a1`, `builtin_sub` returns its negation and the two others `a1`
itself.  The names `+`, `-`, `*` and their aliases `add`, `sub`, `mul` are
registered with these functions. -/
theorem builtin_op_add_sub_mul (e : State) (a1 : Int) (rest : List Int) :
    builtin_add e ((a1 :: rest).map .num) = .ret (e, .num (fold_long (· + ·) a1 rest)) ∧
    builtin_mul e ((a1 :: rest).map .num) = .ret (e, .num (fold_long (· * ·) a1 rest)) ∧
    builtin_sub e ((a1 :: rest).map .num)
      = .ret (e, .num (if rest = [] then wrapLong (-a1) else fold_long (· - ·) a1 rest)) ∧
    builtin_add e [.num a1] = .ret (e, .num a1) ∧
    builtin_mul e [.num a1] = .ret (e, .num a1) ∧
    builtin_sub e [.num a1] = .ret (e, .num (wrapLong (-a1))) ∧
    lenv_get State.initial.env "+" = .ret (.func .builtin_add) ∧
    lenv_get State.initial.env "add" = .ret (.func .builtin_add) ∧
    lenv_get State.initial.env "-" = .ret (.func .builtin_sub) ∧
    lenv_get State.initial.env "sub" = .ret (.func .builtin_sub) ∧
    lenv_get State.initial.env "*" = .ret (.func .builtin_mul) ∧
    lenv_get State.initial.env "mul" = .ret (.func .builtin_mul) := by
  have hadd : ∀ l : List Int,
      builtin_add e ((a1 :: l).map .num) = .ret (e, .num (fold_long (· + ·) a1 l)) := by
    intro l
    rw [builtin_add, builtin_op_numbers]
    simp [builtin_op_loop_add]
  have hmul : ∀ l : List Int,
      builtin_mul e ((a1 :: l).map .num) = .ret (e, .num (fold_long (· * ·) a1 l)) := by
    intro l
    rw [builtin_mul, builtin_op_numbers]
    simp [builtin_op_loop_mul]
  have hsub : ∀ l : List Int,
      builtin_sub e ((a1 :: l).map .num)
        = .ret (e, .num (if l = [] then wrapLong (-a1) else fold_long (· - ·) a1 l)) := by
    intro l
    rw [builtin_sub, builtin_op_numbers]
    cases l with
    | nil => simp [builtin_op_loop]
    | cons y ys =>
      rw [if_neg (by simp), builtin_op_loop_sub]
      simp
  refine ⟨hadd rest, hmul rest, hsub rest, hadd [], hmul [], hsub [], ?_, ?_, ?_, ?_, ?_, ?_⟩ <;>
    decide

theorem builtin_op_loop_div (x : Int) (rest : List Int) :
    builtin_op_loop "/" x (rest.map .num)
      = if div_overflows x rest = true then .crash
        else if (0 : Int) ∈ rest then .ret (.err "Division by zero!")
        else .ret (.num (fold_long Int.tdiv x rest)) := by
  induction rest generalizing x with
  | nil => rfl
  | cons y ys ih =>
    have herr : lval_err "Division by zero!" = .err "Division by zero!" := by decide
    by_cases hy : y = 0
    · simp [builtin_op_loop, div_overflows, hy, herr]
    · have hy2 : ¬ (0 = y) := fun h => hy h.symm
      by_cases hp : x = LONG_MIN ∧ y = -1
      · simp [builtin_op_loop, div_overflows, hy, hp]
      · simp only [List.map_cons, builtin_op_loop, div_overflows, hy, hp, if_false, ih,
          List.mem_cons, hy2, false_or, fold_long, List.foldl_cons]
        simp

/-- Claim C9, as stated, fails: the quotient of the smallest `long` by `-1`
does not fit a `long`, and `x->num /= y->num` is then undefined (the division
instruction traps).  `(/ -9223372036854775808 -1)` holds no zero operand and
returns no Number; `(/ -9223372036854775808 -1 0)` holds a zero operand and
returns no Error. -/
theorem builtin_div_min_by_minus_one :
    lval_eval 2 State.initial
        (.sexpr [.sym "/", .num (-9223372036854775808), .num (-1)]) = .crash ∧
    lval_eval 2 State.initial
        (.sexpr [.sym "/", .num (-9223372036854775808), .num (-1), .num 0]) = .crash ∧
    builtin_div State.initial [.num LONG_MIN, .num (-1)] = .crash ∧
    builtin_div State.initial [.num LONG_MIN, .num (-1), .num 0] = .crash := by
  decide

/-- Claim C9, amended. On Numbers `a1 a2 ... an` with `n ≥ 2` such that the
division from the left does not divide the smallest `long` by `-1` before it
meets a zero operand, `builtin_div` (registered as `/` and `div`) returns the
Error `Division by zero!` if and only if one of `a2 ... an` is zero, and
otherwise the Number obtained by dividing from the left, the quotient being
truncated toward zero; in both cases the state is returned as it was.  When
the smallest `long` is divided by `-1`, nothing is returned. -/
theorem builtin_div_numbers (e : State) (a1 a2 : Int) (rest : List Int) :
    (div_overflows a1 (a2 :: rest) = false →
      (builtin_div e ((a1 :: a2 :: rest).map .num) = .ret (e, .err "Division by zero!")
        ↔ (0 : Int) ∈ a2 :: rest) ∧
      ((0 : Int) ∉ a2 :: rest →
        builtin_div e ((a1 :: a2 :: rest).map .num)
          = .ret (e, .num (fold_long Int.tdiv a1 (a2 :: rest))))) ∧
    (div_overflows a1 (a2 :: rest) = true →
      builtin_div e ((a1 :: a2 :: rest).map .num) = .crash) ∧
    lenv_get State.initial.env "/" = .ret (.func .builtin_div) ∧
    lenv_get State.initial.env "div" = .ret (.func .builtin_div) := by
  have h : builtin_div e ((a1 :: a2 :: rest).map .num)
      = if div_overflows a1 (a2 :: rest) = true then .crash
        else if (0 : Int) ∈ a2 :: rest then .ret (e, .err "Division by zero!")
        else .ret (e, .num (fold_long Int.tdiv a1 (a2 :: rest))) := by
    rw [builtin_div, builtin_op_numbers, if_neg (fun hc => absurd hc.1 (by decide)),
      builtin_op_loop_div]
    split
    · rfl
    · split <;> rfl
  refine ⟨fun hno => ⟨?_, ?_⟩, fun hov => ?_, by decide, by decide⟩
  · rw [h, if_neg (by rw [hno]; exact Bool.false_ne_true)]
    by_cases hz : (0 : Int) ∈ a2 :: rest
    · simp [hz]
    · simp only [hz, if_false, iff_false]
      intro hc
      cases hc
  · intro hz
    rw [h, if_neg (by rw [hno]; exact Bool.false_ne_true), if_neg hz]
  · rw [h, if_pos hov]

/-- The call `(/ 4 0)` gives the Error, `(/ -7 2)` gives `-3` and `(/ 100 5 2)`
gives `10`; none of them divides the smallest `long` by `-1`. -/
theorem builtin_div_numbers_witness :
    div_overflows 4 [0] = false ∧ div_overflows (-7) [2] = false ∧
    div_overflows 100 [5, 2] = false ∧
    builtin_div State.initial [.num 4, .num 0]
      = .ret (State.initial, .err "Division by zero!") ∧
    builtin_div State.initial [.num (-7), .num 2] = .ret (State.initial, .num (-3)) ∧
    builtin_div State.initial [.num 100, .num 5, .num 2] = .ret (State.initial, .num 10) :=
  ⟨by decide, by decide, by decide,
   ((builtin_div_numbers State.initial 4 0 []).1 (by decide)).1.2 (by decide),
   (((builtin_div_numbers State.initial (-7) 2 []).1 (by decide)).2 (by decide)).trans
     (by decide),
   (((builtin_div_numbers State.initial 100 5 [2]).1 (by decide)).2 (by decide)).trans
     (by decide)⟩

/-- Claim C10: the code departs from it.  `(% 4 0)` does not evaluate to an
Error: `builtin_op` computes `x->num %= y->num` without testing `y->num`, a
remainder by zero, whereas `(/ 4 0)` evaluates to the Error
`Division by zero!`. -/
theorem builtin_mod_zero_operand :
    lval_eval 2 State.initial (.sexpr [.sym "%", .num 4, .num 0]) = .crash ∧
    lval_eval 2 State.initial (.sexpr [.sym "mod", .num 4, .num 0]) = .crash ∧
    lval_eval 2 State.initial (.sexpr [.sym "/", .num 4, .num 0])
      = .ret (State.initial, .err "Division by zero!") := by
  decide

theorem builtin_op_loop_max (x : Int) (rest : List Int) :
    builtin_op_loop "max" x (rest.map .num) = .ret (.num x) := by
  induction rest with
  | nil => rfl
  | cons y ys ih => simp [builtin_op_loop, ih]

/-- Claim C11: the code departs from it.  `builtin_max` stores the larger of
`x->num` and `y->num` in `y->num` and then deletes `y`, so on Numbers it
returns its first argument: `(max 1 2)` evaluates to `1`, whereas `(max 2 1)`
evaluates to `2`. -/
theorem builtin_max_returns_first (e : State) (a1 : Int) (rest : List Int) :
    builtin_max e ((a1 :: rest).map .num) = .ret (e, .num a1) ∧
    lval_eval 2 State.initial (.sexpr [.sym "max", .num 1, .num 2])
      = .ret (State.initial, .num 1) ∧
    lval_eval 2 State.initial (.sexpr [.sym "max", .num 2, .num 1])
      = .ret (State.initial, .num 2) := by
  refine ⟨?_, by decide, by decide⟩
  rw [builtin_max, builtin_op_numbers, if_neg (fun hc => absurd hc.1 (by decide)),
    builtin_op_loop_max]
  rfl

/-- Claim C12: the code departs from it.  `builtin_min` compares its operands
after converting them from `long` to `int`, so outside the range of `int` the
result need not be the smallest argument, nor any argument: `(min 4294967296 1)`
evaluates to `0` and `(min 2147483648 5)` to `-2147483648`.  On two Numbers the
result is the smaller of the two converted operands. -/
theorem builtin_min_truncates (e : State) (a b : Int) :
    builtin_min e [.num a, .num b]
      = .ret (e, .num (if wrapInt a ≤ wrapInt b then wrapInt a else wrapInt b)) ∧
    lval_eval 2 State.initial (.sexpr [.sym "min", .num 4294967296, .num 1])
      = .ret (State.initial, .num 0) ∧
    lval_eval 2 State.initial (.sexpr [.sym "min", .num 2147483648, .num 5])
      = .ret (State.initial, .num (-2147483648)) := by
  refine ⟨?_, by decide, by decide⟩
  have h := builtin_op_numbers e "min" a [b]
  simp only [List.map_cons, List.map_nil] at h
  rw [builtin_min, h, if_neg (fun hc => absurd hc.1 (by decide))]
  by_cases hab : wrapInt a ≤ wrapInt b
  · have hba : ¬ wrapInt a > wrapInt b := not_lt.mpr hab
    simp [builtin_op_loop, hab, hba]
  · have hba : wrapInt a > wrapInt b := not_le.mp hab
    simp [builtin_op_loop, hab, hba]

/-- Claim C13: the code departs from it.  `builtin_op` passes both operands of
`^` to `power(int, int)`, which converts them from `long` to `int` and returns
`x * pow(x, y-1)` through the library function on `double`:
`(^ 4294967297 1)` evaluates to `1` and `(^ 0 4294967296)` to `1`, and the
product of `(^ 2 40)`, which fits a `long`, has no conversion to `int`.  A
negative exponent gives the Error, and `(^ 2 10)` evaluates to `1024`. -/
theorem builtin_pow_truncates :
    lval_eval 2 State.initial (.sexpr [.sym "^", .num 4294967297, .num 1])
      = .ret (State.initial, .num 1) ∧
    lval_eval 2 State.initial (.sexpr [.sym "^", .num 0, .num 4294967296])
      = .ret (State.initial, .num 1) ∧
    lval_eval 2 State.initial (.sexpr [.sym "^", .num 2, .num 40]) = .crash ∧
    lval_eval 2 State.initial (.sexpr [.sym "^", .num 2, .num 10])
      = .ret (State.initial, .num 1024) ∧
    lval_eval 2 State.initial (.sexpr [.sym "pow", .num 2, .num (-1)])
      = .ret (State.initial, .err "Invalid number!") := by
  decide

/-- Claim C14: the code departs from it.  The check macro of `builtin_op` tests
the type of `a->cell[0]` at every iteration, so only a first argument that is
not a Number is reported: `(+ {} 1)` evaluates to the type Error, but in
`(+ 1 {})` and `(* 2 3 +)` the loop goes on to read `y->num` of a value that
is not a Number, and no type Error is returned. -/
theorem builtin_op_checks_first_only :
    lval_eval 2 State.initial (.sexpr [.sym "+", .qexpr [], .num 1])
      = .ret (State.initial, .err
          "Function '+' passed incorrect type for argument 0. Got Q-Expression, expected Number.") ∧
    lval_eval 2 State.initial (.sexpr [.sym "+", .num 1, .qexpr []]) = .crash ∧
    lval_eval 2 State.initial (.sexpr [.sym "*", .num 2, .num 3, .sym "+"]) = .crash ∧
    INCTYPE [.num 1, .qexpr []] 1 .LVAL_NUM "+" = .ret none := by
  decide

/-! ## The environment -/

theorem lenv_put_copy {env env' : lenv} {k : String} {v : lval}
    (h : lenv_put env k v = .ret env') : lval_copy v = .ret v := by
  induction env generalizing env' with
  | nil =>
    simp only [lenv_put] at h
    rcases lval_copy_cases v with hc | hc
    · exact hc
    · rw [hc] at h; cases h
  | cons p rest ih =>
    obtain ⟨s, x⟩ := p
    simp only [lenv_put] at h
    split at h
    · rcases lval_copy_cases v with hc | hc
      · exact hc
      · rw [hc] at h; cases h
    · cases hr : lenv_put rest k v with
      | ret r => exact ih hr
      | crash => rw [hr] at h; cases h
      | nofuel => rw [hr] at h; cases h

theorem lenv_put_returns (env : lenv) (k : String) (v : lval) (hc : lval_copy v = .ret v) :
    ∃ env', lenv_put env k v = .ret env' := by
  induction env with
  | nil => exact ⟨[(k, v)], by simp only [lenv_put, hc, Outcome.bind_ret]⟩
  | cons p rest ih =>
    obtain ⟨s, x⟩ := p
    obtain ⟨r, hr⟩ := ih
    by_cases hs : s = k
    · exact ⟨(s, v) :: rest, by simp only [lenv_put, hs, if_true, hc, Outcome.bind_ret]⟩
    · exact ⟨(s, x) :: r, by simp only [lenv_put, hs, if_false, hr, Outcome.bind_ret]⟩

theorem lenv_put_crash (env : lenv) (k : String) (v : lval) (hc : lval_copy v = .crash) :
    lenv_put env k v = .crash := by
  induction env with
  | nil => simp only [lenv_put, hc, Outcome.bind_crash]
  | cons p rest ih =>
    obtain ⟨s, x⟩ := p
    by_cases hs : s = k
    · simp only [lenv_put, hs, if_true, hc, Outcome.bind_crash]
    · simp only [lenv_put, hs, if_false, ih, Outcome.bind_crash]

theorem lenv_put_fuel (env : lenv) (k : String) (v : lval) : lenv_put env k v ≠ .nofuel := by
  rcases lval_copy_cases v with hc | hc
  · obtain ⟨r, hr⟩ := lenv_put_returns env k v hc
    rw [hr]; simp
  · rw [lenv_put_crash env k v hc]; simp

theorem lenv_get_fuel (env : lenv) (k : String) : lenv_get env k ≠ .nofuel := by
  induction env with
  | nil => simp [lenv_get]
  | cons p rest ih =>
    obtain ⟨s, x⟩ := p
    simp only [lenv_get]
    split
    · exact lval_copy_fuel x
    · exact ih

theorem lenv_get_put_same {env env' : lenv} {k : String} {v : lval}
    (h : lenv_put env k v = .ret env') : lenv_get env' k = .ret v := by
  have hc := lenv_put_copy h
  induction env generalizing env' with
  | nil =>
    simp only [lenv_put, hc, Outcome.bind_ret, Outcome.ret.injEq] at h
    rw [← h]
    simp [lenv_get, hc]
  | cons p rest ih =>
    obtain ⟨s, x⟩ := p
    by_cases hs : s = k
    · simp only [lenv_put, hs, if_true, hc, Outcome.bind_ret, Outcome.ret.injEq] at h
      rw [← h]
      simp [lenv_get, hc]
    · simp only [lenv_put, hs, if_false] at h
      cases hr : lenv_put rest k v with
      | ret r =>
        rw [hr] at h
        simp only [Outcome.bind_ret, Outcome.ret.injEq] at h
        rw [← h]
        simp only [lenv_get, hs, if_false]
        exact ih hr
      | crash => rw [hr] at h; cases h
      | nofuel => rw [hr] at h; cases h

theorem lenv_get_put_other {env env' : lenv} {k : String} {v : lval} (k2 : String)
    (h : lenv_put env k v = .ret env') (hk : k2 ≠ k) :
    lenv_get env' k2 = lenv_get env k2 := by
  have hc := lenv_put_copy h
  have hk1 : ¬ k = k2 := fun hc => hk hc.symm
  induction env generalizing env' with
  | nil =>
    simp only [lenv_put, hc, Outcome.bind_ret, Outcome.ret.injEq] at h
    rw [← h]
    simp [lenv_get, hk1]
  | cons p rest ih =>
    obtain ⟨s, x⟩ := p
    by_cases hs : s = k
    · simp only [lenv_put, hs, if_true, hc, Outcome.bind_ret, Outcome.ret.injEq] at h
      rw [← h]
      simp [lenv_get, hs, hk1]
    · simp only [lenv_put, hs, if_false] at h
      cases hr : lenv_put rest k v with
      | ret r =>
        rw [hr] at h
        simp only [Outcome.bind_ret, Outcome.ret.injEq] at h
        rw [← h]
        by_cases hs2 : s = k2
        · simp [lenv_get, hs2]
        · simp only [lenv_get, hs2, if_false]
          exact ih hr
      | crash => rw [hr] at h; cases h
      | nofuel => rw [hr] at h; cases h

theorem lenv_put_names_bound {env env' : lenv} {k : String} {v : lval}
    (h : lenv_put env k v = .ret env') (hb : k ∈ env.map Prod.fst) :
    env'.map Prod.fst = env.map Prod.fst := by
  have hc := lenv_put_copy h
  induction env generalizing env' with
  | nil => simp at hb
  | cons p rest ih =>
    obtain ⟨s, x⟩ := p
    by_cases hs : s = k
    · simp only [lenv_put, hs, if_true, hc, Outcome.bind_ret, Outcome.ret.injEq] at h
      rw [← h]
      simp [hs]
    · have hr0 : k ∈ rest.map Prod.fst := by
        rcases List.mem_cons.1 hb with h1 | h1
        · exact absurd h1.symm hs
        · exact h1
      simp only [lenv_put, hs, if_false] at h
      cases hr : lenv_put rest k v with
      | ret r =>
        rw [hr] at h
        simp only [Outcome.bind_ret, Outcome.ret.injEq] at h
        rw [← h]
        simp [ih hr hr0]
      | crash => rw [hr] at h; cases h
      | nofuel => rw [hr] at h; cases h

theorem lenv_put_unbound (env : lenv) (k : String) (v : lval)
    (h : k ∉ env.map Prod.fst) :
    lenv_put env k v = (lval_copy v).bind fun c => .ret (env ++ [(k, c)]) := by
  induction env with
  | nil => simp [lenv_put]
  | cons p rest ih =>
    obtain ⟨s, x⟩ := p
    have hs : s ≠ k := fun hc => h (by simp [hc])
    have hr : k ∉ rest.map Prod.fst := fun hc => h (List.mem_cons_of_mem _ hc)
    simp only [lenv_put, hs, if_false, ih hr]
    cases lval_copy v <;> simp

theorem lenv_put_unbound_ret {env env' : lenv} {k : String} {v : lval}
    (h : lenv_put env k v = .ret env') (hk : k ∉ env.map Prod.fst) :
    env' = env ++ [(k, v)] := by
  have hc := lenv_put_copy h
  rw [lenv_put_unbound env k v hk, hc] at h
  simp only [Outcome.bind_ret, Outcome.ret.injEq] at h
  exact h.symm

theorem lenv_put_nodup {env env' : lenv} {k : String} {v : lval}
    (h : lenv_put env k v = .ret env')
    (hn : (env.map Prod.fst).Nodup) : (env'.map Prod.fst).Nodup := by
  by_cases hk : k ∈ env.map Prod.fst
  · rw [lenv_put_names_bound h hk]
    exact hn
  · rw [lenv_put_unbound_ret h hk, List.map_append, List.map_cons, List.map_nil]
    exact List.Nodup.append hn (List.nodup_singleton k)
      (List.disjoint_singleton.2 hk)

/-- Claim C19: the code departs from it.  `lenv_put` stores `lval_copy(v)` and
`lenv_get` returns `lval_copy` of the stored value; `lval_copy` copies the
text of a Symbol or an Error with `strcpy` into `malloc(sizeof(v->sym) + 1)`,
nine bytes, where the constructor `lval_sym` allocates `strlen(s) + 1`.  For
a Symbol of nine or more characters, alone or inside a Q-Expression, the put
writes past the buffer and returns nothing; so does the get of such a value.
With eight characters the put binds the value and the get returns it. -/
theorem lenv_put_copy_overflow :
    lenv_put lenv_new "x" (.sym "abcdefghijklmnopqrstuvwx") = .crash ∧
    lenv_put [("x", .num 1)] "x" (.qexpr [.sym "abcdefghi"]) = .crash ∧
    lenv_get [("x", .qexpr [.sym "abcdefghi"])] "x" = .crash ∧
    lenv_put [("x", .num 1)] "x" (.qexpr [.sym "abcdefgh"])
      = .ret [("x", .qexpr [.sym "abcdefgh"])] ∧
    lenv_get [("x", .qexpr [.sym "abcdefgh"])] "x" = .ret (.qexpr [.sym "abcdefgh"]) := by
  decide

/-- Claim C20. No name occurs twice among the names of an environment built
from `lenv_new` by any sequence of `lenv_put` calls.  A `lenv_put` of a name
that is bound leaves the list of names, hence their number and positions, as
it was; a `lenv_put` of a name that is not bound appends one entry, for that
name, at the end.  A `lenv_put` returns whenever the copy of the value
does. -/
theorem lenv_put_names (puts : List (String × lval)) (env : lenv) (k : String) (v : lval) :
    (∀ env' : lenv,
      puts.foldl (fun (en : Outcome lenv) (p : String × lval) => en.bind fun en1 => lenv_put en1 p.1 p.2) (.ret lenv_new)
        = .ret env' → (env'.map Prod.fst).Nodup) ∧
    (k ∈ env.map Prod.fst →
      ∀ env' : lenv, lenv_put env k v = .ret env' → env'.map Prod.fst = env.map Prod.fst) ∧
    (k ∉ env.map Prod.fst →
      lenv_put env k v = (lval_copy v).bind fun c => .ret (env ++ [(k, c)])) ∧
    (lval_copy v = .ret v → ∃ env' : lenv, lenv_put env k v = .ret env') := by
  refine ⟨?_, fun hk env' h => lenv_put_names_bound h hk, lenv_put_unbound env k v,
    lenv_put_returns env k v⟩
  have hgen : ∀ (l : List (String × lval)) (en : Outcome lenv),
      (∀ en1, en = .ret en1 → (en1.map Prod.fst).Nodup) →
      ∀ env' : lenv,
        l.foldl (fun (en : Outcome lenv) (p : String × lval) => en.bind fun en1 => lenv_put en1 p.1 p.2) en = .ret env' →
        (env'.map Prod.fst).Nodup := by
    intro l
    induction l with
    | nil => intro en h env' he; exact h env' he
    | cons p ps ih =>
      intro en h env' he
      rw [List.foldl_cons] at he
      refine ih _ (fun en1 hen1 => ?_) env' he
      cases en with
      | ret e0 => exact lenv_put_nodup hen1 (h e0 rfl)
      | crash => cases hen1
      | nofuel => cases hen1
  exact hgen puts (.ret lenv_new) (fun en1 h => by
    simp only [Outcome.ret.injEq] at h
    rw [← h]
    simp [lenv_new])

/-- Putting `x`, `y` and `x` again gives the names `x`, `y`; rebinding `x`
keeps the two names in place and binding `z` appends it. -/
theorem lenv_put_names_witness :
    ([("x", lval.num 1), ("y", .num 2), ("x", .num 3)].foldl
        (fun (en : Outcome lenv) (p : String × lval) => en.bind fun en1 => lenv_put en1 p.1 p.2) (.ret lenv_new))
      = .ret [("x", .num 3), ("y", .num 2)] ∧
    (["x", "y"] : List String).Nodup ∧
    ([("x", lval.num 3), ("y", lval.num 2)] : lenv).map Prod.fst
      = ([("x", lval.num 1), ("y", lval.num 2)] : lenv).map Prod.fst ∧
    lenv_put [("x", .num 1), ("y", .num 2)] "z" (.num 3)
      = .ret [("x", .num 1), ("y", .num 2), ("z", .num 3)] :=
  ⟨by decide,
   (lenv_put_names [("x", .num 1), ("y", .num 2), ("x", .num 3)] [] "x" (.num 3)).1
     [("x", .num 3), ("y", .num 2)] (by decide),
   (lenv_put_names [] [("x", .num 1), ("y", .num 2)] "x" (.num 3)).2.1 (by decide)
     [("x", .num 3), ("y", .num 2)] (by decide),
   ((lenv_put_names [] [("x", .num 1), ("y", .num 2)] "z" (.num 3)).2.2.1
     (by decide)).trans (by decide)⟩

/-! ## The builtin `def` -/

theorem INCTYPE_loop_syms (names : List String) (func : String) :
    INCTYPE_loop (names.map .sym) .LVAL_SYM func 0 (names.map lval.sym).length = .ret none := by
  cases names with
  | nil => rfl
  | cons s ns => exact INCTYPE_loop_pass (.sym s) (ns.map .sym) .LVAL_SYM func rfl _ 0

theorem builtin_def_symbols (e : State) (names : List String) (rest : List lval)
    (vals : List lval) (h : names.length + rest.length = vals.length) :
    builtin_def e (.qexpr (names.map .sym ++ rest) :: vals)
      = check (INCTYPE_loop (names.map .sym ++ rest) .LVAL_SYM "def" 0
          (names.map lval.sym ++ rest).length) e
          (builtin_def_loop e (names.map .sym ++ rest) vals) := by
  have hl : ((names.map lval.sym ++ rest).length == (lval.qexpr (names.map .sym ++ rest) :: vals).length - 1)
      = true := by
    simp [h]
  simp only [builtin_def, INCTYPE, lval.type, ne_eq, not_true_eq_false, if_false, check,
    lval.cells, hl, LASSERT, Bool.not_true, Bool.false_eq_true]

theorem builtin_def_loop_binds :
    ∀ (names : List String) (vals : List lval) (e : State),
      names.Nodup → names.length = vals.length → (∀ s ∈ names, s ∉ e.builtins) →
      (∀ v ∈ vals, lval_copy v = .ret v) →
      ∃ env', builtin_def_loop e (names.map .sym) vals
          = .ret ({ e with env := env' }, .sexpr []) ∧
        (∀ p ∈ names.zip vals, lenv_get env' p.1 = .ret p.2) ∧
        (∀ k, k ∉ names → lenv_get env' k = lenv_get e.env k)
  | [], vals, e, _, _, _, _ => ⟨e.env, rfl, by simp, fun _ _ => rfl⟩
  | s :: ns, [], e, _, hl, _, _ => by simp at hl
  | s :: ns, v :: vs, e, hd, hl, hp, hfit => by
    have hs : s ∉ e.builtins := hp s (List.mem_cons_self _ _)
    have hd' := List.nodup_cons.1 hd
    obtain ⟨env1, hput⟩ := lenv_put_returns e.env s v (hfit v (List.mem_cons_self _ _))
    obtain ⟨env', h1, h2, h3⟩ := builtin_def_loop_binds ns vs
      { e with env := env1 } hd'.2 (by simpa using hl)
      (fun t ht => hp t (List.mem_cons_of_mem _ ht))
      (fun x hx => hfit x (List.mem_cons_of_mem _ hx))
    refine ⟨env', ?_, ?_, ?_⟩
    · simp only [List.map_cons, builtin_def_loop, hs, if_false, hput, Outcome.bind_ret]
      exact h1
    · intro p hp'
      rw [List.zip_cons_cons] at hp'
      rcases List.mem_cons.1 hp' with hp' | hp'
      · rw [hp']
        show lenv_get env' s = .ret v
        rw [h3 s hd'.1]
        exact lenv_get_put_same hput
      · exact h2 p hp'
    · intro k hk
      have hks : k ≠ s := fun hc => hk (by simp [hc])
      have hkn : k ∉ ns := fun hc => hk (List.mem_cons_of_mem _ hc)
      rw [h3 k hkn]
      exact lenv_get_put_other k hput hks

/-- What `builtin_def` does when every copy fits its buffer: for pairwise
distinct names `s1 ... sn`, none of them in `builtins`, and values
`v1 ... vn` on which `lval_copy` returns, `builtin_def` applied to
`{s1 ... sn} v1 ... vn` returns the empty S-Expression; in the state it
leaves, which differs from the previous one in the environment only,
evaluating the Symbol `si` returns `vi`, and `lenv_get` for every name other
than `s1 ... sn` returns what it returned before. -/
theorem builtin_def_binds (e : State) (names : List String) (vals : List lval)
    (hd : names.Nodup) (hl : names.length = vals.length)
    (hp : ∀ s ∈ names, s ∉ e.builtins)
    (hfit : ∀ v ∈ vals, lval_copy v = .ret v) :
    ∃ e' : State, builtin_def e (.qexpr (names.map .sym) :: vals) = .ret (e', .sexpr []) ∧
      e'.builtins = e.builtins ∧ e'.while_var = e.while_var ∧ e'.out = e.out ∧
      (∀ p ∈ names.zip vals, ∀ n : Nat, lval_eval (n + 1) e' (.sym p.1) = .ret (e', p.2)) ∧
      (∀ k, k ∉ names → lenv_get e'.env k = lenv_get e.env k) := by
  obtain ⟨env', h1, h2, h3⟩ := builtin_def_loop_binds names vals e hd hl hp hfit
  refine ⟨{ e with env := env' }, ?_, rfl, rfl, rfl, ?_, h3⟩
  · have h := builtin_def_symbols e names [] vals (by simpa using hl)
    simp only [List.append_nil] at h
    rw [h, INCTYPE_loop_syms]
    exact h1
  · intro p hp' n
    simp only [lval_eval, h2 p hp', Outcome.bind_ret]

/-- Claim C15: the code departs from it.  `builtin_def` binds each symbol with
`lenv_put`, which stores `lval_copy(v)`; `lval_copy` copies the text of a
Symbol with `strcpy` into `malloc(sizeof(v->sym) + 1)`, nine bytes whatever
the text.  `(def {x} {abcdefghijklmnopqrstuvwxyz0123456789})` writes past
that buffer: it returns nothing, and `x` is not bound to the value.  With the
value `5`, or a Symbol of eight characters, the call returns `()` and `x`
evaluates to the value. -/
theorem builtin_def_copy_overflow :
    lval_eval 2 State.initial
        (.sexpr [.sym "def", .qexpr [.sym "x"],
          .qexpr [.sym "abcdefghijklmnopqrstuvwxyz0123456789"]]) = .crash ∧
    builtin_def State.initial [.qexpr [.sym "x"], .qexpr [.sym "abcdefghi"]] = .crash ∧
    lval_eval 2 State.initial (.sexpr [.sym "def", .qexpr [.sym "x"], .num 5])
      = .ret ({ State.initial with env := State.initial.env ++ [("x", .num 5)] },
          .sexpr []) ∧
    lval_eval 1 { State.initial with env := State.initial.env ++ [("x", .num 5)] } (.sym "x")
      = .ret ({ State.initial with env := State.initial.env ++ [("x", .num 5)] }, .num 5) ∧
    builtin_def State.initial [.qexpr [.sym "x"], .qexpr [.sym "abcdefgh"]]
      = .ret ({ State.initial with
                env := State.initial.env ++ [("x", .qexpr [.sym "abcdefgh"])] },
          .sexpr []) := by
  decide

theorem builtin_def_loop_protected :
    ∀ (names : List String) (vals : List lval) (e : State),
      (∃ s ∈ names, s ∈ e.builtins) → names.length = vals.length →
      (∀ v ∈ vals, lval_copy v = .ret v) →
      ∃ env', builtin_def_loop e (names.map .sym) vals
          = .ret ({ e with env := env' }, .err "Function 'def' cannot define builtin symbol") ∧
        (∀ k ∈ e.builtins, lenv_get env' k = lenv_get e.env k)
  | [], _, _, hex, _, _ => by simp at hex
  | s :: ns, [], e, _, hl, _ => by simp at hl
  | s :: ns, v :: vs, e, hex, hl, hfit => by
    by_cases hs : s ∈ e.builtins
    · refine ⟨e.env, ?_, fun _ _ => rfl⟩
      have herr : lval_err "Function 'def' cannot define builtin symbol"
          = .err "Function 'def' cannot define builtin symbol" := by decide
      simp only [List.map_cons, builtin_def_loop, hs, if_true, herr]
    · have hex' : ∃ t ∈ ns, t ∈ e.builtins := by
        obtain ⟨t, ht, htb⟩ := hex
        rcases List.mem_cons.1 ht with h | h
        · exact absurd (h ▸ htb) hs
        · exact ⟨t, h, htb⟩
      obtain ⟨env1, hput⟩ := lenv_put_returns e.env s v (hfit v (List.mem_cons_self _ _))
      obtain ⟨env', h1, h2⟩ := builtin_def_loop_protected ns vs
        { e with env := env1 } hex' (by simpa using hl)
        (fun x hx => hfit x (List.mem_cons_of_mem _ hx))
      refine ⟨env', ?_, ?_⟩
      · simp only [List.map_cons, builtin_def_loop, hs, if_false, hput, Outcome.bind_ret]
        exact h1
      · intro k hk
        rw [h2 k hk]
        exact lenv_get_put_other k hput (fun hc => hs (hc ▸ hk))

/-- Claim C16, as stated, fails: `(def {+} 5 6)` has the protected name `+` in
its symbol list and returns the Error of the count check, which precedes the
check of the names, not the Error for a protected name. -/
theorem builtin_def_protected_count_first :
    lval_eval 2 State.initial (.sexpr [.sym "def", .qexpr [.sym "+"], .num 5, .num 6])
      = .ret (State.initial,
          .err "Function 'def' cannot define incorrect number of values to symbols") ∧
    lval_eval 2 State.initial (.sexpr [.sym "def", .qexpr [.sym "+"], .num 5, .num 6])
      ≠ .ret (State.initial, lval_err "Function 'def' cannot define builtin symbol") := by
  decide

/-- Claim C16, amended. When the first argument of `builtin_def` is a
Q-Expression of Symbols one of which is in `builtins`, and `lval_copy` returns
on each of the values (the symbols before the protected one are bound, each to
a copy of its value), the call returns an Error:
`Function 'def' cannot define builtin symbol` when there are as many values as
symbols, and the Error of the count check, in an unchanged state, otherwise.
In both cases `builtins` is as before and `lenv_get` for every name in
`builtins` returns what it returned before the call. -/
theorem builtin_def_protected (e : State) (names : List String) (vals : List lval)
    (hex : ∃ s ∈ names, s ∈ e.builtins)
    (hfit : ∀ v ∈ vals, lval_copy v = .ret v) :
    ∃ (e' : State) (m : String),
      builtin_def e (.qexpr (names.map .sym) :: vals) = .ret (e', .err m) ∧
      (names.length = vals.length → m = "Function 'def' cannot define builtin symbol") ∧
      (names.length ≠ vals.length →
        m = "Function 'def' cannot define incorrect number of values to symbols" ∧ e' = e) ∧
      e'.builtins = e.builtins ∧
      ∀ k ∈ e.builtins, lenv_get e'.env k = lenv_get e.env k := by
  by_cases hl : names.length = vals.length
  · obtain ⟨env', h1, h2⟩ := builtin_def_loop_protected names vals e hex hl hfit
    refine ⟨{ e with env := env' }, _, ?_, fun _ => rfl, fun hc => absurd hl hc, rfl, h2⟩
    have h := builtin_def_symbols e names [] vals (by simpa using hl)
    simp only [List.append_nil] at h
    rw [h, INCTYPE_loop_syms]
    exact h1
  · refine ⟨e, _, ?_, fun hc => absurd hc hl, fun _ => ⟨rfl, rfl⟩, rfl, fun _ _ => rfl⟩
    have hb : ((names.map lval.sym).length == (lval.qexpr (names.map .sym) :: vals).length - 1)
        = false := by
      simpa using hl
    have herr : lval_err "Function 'def' cannot define incorrect number of values to symbols"
        = .err "Function 'def' cannot define incorrect number of values to symbols" := by
      decide
    simp only [builtin_def, INCTYPE, lval.type, ne_eq, not_true_eq_false, if_false, check,
      lval.cells, INCTYPE_loop_syms, hb, LASSERT, Bool.not_false, if_true, herr]

/-- After `(def {+} 5)` in the initial state, `+` is bound to `builtin_add` as
before. -/
theorem builtin_def_protected_witness :
    ∃ e' : State,
      builtin_def State.initial [.qexpr [.sym "+"], .num 5]
        = .ret (e', .err "Function 'def' cannot define builtin symbol") ∧
      lenv_get e'.env "+" = .ret (.func .builtin_add) := by
  obtain ⟨e', m, h1, h2, _, _, h5⟩ :=
    builtin_def_protected State.initial ["+"] [.num 5] ⟨"+", by decide, by decide⟩
      (by decide)
  exact ⟨e', (h2 (by decide)) ▸ h1, (h5 "+" (by decide)).trans (by decide)⟩

/-- Claim C17: the code departs from it.  `builtin_def` compares a symbol with
the protected names only when its turn to be bound has come, after the
symbols before it have been bound: `(def {x +} 1 2)` returns the Error for a
protected name and leaves `x`, unbound before, bound to `1`. -/
theorem builtin_def_binds_before_error :
    lval_eval 2 State.initial
        (.sexpr [.sym "def", .qexpr [.sym "x", .sym "+"], .num 1, .num 2])
      = .ret ({ State.initial with env := State.initial.env ++ [("x", .num 1)] },
          .err "Function 'def' cannot define builtin symbol") ∧
    lenv_get State.initial.env "x" = .ret (.err "Unbound symbol 'x'") ∧
    lenv_get (State.initial.env ++ [("x", .num 1)]) "x" = .ret (.num 1) := by
  decide

/-! ## Protected names -/

theorem protected_kept_refl (e : State) : protected_kept e e :=
  ⟨rfl, fun _ _ => rfl⟩

theorem protected_kept_trans {e1 e2 e3 : State} (h12 : protected_kept e1 e2)
    (h23 : protected_kept e2 e3) : protected_kept e1 e3 :=
  ⟨h23.1.trans h12.1, fun k hk => (h23.2 k (h12.1 ▸ hk)).trans (h12.2 k hk)⟩

theorem protected_kept_of_env {e e' : State} (h : e'.env = e.env ∧ e'.builtins = e.builtins) :
    protected_kept e e' :=
  ⟨h.2, fun _ _ => by rw [h.1]⟩

theorem check_ret {c : Outcome (Option lval)} {e : State} {k : Outcome (State × lval)}
    {e' : State} {r : lval} (h : check c e k = .ret (e', r)) :
    e' = e ∨ k = .ret (e', r) := by
  unfold check at h
  split at h
  · simp only [Outcome.ret.injEq, Prod.mk.injEq] at h
    exact Or.inl h.1.symm
  · exact Or.inr h
  · cases h
  · cases h

theorem bind_ret_state {α : Type} {o : Outcome α} {e e' : State} {f : α → lval} {r : lval}
    (h : (o.bind fun x => Outcome.ret (e, f x)) = .ret (e', r)) : e' = e := by
  cases o with
  | ret a =>
    simp only [Outcome.bind_ret, Outcome.ret.injEq, Prod.mk.injEq] at h
    exact h.1.symm
  | crash => cases h
  | nofuel => cases h

theorem builtin_op_state {e e' : State} {a : List lval} {op : String} {r : lval}
    (h : builtin_op e a op = .ret (e', r)) : e' = e := by
  unfold builtin_op at h
  rcases check_ret h with h1 | h
  · exact h1
  split at h
  · cases h
  · split at h
    · exact bind_ret_state h
    · cases h

theorem ret_state {e e' : State} {x r : lval}
    (h : (Outcome.ret (e, x) : Outcome (State × lval)) = .ret (e', r)) : e' = e := by
  simp only [Outcome.ret.injEq, Prod.mk.injEq] at h
  exact h.1.symm

theorem builtin_head_state {e e' : State} {a : List lval} {r : lval}
    (h : builtin_head e a = .ret (e', r)) : e' = e := by
  unfold builtin_head at h
  rcases check_ret h with h1 | h
  · exact h1
  rcases check_ret h with h1 | h
  · exact h1
  rcases check_ret h with h1 | h
  · exact h1
  split at h <;> first | exact ret_state h | cases h

theorem builtin_tail_state {e e' : State} {a : List lval} {r : lval}
    (h : builtin_tail e a = .ret (e', r)) : e' = e := by
  unfold builtin_tail at h
  rcases check_ret h with h1 | h
  · exact h1
  rcases check_ret h with h1 | h
  · exact h1
  rcases check_ret h with h1 | h
  · exact h1
  split at h <;> first | cases h | (split at h <;> first | exact ret_state h | cases h)

theorem builtin_init_state {e e' : State} {a : List lval} {r : lval}
    (h : builtin_init e a = .ret (e', r)) : e' = e := by
  unfold builtin_init at h
  rcases check_ret h with h1 | h
  · exact h1
  rcases check_ret h with h1 | h
  · exact h1
  rcases check_ret h with h1 | h
  · exact h1
  split at h <;> first | cases h | (split at h <;> first | exact ret_state h | cases h)

theorem builtin_len_state {e e' : State} {a : List lval} {r : lval}
    (h : builtin_len e a = .ret (e', r)) : e' = e := by
  unfold builtin_len at h
  rcases check_ret h with h1 | h
  · exact h1
  rcases check_ret h with h1 | h
  · exact h1
  split at h <;> first | cases h | (split at h <;> first | exact ret_state h | cases h)

theorem builtin_join_state {e e' : State} {a : List lval} {r : lval}
    (h : builtin_join e a = .ret (e', r)) : e' = e := by
  unfold builtin_join at h
  rcases check_ret h with h1 | h
  · exact h1
  split at h
  · cases h
  · exact bind_ret_state h

theorem builtin_cons_state {e e' : State} {a : List lval} {r : lval}
    (h : builtin_cons e a = .ret (e', r)) : e' = e := by
  unfold builtin_cons at h
  rcases check_ret h with h1 | h
  · exact h1
  rcases check_ret h with h1 | h
  · exact h1
  rcases check_ret h with h1 | h
  · exact h1
  split at h
  · cases h
  · simp only [builtin_list, Outcome.bind_ret] at h
    exact bind_ret_state h

theorem builtin_values_state {e e' : State} {a : List lval} {r : lval}
    (h : builtin_values e a = .ret (e', r)) :
    e'.env = e.env ∧ e'.builtins = e.builtins := by
  unfold builtin_values at h
  rcases check_ret h with h1 | h
  · rw [h1]; exact ⟨rfl, rfl⟩
  rcases check_ret h with h1 | h
  · rw [h1]; exact ⟨rfl, rfl⟩
  rcases check_ret h with h1 | h
  · rw [h1]; exact ⟨rfl, rfl⟩
  simp only [Outcome.ret.injEq, Prod.mk.injEq] at h
  rw [← h.1]
  exact ⟨rfl, rfl⟩

theorem builtin_exit_state {e e' : State} {a : List lval} {r : lval}
    (h : builtin_exit e a = .ret (e', r)) :
    e'.env = e.env ∧ e'.builtins = e.builtins := by
  unfold builtin_exit at h
  rcases check_ret h with h1 | h
  · rw [h1]; exact ⟨rfl, rfl⟩
  rcases check_ret h with h1 | h
  · rw [h1]; exact ⟨rfl, rfl⟩
  rcases check_ret h with h1 | h
  · rw [h1]; exact ⟨rfl, rfl⟩
  simp only [Outcome.ret.injEq, Prod.mk.injEq] at h
  rw [← h.1]
  exact ⟨rfl, rfl⟩

theorem builtin_def_loop_kept :
    ∀ (syms vals : List lval) (e e' : State) (r : lval),
      builtin_def_loop e syms vals = .ret (e', r) → protected_kept e e'
  | [], _, e, e', r, h => by
    rw [ret_state h]
    exact protected_kept_refl e
  | k :: syms, vals, e, e', r, h => by
    unfold builtin_def_loop at h
    split at h
    · rename_i name
      split at h
      · rw [ret_state h]
        exact protected_kept_refl e
      · rename_i hn
        split at h
        · rename_i v vals1
          obtain ⟨env1, hput, h⟩ := bind_ret_inv h
          have h1 := builtin_def_loop_kept syms vals1 _ e' r h
          have h0 : protected_kept e { e with env := env1 } :=
            ⟨rfl, fun k hk => lenv_get_put_other k hput (fun hc => hn (hc ▸ hk))⟩
          exact protected_kept_trans h0 h1
        · cases h
    · cases h

theorem builtin_def_kept {e e' : State} {a : List lval} {r : lval}
    (h : builtin_def e a = .ret (e', r)) : protected_kept e e' := by
  unfold builtin_def at h
  rcases check_ret h with h1 | h
  · rw [h1]; exact protected_kept_refl e
  split at h
  · cases h
  · split at h
    · cases h
    · rcases check_ret h with h1 | h
      · rw [h1]; exact protected_kept_refl e
      rcases check_ret h with h1 | h
      · rw [h1]; exact protected_kept_refl e
      exact builtin_def_loop_kept _ _ _ _ _ h

theorem builtin_eval_kept {ev : State → lval → Outcome (State × lval)}
    (hev : ∀ e v e' r, ev e v = .ret (e', r) → protected_kept e e')
    {e e' : State} {a : List lval} {r : lval}
    (h : builtin_eval ev e a = .ret (e', r)) : protected_kept e e' := by
  unfold builtin_eval at h
  rcases check_ret h with h1 | h
  · rw [h1]; exact protected_kept_refl e
  rcases check_ret h with h1 | h
  · rw [h1]; exact protected_kept_refl e
  split at h
  · exact hev _ _ _ _ h
  · exact hev _ _ _ _ h
  · cases h

theorem call_fun_kept {ev : State → lval → Outcome (State × lval)}
    (hev : ∀ e v e' r, ev e v = .ret (e', r) → protected_kept e e')
    {f : lbuiltin} {e e' : State} {a : List lval} {r : lval}
    (h : call_fun ev f e a = .ret (e', r)) : protected_kept e e' := by
  have hst : ∀ {e e' : State}, e' = e → protected_kept e e' :=
    fun he => he ▸ protected_kept_refl _
  cases f <;> simp only [call_fun] at h
  · exact hst (builtin_head_state h)
  · exact hst (builtin_tail_state h)
  · exact hst (ret_state h)
  · exact builtin_eval_kept hev h
  · exact hst (builtin_join_state h)
  · exact hst (builtin_cons_state h)
  · exact hst (builtin_len_state h)
  · exact hst (builtin_init_state h)
  · exact hst (builtin_op_state h)
  · exact hst (builtin_op_state h)
  · exact hst (builtin_op_state h)
  · exact hst (builtin_op_state h)
  · exact hst (builtin_op_state h)
  · exact hst (builtin_op_state h)
  · exact hst (builtin_op_state h)
  · exact hst (builtin_op_state h)
  · exact builtin_def_kept h
  · exact protected_kept_of_env (builtin_values_state h)
  · exact protected_kept_of_env (builtin_exit_state h)

theorem lval_eval_cells_kept {ev : State → lval → Outcome (State × lval)}
    (hev : ∀ e v e' r, ev e v = .ret (e', r) → protected_kept e e') :
    ∀ (cell : List lval) (e e' : State) (rs : List lval),
      lval_eval_cells ev e cell = .ret (e', rs) → protected_kept e e'
  | [], e, e', rs, h => by
    simp only [lval_eval_cells, Outcome.ret.injEq, Prod.mk.injEq] at h
    rw [← h.1]
    exact protected_kept_refl e
  | c :: cs, e, e', rs, h => by
    simp only [lval_eval_cells] at h
    cases hc : ev e c with
    | ret p =>
      obtain ⟨e1, r1⟩ := p
      rw [hc] at h
      simp only [Outcome.bind_ret] at h
      cases hcs : lval_eval_cells ev e1 cs with
      | ret q =>
        obtain ⟨e2, rs1⟩ := q
        rw [hcs] at h
        simp only [Outcome.bind_ret, Outcome.ret.injEq, Prod.mk.injEq] at h
        rw [← h.1]
        exact protected_kept_trans (hev _ _ _ _ hc) (lval_eval_cells_kept hev cs e1 e2 rs1 hcs)
      | crash => rw [hcs] at h; cases h
      | nofuel => rw [hcs] at h; cases h
    | crash => rw [hc] at h; cases h
    | nofuel => rw [hc] at h; cases h

theorem lval_eval_sexpr_kept {ev : State → lval → Outcome (State × lval)}
    (hev : ∀ e v e' r, ev e v = .ret (e', r) → protected_kept e e')
    {e e' : State} {cell : List lval} {r : lval}
    (h : lval_eval_sexpr ev e cell = .ret (e', r)) : protected_kept e e' := by
  unfold lval_eval_sexpr at h
  cases hc : lval_eval_cells ev e cell with
  | ret p =>
    obtain ⟨e1, v⟩ := p
    rw [hc] at h
    simp only [Outcome.bind_ret] at h
    have h1 := lval_eval_cells_kept hev cell e e1 v hc
    have hst : ∀ {x : lval}, Outcome.ret (e1, x) = Outcome.ret (e', r) → protected_kept e e' :=
      fun hx => (ret_state hx) ▸ h1
    split at h
    · exact hst h
    · split at h
      · exact hst h
      · split at h
        · split at h
          · exact hst h
          · cases h
        · split at h
          · cases h
          · split at h
            · exact protected_kept_trans h1 (call_fun_kept hev h)
            · exact hst h
  | crash => rw [hc] at h; cases h
  | nofuel => rw [hc] at h; cases h

theorem lval_eval_kept :
    ∀ (n : Nat) (e : State) (v : lval) (e' : State) (r : lval),
      lval_eval n e v = .ret (e', r) → protected_kept e e'
  | 0, _, _, _, _, h => by cases h
  | n + 1, e, v, e', r, h => by
    unfold lval_eval at h
    split at h
    · rw [(bind_pair_ret h).1]; exact protected_kept_refl e
    · exact lval_eval_sexpr_kept (lval_eval_kept n) h
    · rw [ret_state h]; exact protected_kept_refl e

theorem lenv_add_builtins_start : lenv_add_builtins State.start = .ret State.initial := by
  decide

theorem builtin_table_registered :
    State.initial.builtins = builtin_table.map Prod.fst ∧
    ∀ p ∈ builtin_table, lenv_get State.initial.env p.1 = .ret (.func p.2) := by
  decide

/-- Claim C18. In every state that the interpreter can reach from the initial
one, through any calls of `lval_eval` on any values, `builtins` holds the 25
registered names and each of them is bound to the Function it was registered
with. -/
theorem reachable_builtins_bound (e : State) (h : Reachable e) :
    builtin_table.length = 25 ∧
    e.builtins = builtin_table.map Prod.fst ∧
    ∀ p ∈ builtin_table, lenv_get e.env p.1 = .ret (.func p.2) := by
  refine ⟨rfl, ?_⟩
  induction h with
  | initial => exact builtin_table_registered
  | eval n e e' v r _ hev ih =>
    have hk := lval_eval_kept n e v e' r hev
    refine ⟨hk.1.trans ih.1, fun p hp => ?_⟩
    have hmem : p.1 ∈ e.builtins := by
      rw [ih.1]
      exact List.mem_map_of_mem _ hp
    rw [hk.2 p.1 hmem]
    exact ih.2 p hp
  | flag e w _ _ ih => exact ih

/-- After `(def {x} 5)` and `(def {+} 5)` in the initial state, `+` is still
bound to `builtin_add` and `eval` to `builtin_eval`. -/
theorem reachable_builtins_bound_witness :
    lenv_get (State.initial.env ++ [("x", .num 5)]) "+" = .ret (.func .builtin_add) ∧
    lenv_get (State.initial.env ++ [("x", .num 5)]) "eval" = .ret (.func .builtin_eval) :=
  have hr : Reachable { State.initial with env := State.initial.env ++ [("x", .num 5)] } :=
    Reachable.eval 2 { State.initial with env := State.initial.env ++ [("x", .num 5)] }
      { State.initial with env := State.initial.env ++ [("x", .num 5)] }
      (.sexpr [.sym "def", .qexpr [.sym "+"], .num 5])
      (.err "Function 'def' cannot define builtin symbol")
      (Reachable.eval 2 State.initial
        { State.initial with env := State.initial.env ++ [("x", .num 5)] }
        (.sexpr [.sym "def", .qexpr [.sym "x"], .num 5]) (.sexpr [])
        Reachable.initial (by decide))
      (by decide)
  ⟨(reachable_builtins_bound _ hr).2.2 ("+", .builtin_add) (by decide),
   (reachable_builtins_bound _ hr).2.2 ("eval", .builtin_eval) (by decide)⟩

/-! ## List builtins -/

theorem lval_eval_succ_sexpr (n : Nat) (e : State) (cell : List lval) :
    lval_eval (n + 1) e (.sexpr cell) = lval_eval_sexpr (lval_eval n) e cell := rfl

theorem lval_eval_succ_sym (n : Nat) (e : State) (s : String) :
    lval_eval (n + 1) e (.sym s) = (lenv_get e.env s).bind fun x => .ret (e, x) := rfl

theorem lval_err_type (m : String) : (lval_err m).type = .LVAL_ERR := rfl

theorem lval_err_is_err (m : String) : ∃ m', lval_err m = .err m' := ⟨_, rfl⟩

theorem INCARGS_fail (a : List lval) (num : Nat) (func : String) (h : a.length ≠ num) :
    ∃ m, INCARGS a num func = .ret (some (.err m)) := by
  simp only [INCARGS, h, ne_eq, not_false_eq_true, if_true]
  exact ⟨_, rfl⟩

theorem INCARGS_pass (a : List lval) (num : Nat) (func : String) (h : a.length = num) :
    INCARGS a num func = .ret none := by
  simp only [INCARGS, h, ne_eq, not_true_eq_false, if_false]

theorem INCTYPE_fail (v : lval) (rest : List lval) (i : Nat) (typ : ltype) (func : String)
    (h : v.type ≠ typ) :
    ∃ m, INCTYPE (v :: rest) i typ func = .ret (some (.err m)) := by
  simp only [INCTYPE, h, ne_eq, not_false_eq_true, if_true]
  exact ⟨_, rfl⟩

theorem INCTYPE_pass (v : lval) (rest : List lval) (i : Nat) (typ : ltype) (func : String)
    (h : v.type = typ) :
    INCTYPE (v :: rest) i typ func = .ret none := by
  simp only [INCTYPE, h, ne_eq, not_true_eq_false, if_false]

theorem builtin_head_loop_first (x : lval) :
    ∀ (n : Nat) (xs : List lval), xs.length ≤ n → builtin_head_loop n (x :: xs) = [x]
  | 0, xs, h => by
    have : xs = [] := List.length_eq_zero.1 (Nat.le_zero.1 h)
    rw [this]
    rfl
  | n + 1, [], _ => by simp [builtin_head_loop]
  | n + 1, y :: ys, h => by
    have hl : ys.length ≤ n := by simpa using h
    simp only [builtin_head_loop, List.length_cons]
    rw [if_pos (by omega)]
    exact builtin_head_loop_first x n ys hl

/-- Claim C22, as stated, fails for `n = 0`: the S-Expression `(list)` has one
item and evaluates to that item, the Function bound to `list`, not to the
empty Q-Expression. -/
theorem lval_eval_list_alone :
    lval_eval 2 State.initial (.sexpr [.sym "list"])
      = .ret (State.initial, .func .builtin_list) ∧
    lval_eval 2 State.initial (.sexpr [.sym "list"]) ≠ .ret (State.initial, .qexpr []) := by
  decide

/-- Claim C22, amended. `builtin_list` returns the Q-Expression of its
arguments, whatever their number.  When `list` is bound to it and the
expressions `a1 ... an`, `n ≥ 1`, evaluate from left to right to values
`r1 ... rn` none of which is an Error, `(list a1 ... an)` evaluates to
`{r1 ... rn}`; `(list)` evaluates to the Function itself. -/
theorem lval_eval_list (n : Nat) (e e1 : State) (args rs : List lval)
    (hlist : lenv_get e.env "list" = .ret (.func .builtin_list))
    (hev : lval_eval_cells (lval_eval n) e args = .ret (e1, rs))
    (hne : args ≠ [])
    (hok : ∀ r ∈ rs, r.type ≠ .LVAL_ERR) :
    lval_eval (n + 1) e (.sexpr (.sym "list" :: args)) = .ret (e1, .qexpr rs) ∧
    (∀ a : List lval, builtin_list e a = .ret (e, .qexpr a)) ∧
    lval_eval (n + 1) e (.sexpr [.sym "list"]) = .ret (e, .func .builtin_list) := by
  obtain ⟨m, hm⟩ : ∃ m, n = m + 1 := by
    cases n with
    | zero =>
      cases args with
      | nil => exact absurd rfl hne
      | cons c cs => simp [lval_eval_cells, lval_eval] at hev
    | succ m => exact ⟨m, rfl⟩
  have hl := lval_eval_cells_length _ _ _ _ _ hev
  have hrs : rs ≠ [] := fun hc => hne (List.length_eq_zero.1 (by rw [← hl, hc]; rfl))
  have hsym : lval_eval n e (.sym "list") = .ret (e, .func .builtin_list) := by
    rw [hm, lval_eval_succ_sym, hlist, Outcome.bind_ret]
  have hfe : first_error (.func .builtin_list :: rs) = none := by
    apply first_error_none
    intro r hr
    rcases List.mem_cons.1 hr with h | h
    · rw [h]; simp [lval.type]
    · exact hok r h
  refine ⟨?_, fun _ => rfl, ?_⟩
  · have hcells : lval_eval_cells (lval_eval n) e (.sym "list" :: args)
        = .ret (e1, .func .builtin_list :: rs) := by
      simp only [lval_eval_cells, hsym, Outcome.bind_ret, hev]
    have h0 : (lval.func .builtin_list :: rs).length ≠ 0 := by simp
    have h1 : (lval.func .builtin_list :: rs).length ≠ 1 := by
      simpa using hrs
    rw [lval_eval_succ_sexpr]
    simp only [lval_eval_sexpr, hcells, Outcome.bind_ret, hfe, h0, h1, if_false]
    simp [lval_pop, call_fun, builtin_list]
  · have hcells : lval_eval_cells (lval_eval n) e [.sym "list"]
        = .ret (e, [.func .builtin_list]) := by
      simp only [lval_eval_cells, hsym, Outcome.bind_ret]
    rw [lval_eval_succ_sexpr]
    simp only [lval_eval_sexpr, hcells, Outcome.bind_ret]
    simp [first_error, lval.type, lval_take, lval_pop]

/-- The expression `(list 1 (+ 1 1) 3)` evaluates to `{1 2 3}`. -/
theorem lval_eval_list_witness :
    lval_eval 3 State.initial
        (.sexpr [.sym "list", .num 1, .sexpr [.sym "+", .num 1, .num 1], .num 3])
      = .ret (State.initial, .qexpr [.num 1, .num 2, .num 3]) :=
  (lval_eval_list 2 State.initial State.initial
    [.num 1, .sexpr [.sym "+", .num 1, .num 1], .num 3] [.num 1, .num 2, .num 3]
    (by decide) (by decide) (by decide) (by decide)).1

/-- Claim C23. `builtin_head` applied to the single argument `{x1 ... xn}`,
`n ≥ 1`, returns `{x1}`; applied to a number of arguments other than one, or
to one argument that is not a Q-Expression, it returns an Error.  The state
is returned as it was. -/
theorem builtin_head_first (e : State) (x : lval) (xs : List lval) :
    builtin_head e [.qexpr (x :: xs)] = .ret (e, .qexpr [x]) ∧
    (∀ a : List lval, a.length ≠ 1 → ∃ m, builtin_head e a = .ret (e, .err m)) ∧
    (∀ v : lval, v.type ≠ .LVAL_QEXPR → ∃ m, builtin_head e [v] = .ret (e, .err m)) := by
  refine ⟨?_, fun a ha => ?_, fun v hv => ?_⟩
  · simp only [builtin_head, INCARGS_pass [.qexpr (x :: xs)] 1 "head" rfl, check,
      INCTYPE_pass (.qexpr (x :: xs)) [] 0 .LVAL_QEXPR "head" rfl, EMPLST, lval.cells,
      List.length_cons, Nat.succ_ne_zero, if_false, lval_take, lval_pop, List.get?_cons_zero]
    rw [builtin_head_loop_first x (xs.length + 1) xs (Nat.le_succ _)]
  · obtain ⟨m, hm⟩ := INCARGS_fail a 1 "head" ha
    exact ⟨m, by simp only [builtin_head, hm, check]⟩
  · obtain ⟨m, hm⟩ := INCTYPE_fail v [] 0 .LVAL_QEXPR "head" hv
    exact ⟨m, by simp only [builtin_head, INCARGS_pass [v] 1 "head" rfl, hm, check]⟩

/-- The call `(head {1 2 3})` returns `{1}`; `(head {1} {2})` and `(head 5)`
return Errors. -/
theorem builtin_head_first_witness :
    builtin_head State.initial [.qexpr [.num 1, .num 2, .num 3]]
      = .ret (State.initial, .qexpr [.num 1]) ∧
    (∃ m, builtin_head State.initial [.qexpr [.num 1], .qexpr [.num 2]]
      = .ret (State.initial, .err m)) ∧
    (∃ m, builtin_head State.initial [.num 5] = .ret (State.initial, .err m)) :=
  ⟨(builtin_head_first State.initial (.num 1) [.num 2, .num 3]).1,
   (builtin_head_first State.initial (.num 1) []).2.1 _ (by decide),
   (builtin_head_first State.initial (.num 1) []).2.2 (.num 5) (by decide)⟩

/-- Claim C24. `builtin_tail` applied to the single argument `{x1 ... xn}`,
`n ≥ 1`, returns `{x2 ... xn}`, the elements after the first in their order,
which is `{}` when `n = 1`. -/
theorem builtin_tail_rest (e : State) (x : lval) (xs : List lval) :
    builtin_tail e [.qexpr (x :: xs)] = .ret (e, .qexpr xs) ∧
    builtin_tail e [.qexpr [x]] = .ret (e, .qexpr []) := by
  have h : ∀ l : List lval, builtin_tail e [.qexpr (x :: l)] = .ret (e, .qexpr l) := by
    intro l
    simp only [builtin_tail, INCARGS_pass [.qexpr (x :: l)] 1 "tail" rfl, check,
      INCTYPE_pass (.qexpr (x :: l)) [] 0 .LVAL_QEXPR "tail" rfl, EMPLST, lval.cells,
      List.length_cons, Nat.succ_ne_zero, if_false, lval_take, lval_pop, List.get?_cons_zero,
      List.eraseIdx_cons_zero]
  exact ⟨h xs, h []⟩

/-- Claim C25. `builtin_init` applied to the single argument `{x1 ... xn}`,
`n ≥ 1`, returns `{x1 ... x(n-1)}`, the elements before the last in their
order, which is `{}` when `n = 1`. -/
theorem builtin_init_front (e : State) (x : lval) (xs : List lval) :
    builtin_init e [.qexpr (x :: xs)] = .ret (e, .qexpr (x :: xs).dropLast) ∧
    builtin_init e [.qexpr [x]] = .ret (e, .qexpr []) := by
  have h : ∀ l : List lval,
      builtin_init e [.qexpr (x :: l)] = .ret (e, .qexpr (x :: l).dropLast) := by
    intro l
    have hget : (x :: l).get? ((x :: l).length - 1) = some ((x :: l).getLast (by simp)) := by
      rw [List.getLast_eq_getElem, List.get?_eq_getElem?]
      exact List.getElem?_eq_getElem _
    have hdrop : (x :: l).eraseIdx ((x :: l).length - 1) = (x :: l).dropLast :=
      (List.dropLast_eq_eraseIdx (by simp)).symm
    simp only [builtin_init, INCARGS_pass [.qexpr (x :: l)] 1 "init" rfl, check,
      INCTYPE_pass (.qexpr (x :: l)) [] 0 .LVAL_QEXPR "init" rfl, EMPLST, lval.cells,
      List.length_cons, Nat.succ_ne_zero, if_false, lval_take, lval_pop, List.get?_cons_zero]
    simp only [List.length_cons] at hget hdrop
    rw [hget]
    simp only [hdrop]
  exact ⟨h xs, h []⟩

theorem EMPLST_message (func : String) (rest : List lval) :
    EMPLST (.qexpr [] :: rest) func
      = .ret (some (lval_err ("Function '" ++ func ++ "' passed empty list \x7b\x7d."))) := rfl

/-- Claim C26. `builtin_head`, `builtin_tail` and `builtin_init` applied to the
single argument `{}` each return the Error of the empty-list check, not a
list, and return the state as it was. -/
theorem empty_list_errors (e : State) :
    builtin_head e [.qexpr []]
      = .ret (e, .err "Function 'head' passed empty list \x7b\x7d.") ∧
    builtin_tail e [.qexpr []]
      = .ret (e, .err "Function 'tail' passed empty list \x7b\x7d.") ∧
    builtin_init e [.qexpr []]
      = .ret (e, .err "Function 'head' passed empty list \x7b\x7d.") := by
  have hh : lval_err ("Function '" ++ "head" ++ "' passed empty list \x7b\x7d.")
      = .err "Function 'head' passed empty list \x7b\x7d." := by decide
  have ht : lval_err ("Function '" ++ "tail" ++ "' passed empty list \x7b\x7d.")
      = .err "Function 'tail' passed empty list \x7b\x7d." := by decide
  refine ⟨?_, ?_, ?_⟩
  · simp only [builtin_head, INCARGS_pass [.qexpr []] 1 "head" rfl, check,
      INCTYPE_pass (.qexpr []) [] 0 .LVAL_QEXPR "head" rfl, EMPLST_message, hh]
  · simp only [builtin_tail, INCARGS_pass [.qexpr []] 1 "tail" rfl, check,
      INCTYPE_pass (.qexpr []) [] 0 .LVAL_QEXPR "tail" rfl, EMPLST_message, ht]
  · simp only [builtin_init, INCARGS_pass [.qexpr []] 1 "init" rfl, check,
      INCTYPE_pass (.qexpr []) [] 0 .LVAL_QEXPR "init" rfl, EMPLST_message, hh]

theorem lval_join_loop_qexpr (xs : List lval) :
    ∀ cs : List lval, lval_join_loop (.qexpr xs) cs = .ret (.qexpr (xs ++ cs)) := by
  intro cs
  induction cs generalizing xs with
  | nil => simp [lval_join_loop]
  | cons c cs ih => simp [lval_join_loop, lval_add, ih]

theorem builtin_join_loop_qexprs (xs : List lval) (qs : List (List lval)) :
    builtin_join_loop (.qexpr xs) (qs.map .qexpr) = .ret (.qexpr (xs ++ qs.flatten)) := by
  induction qs generalizing xs with
  | nil => simp [builtin_join_loop]
  | cons q qs ih =>
    simp [builtin_join_loop, lval_join, lval.cells, lval_join_loop_qexpr, ih]

/-- Claim C27. `builtin_join` applied to Q-Expressions `q1 ... qk`, `k ≥ 1`,
returns the Q-Expression of the items of `q1`, then those of `q2`, and so on
to `qk`, each group in its order; applied to a single Q-Expression it returns
that Q-Expression. -/
theorem builtin_join_concat (e : State) (q : List lval) (qs : List (List lval)) :
    builtin_join e ((q :: qs).map .qexpr) = .ret (e, .qexpr (q :: qs).flatten) ∧
    builtin_join e [.qexpr q] = .ret (e, .qexpr q) := by
  have h : ∀ l : List (List lval),
      builtin_join e ((q :: l).map .qexpr) = .ret (e, .qexpr (q :: l).flatten) := by
    intro l
    simp only [builtin_join, List.map_cons,
      INCTYPE_loop_pass (.qexpr q) (l.map .qexpr) .LVAL_QEXPR "join" rfl, check, lval_pop,
      List.get?_cons_zero, List.eraseIdx_cons_zero, builtin_join_loop_qexprs,
      Outcome.bind_ret, List.flatten_cons]
  refine ⟨h qs, ?_⟩
  have h1 := h []
  simpa using h1

/-- Claim C28: the code departs from it.  The check macro of `builtin_join`
tests the type of `a->cell[0]` at every iteration, so only a first argument
that is not a Q-Expression is reported: `(join 3 {1 2})` evaluates to the type
Error, but `(join {1 2} ())` evaluates to `{1 2}`, and in `(join {1 2} 3)`
`lval_join` reads `y->count` of a Number. -/
theorem builtin_join_checks_first_only :
    lval_eval 2 State.initial (.sexpr [.sym "join", .num 3, .qexpr [.num 1, .num 2]])
      = .ret (State.initial, .err
          "Function 'join' passed incorrect type for argument 0. Got Number, expected Q-Expression.") ∧
    lval_eval 2 State.initial (.sexpr [.sym "join", .qexpr [.num 1, .num 2], .sexpr []])
      = .ret (State.initial, .qexpr [.num 1, .num 2]) ∧
    lval_eval 2 State.initial (.sexpr [.sym "join", .qexpr [.num 1, .num 2], .num 3])
      = .crash := by
  decide

/-- Claim C29: the code departs from it.  The two type checks of
`builtin_cons` both test `a->cell[0]`, first against `LVAL_NUM` and then
against `LVAL_QEXPR`, so a call with a Number and a Q-Expression returns the
Error of the second check: `(cons 0 {1 2})` does not evaluate to `{0 1 2}`. -/
theorem builtin_cons_rejects_number (e : State) (n : Int) (q : List lval) :
    builtin_cons e [.num n, .qexpr q]
      = .ret (e, .err
          "Function 'cons' passed incorrect type for argument 0. Got Number, expected Q-Expression.") ∧
    lval_eval 2 State.initial (.sexpr [.sym "cons", .num 0, .qexpr [.num 1, .num 2]])
      = .ret (State.initial, .err
          "Function 'cons' passed incorrect type for argument 0. Got Number, expected Q-Expression.") := by
  refine ⟨?_, by decide⟩
  have hm : lval_err ("Function '" ++ "cons" ++ "' passed incorrect type for argument 0. Got "
      ++ ltype_name .LVAL_NUM ++ ", expected " ++ ltype_name .LVAL_QEXPR ++ ".")
      = .err
        "Function 'cons' passed incorrect type for argument 0. Got Number, expected Q-Expression." := by
    decide
  simp only [builtin_cons, INCARGS_pass [.num n, .qexpr q] 2 "cons" rfl, check,
    INCTYPE, lval.type, ne_eq, not_true_eq_false, if_false, reduceCtorEq, not_false_eq_true,
    if_true, hm]

/-- Claim C30. `builtin_eval` applied to the single argument `{x1 ... xn}` ends
exactly as `lval_eval` on the S-Expression `(x1 ... xn)` does, with the same
result and the same state; hence, where `eval` is bound to it,
`(eval {x1 ... xn})` ends as `(x1 ... xn)` does.  Applied to a number of
arguments other than one, or to one argument that is not a Q-Expression, it
returns an Error. -/
theorem builtin_eval_as_sexpr (n : Nat) (e : State) (q : List lval) :
    builtin_eval (lval_eval n) e [.qexpr q] = lval_eval n e (.sexpr q) ∧
    (lenv_get e.env "eval" = .ret (.func .builtin_eval) →
      lval_eval (n + 2) e (.sexpr [.sym "eval", .qexpr q]) = lval_eval (n + 1) e (.sexpr q)) ∧
    (∀ a : List lval, a.length ≠ 1 →
      ∃ m, builtin_eval (lval_eval n) e a = .ret (e, .err m)) ∧
    (∀ v : lval, v.type ≠ .LVAL_QEXPR →
      ∃ m, builtin_eval (lval_eval n) e [v] = .ret (e, .err m)) := by
  have hdirect : ∀ k : Nat,
      builtin_eval (lval_eval k) e [.qexpr q] = lval_eval k e (.sexpr q) := by
    intro k
    simp only [builtin_eval, INCARGS_pass [.qexpr q] 1 "eval" rfl, check,
      INCTYPE_pass (.qexpr q) [] 0 .LVAL_QEXPR "eval" rfl, lval_take, lval_pop,
      List.get?_cons_zero]
  refine ⟨hdirect n, fun hb => ?_, fun a ha => ?_, fun v hv => ?_⟩
  · have hcells : lval_eval_cells (lval_eval (n + 1)) e [.sym "eval", .qexpr q]
        = .ret (e, [.func .builtin_eval, .qexpr q]) := by
      simp only [lval_eval_cells, lval_eval_succ_sym, hb, Outcome.bind_ret]
      rfl
    rw [lval_eval_succ_sexpr (n + 1) e [.sym "eval", .qexpr q]]
    simp only [lval_eval_sexpr, hcells, Outcome.bind_ret]
    simp only [first_error, lval.type, reduceCtorEq, if_false, List.length_cons,
      List.length_nil, Nat.reduceAdd, OfNat.ofNat_ne_zero, OfNat.ofNat_ne_one, lval_pop,
      List.get?_cons_zero, List.eraseIdx_cons_zero, call_fun]
    exact hdirect (n + 1)
  · obtain ⟨m, hm⟩ := INCARGS_fail a 1 "eval" ha
    exact ⟨m, by simp only [builtin_eval, hm, check]⟩
  · obtain ⟨m, hm⟩ := INCTYPE_fail v [] 0 .LVAL_QEXPR "eval" hv
    exact ⟨m, by simp only [builtin_eval, INCARGS_pass [v] 1 "eval" rfl, hm, check]⟩

/-- The expression `(eval {+ 1 2})` evaluates to `3`, as `(+ 1 2)` does;
`(eval {} {})` and `(eval 1)` give Errors. -/
theorem builtin_eval_as_sexpr_witness :
    lval_eval 3 State.initial (.sexpr [.sym "eval", .qexpr [.sym "+", .num 1, .num 2]])
      = .ret (State.initial, .num 3) ∧
    (∃ m, builtin_eval (lval_eval 1) State.initial [.qexpr [], .qexpr []]
      = .ret (State.initial, .err m)) ∧
    (∃ m, builtin_eval (lval_eval 1) State.initial [.num 1] = .ret (State.initial, .err m)) :=
  ⟨((builtin_eval_as_sexpr 1 State.initial [.sym "+", .num 1, .num 2]).2.1
      (by decide)).trans (by decide),
   (builtin_eval_as_sexpr 1 State.initial []).2.2.1 _ (by decide),
   (builtin_eval_as_sexpr 1 State.initial []).2.2.2 (.num 1) (by decide)⟩

/-! ## Frame of the builtins other than `def` and `eval` -/

theorem lval_pop_mem {c : List lval} {i : Nat} {x : lval} {rest : List lval}
    (h : lval_pop c i = some (x, rest)) : x ∈ c ∧ ∀ y ∈ rest, y ∈ c := by
  unfold lval_pop at h
  split at h
  · rename_i y hy
    simp only [Option.some.injEq, Prod.mk.injEq] at h
    refine ⟨h.1 ▸ List.get?_mem hy, fun z hz => ?_⟩
    rw [← h.2] at hz
    exact List.mem_of_mem_eraseIdx hz
  · cases h

theorem lval_take_mem {c : List lval} {i : Nat} {x : lval}
    (h : lval_take c i = some x) : x ∈ c := by
  unfold lval_take at h
  split at h
  · rename_i y rest hy
    simp only [Option.some.injEq] at h
    exact h ▸ (lval_pop_mem hy).1
  · cases h

theorem builtin_head_loop_mem :
    ∀ (n : Nat) (v : List lval) (x : lval), x ∈ builtin_head_loop n v → x ∈ v
  | 0, _, _, h => h
  | n + 1, v, x, h => by
    unfold builtin_head_loop at h
    split at h
    · exact List.mem_of_mem_eraseIdx (builtin_head_loop_mem n _ x h)
    · exact h

theorem bind_ret_result {o : Outcome lval} {e e' : State} {r : lval}
    (h : (o.bind fun x => Outcome.ret (e, x)) = .ret (e', r)) : o = .ret r := by
  cases o with
  | ret a =>
    simp only [Outcome.bind_ret, Outcome.ret.injEq, Prod.mk.injEq] at h
    rw [h.2]
  | crash => cases h
  | nofuel => cases h

theorem call_fun_env {ev : State → lval → Outcome (State × lval)} {f : lbuiltin}
    {e e' : State} {a : List lval} {r : lval}
    (hd : f ≠ .builtin_def) (he : f ≠ .builtin_eval)
    (h : call_fun ev f e a = .ret (e', r)) : e'.env = e.env ∧ e'.builtins = e.builtins := by
  have hst : ∀ {e e' : State}, e' = e → e'.env = e.env ∧ e'.builtins = e.builtins :=
    fun hs => hs ▸ ⟨rfl, rfl⟩
  cases f <;> simp only [call_fun] at h
  · exact hst (builtin_head_state h)
  · exact hst (builtin_tail_state h)
  · exact hst (ret_state h)
  · exact absurd rfl he
  · exact hst (builtin_join_state h)
  · exact hst (builtin_cons_state h)
  · exact hst (builtin_len_state h)
  · exact hst (builtin_init_state h)
  · exact hst (builtin_op_state h)
  · exact hst (builtin_op_state h)
  · exact hst (builtin_op_state h)
  · exact hst (builtin_op_state h)
  · exact hst (builtin_op_state h)
  · exact hst (builtin_op_state h)
  · exact hst (builtin_op_state h)
  · exact hst (builtin_op_state h)
  · exact absurd rfl hd
  · exact builtin_values_state h
  · exact builtin_exit_state h

theorem first_error_mem : ∀ (v : List lval) (x : lval), first_error v = some x → x ∈ v
  | [], _, h => by cases h
  | c :: cs, x, h => by
    simp only [first_error] at h
    split at h
    · simp only [Option.some.injEq] at h
      exact h ▸ List.mem_cons_self _ _
    · exact List.mem_cons_of_mem _ (first_error_mem cs x h)

/-! ## Printing -/

theorem intercalate_go (sep : String) :
    ∀ (l : List String) (acc : String),
      String.intercalate.go acc sep l
        = acc ++ (if l.length > 0 then sep else "") ++ sep.intercalate l
  | [], acc => by simp [String.intercalate.go, String.intercalate]
  | a :: as, acc => by
    simp only [String.intercalate.go, String.intercalate, List.length_cons,
      Nat.zero_lt_succ, if_true]
    rw [intercalate_go sep as (acc ++ sep ++ a), intercalate_go sep as a]
    simp only [String.append_assoc]

theorem lval_expr_print_cells_eq (c : List lval) :
    lval_expr_print_cells c = " ".intercalate (c.map lval_print) := by
  induction c with
  | nil => rfl
  | cons x xs ih =>
    have hgo : " ".intercalate (lval_print x :: xs.map lval_print)
        = String.intercalate.go (lval_print x) " " (xs.map lval_print) := rfl
    rw [lval_expr_print_cells, ih, List.map_cons, hgo, intercalate_go]
    simp only [List.length_map]

/-- Claim C31. The text of `lval_print` is the decimal numeral of a Number,
`Error: ` followed by the message of an Error, the name of a Symbol,
`<function>` for a Function, and for an S-Expression (a Q-Expression) the texts
of the cells separated by single spaces between `(` and `)` (between the
braces); an empty sequence gives `()` or the pair of braces. -/
theorem lval_print_text :
    (∀ n : Int, lval_print (.num n) = toString n) ∧
    (∀ n : Nat, lval_print (.num n) = Nat.repr n ∧
      lval_print (.num (-(n + 1 : Nat))) = "-" ++ Nat.repr (n + 1)) ∧
    (∀ m : String, lval_print (.err m) = "Error: " ++ m) ∧
    (∀ s : String, lval_print (.sym s) = s) ∧
    (∀ f : lbuiltin, lval_print (.func f) = "<function>") ∧
    (∀ c : List lval,
      lval_print (.sexpr c) = "(" ++ " ".intercalate (c.map lval_print) ++ ")") ∧
    (∀ c : List lval,
      lval_print (.qexpr c) = "\x7b" ++ " ".intercalate (c.map lval_print) ++ "\x7d") ∧
    lval_print (.sexpr []) = "()" ∧
    lval_print (.qexpr []) = "\x7b\x7d" ∧
    lval_print (.sexpr [.num (-3), .qexpr [], .qexpr [.sym "a", .func .builtin_add],
        .err "x"])
      = "(-3 \x7b\x7d \x7ba <function>\x7d Error: x)" := by
  refine ⟨fun _ => rfl, fun n => ⟨rfl, rfl⟩, fun _ => rfl, fun _ => rfl, fun _ => rfl,
    fun c => ?_, fun c => ?_, by decide, by decide, by decide⟩
  · rw [lval_print, lval_expr_print_cells_eq]
  · rw [lval_print, lval_expr_print_cells_eq]

/-! ## Division and remainder -/

theorem wrapLong_of_range (x : Int) (h : LONG_MIN ≤ x ∧ x ≤ LONG_MAX) : wrapLong x = x := by
  unfold LONG_MIN LONG_MAX at h
  unfold wrapLong
  omega

theorem tmod_neg_left (a b : Int) : Int.tmod (-a) b = -(Int.tmod a b) := by
  rw [Int.tmod_def, Int.tmod_def, Int.neg_tdiv]
  ring

theorem tmod_abs_bounds (a b : Int) (hb : b ≠ 0) :
    (0 ≤ a → 0 ≤ Int.tmod a b ∧ Int.tmod a b < |b|) ∧
    (a ≤ 0 → Int.tmod a b ≤ 0 ∧ -|b| < Int.tmod a b) := by
  have hpos : ∀ x : Int, Int.tmod x b < |b| := by
    intro x
    rcases lt_or_gt_of_ne hb with h | h
    · rw [abs_of_neg h, ← Int.tmod_neg]
      exact Int.tmod_lt_of_pos x (by omega)
    · rw [abs_of_pos h]
      exact Int.tmod_lt_of_pos x h
  refine ⟨fun ha => ⟨Int.tmod_nonneg b ha, hpos a⟩, fun ha => ?_⟩
  have h1 : 0 ≤ Int.tmod (-a) b := Int.tmod_nonneg b (by omega)
  have h2 := hpos (-a)
  rw [tmod_neg_left] at h1 h2
  constructor <;> omega

theorem tdiv_in_range (a b : Int) (ha : LONG_MIN ≤ a ∧ a ≤ LONG_MAX) (hb0 : b ≠ 0)
    (hov : ¬ (a = LONG_MIN ∧ b = -1)) :
    LONG_MIN ≤ Int.tdiv a b ∧ Int.tdiv a b ≤ LONG_MAX := by
  unfold LONG_MIN LONG_MAX at *
  by_cases h1 : b = 1
  · rw [h1, Int.tdiv_one]; exact ha
  by_cases h2 : b = -1
  · have : Int.tdiv a b = -a := by rw [h2, Int.tdiv_neg, Int.tdiv_one]
    rw [this]
    have hne : a ≠ -9223372036854775808 := fun hc => hov ⟨hc, h2⟩
    omega
  have hq := Int.natAbs_tdiv a b
  have hb2 : 2 ≤ b.natAbs := by omega
  have hle : a.natAbs.div b.natAbs ≤ a.natAbs / 2 := by
    show a.natAbs / b.natAbs ≤ a.natAbs / 2
    exact Nat.div_le_div_left hb2 (by decide)
  omega

/-- Claim C39. For Numbers `a` and `b` in the range of `long` with `b ≠ 0`,
other than the pair of the smallest `long` and `-1`, `(/ a b)` returns the
quotient `q` truncated toward zero and `(% a b)` the remainder `r`, and they
satisfy `a = q * b + r`, `|r| < |b|`, and `r` is zero or has the sign of
`a`. -/
theorem div_mod_consistent (e : State) (a b : Int)
    (ha : LONG_MIN ≤ a ∧ a ≤ LONG_MAX) (hb : LONG_MIN ≤ b ∧ b ≤ LONG_MAX)
    (hb0 : b ≠ 0) (hov : ¬ (a = LONG_MIN ∧ b = -1)) :
    builtin_div e [.num a, .num b] = .ret (e, .num (Int.tdiv a b)) ∧
    builtin_mod e [.num a, .num b] = .ret (e, .num (Int.tmod a b)) ∧
    a = Int.tdiv a b * b + Int.tmod a b ∧
    |Int.tmod a b| < |b| ∧
    (Int.tmod a b = 0 ∨ (0 < Int.tmod a b ∧ 0 < a) ∨ (Int.tmod a b < 0 ∧ a < 0)) := by
  have hq := tdiv_in_range a b ha hb0 hov
  have hbd := tmod_abs_bounds a b hb0
  have hid := Int.tdiv_add_tmod' a b
  have habs_b : |b| ≤ 9223372036854775808 := by
    unfold LONG_MIN LONG_MAX at hb
    rw [abs_le]; omega
  have hr : LONG_MIN ≤ Int.tmod a b ∧ Int.tmod a b ≤ LONG_MAX := by
    unfold LONG_MIN LONG_MAX
    rcases le_total 0 a with h | h
    · have := hbd.1 h; omega
    · have := hbd.2 h; omega
  have hd := builtin_op_numbers e "/" a [b]
  have hm := builtin_op_numbers e "%" a [b]
  simp only [List.map_cons, List.map_nil] at hd hm
  have hnd : ¬ ("/" = "-" ∧ [b].length = 0) := fun hc => absurd hc.1 (by decide)
  have hnm : ¬ ("%" = "-" ∧ [b].length = 0) := fun hc => absurd hc.1 (by decide)
  refine ⟨?_, ?_, hid.symm, ?_, ?_⟩
  · rw [builtin_div, hd, if_neg hnd]
    simp [builtin_op_loop, hb0, hov, wrapLong_of_range _ hq]
  · rw [builtin_mod, hm, if_neg hnm]
    simp [builtin_op_loop, hb0, hov, wrapLong_of_range _ hr]
  · rcases le_total 0 a with h | h
    · have := hbd.1 h
      rw [abs_lt]; omega
    · have := hbd.2 h
      rw [abs_lt]; omega
  · rcases lt_trichotomy a 0 with h | h | h
    · have := (hbd.2 (le_of_lt h)).1
      omega
    · left
      rw [h]; exact Int.zero_tmod b
    · have := (hbd.1 (le_of_lt h)).1
      omega

/-- The calls `(/ -7 2)` and `(% -7 2)` return `-3` and `-1`. -/
theorem div_mod_consistent_witness :
    builtin_div State.initial [.num (-7), .num 2] = .ret (State.initial, .num (-3)) ∧
    builtin_mod State.initial [.num (-7), .num 2] = .ret (State.initial, .num (-1)) ∧
    (-7 : Int) = (-3) * 2 + (-1) :=
  have h := div_mod_consistent State.initial (-7) 2 (by decide) (by decide) (by decide)
    (by decide)
  ⟨h.1.trans (by decide), h.2.1.trans (by decide), by decide⟩

/-! ## The run flag -/

theorem call_fun_rel (R : State → State → Prop) (hrefl : ∀ e, R e e)
    (hdef : ∀ e a e' r, builtin_def e a = .ret (e', r) → R e e')
    (hval : ∀ e a e' r, builtin_values e a = .ret (e', r) → R e e')
    (hexit : ∀ e a e' r, builtin_exit e a = .ret (e', r) → R e e')
    {ev : State → lval → Outcome (State × lval)}
    (hev : ∀ e v e' r, ev e v = .ret (e', r) → R e e')
    {f : lbuiltin} {e e' : State} {a : List lval} {r : lval}
    (h : call_fun ev f e a = .ret (e', r)) : R e e' := by
  have hst : ∀ {e e' : State}, e' = e → R e e' := fun he => he ▸ hrefl _
  cases f <;> simp only [call_fun] at h
  · exact hst (builtin_head_state h)
  · exact hst (builtin_tail_state h)
  · exact hst (ret_state h)
  · unfold builtin_eval at h
    rcases check_ret h with h1 | h
    · exact hst h1
    rcases check_ret h with h1 | h
    · exact hst h1
    split at h
    · exact hev _ _ _ _ h
    · exact hev _ _ _ _ h
    · cases h
  · exact hst (builtin_join_state h)
  · exact hst (builtin_cons_state h)
  · exact hst (builtin_len_state h)
  · exact hst (builtin_init_state h)
  · exact hst (builtin_op_state h)
  · exact hst (builtin_op_state h)
  · exact hst (builtin_op_state h)
  · exact hst (builtin_op_state h)
  · exact hst (builtin_op_state h)
  · exact hst (builtin_op_state h)
  · exact hst (builtin_op_state h)
  · exact hst (builtin_op_state h)
  · exact hdef _ _ _ _ h
  · exact hval _ _ _ _ h
  · exact hexit _ _ _ _ h

theorem lval_eval_cells_rel (R : State → State → Prop) (hrefl : ∀ e, R e e)
    (htrans : ∀ e1 e2 e3, R e1 e2 → R e2 e3 → R e1 e3)
    {ev : State → lval → Outcome (State × lval)}
    (hev : ∀ e v e' r, ev e v = .ret (e', r) → R e e') :
    ∀ (cell : List lval) (e e' : State) (rs : List lval),
      lval_eval_cells ev e cell = .ret (e', rs) → R e e'
  | [], e, e', rs, h => by
    simp only [lval_eval_cells, Outcome.ret.injEq, Prod.mk.injEq] at h
    rw [← h.1]
    exact hrefl e
  | c :: cs, e, e', rs, h => by
    simp only [lval_eval_cells] at h
    cases hc : ev e c with
    | ret p =>
      obtain ⟨e1, r1⟩ := p
      rw [hc] at h
      simp only [Outcome.bind_ret] at h
      cases hcs : lval_eval_cells ev e1 cs with
      | ret q =>
        obtain ⟨e2, rs1⟩ := q
        rw [hcs] at h
        simp only [Outcome.bind_ret, Outcome.ret.injEq, Prod.mk.injEq] at h
        rw [← h.1]
        exact htrans _ _ _ (hev _ _ _ _ hc)
          (lval_eval_cells_rel R hrefl htrans hev cs e1 e2 rs1 hcs)
      | crash => rw [hcs] at h; cases h
      | nofuel => rw [hcs] at h; cases h
    | crash => rw [hc] at h; cases h
    | nofuel => rw [hc] at h; cases h

theorem lval_eval_rel (R : State → State → Prop) (hrefl : ∀ e, R e e)
    (htrans : ∀ e1 e2 e3, R e1 e2 → R e2 e3 → R e1 e3)
    (hdef : ∀ e a e' r, builtin_def e a = .ret (e', r) → R e e')
    (hval : ∀ e a e' r, builtin_values e a = .ret (e', r) → R e e')
    (hexit : ∀ e a e' r, builtin_exit e a = .ret (e', r) → R e e') :
    ∀ (n : Nat) (e : State) (v : lval) (e' : State) (r : lval),
      lval_eval n e v = .ret (e', r) → R e e'
  | 0, _, _, _, _, h => by cases h
  | n + 1, e, v, e', r, h => by
    have hev := lval_eval_rel R hrefl htrans hdef hval hexit n
    unfold lval_eval at h
    split at h
    · rw [(bind_pair_ret h).1]; exact hrefl e
    · rename_i cell
      unfold lval_eval_sexpr at h
      cases hc : lval_eval_cells (lval_eval n) e cell with
      | ret p =>
        obtain ⟨e1, vs⟩ := p
        rw [hc] at h
        simp only [Outcome.bind_ret] at h
        have h1 := lval_eval_cells_rel R hrefl htrans hev cell e e1 vs hc
        have hst : ∀ {x : lval}, Outcome.ret (e1, x) = Outcome.ret (e', r) → R e e' :=
          fun hx => (ret_state hx) ▸ h1
        split at h
        · exact hst h
        · split at h
          · exact hst h
          · split at h
            · split at h
              · exact hst h
              · cases h
            · split at h
              · cases h
              · split at h
                · exact htrans _ _ _ h1 (call_fun_rel R hrefl hdef hval hexit hev h)
                · exact hst h
      | crash => rw [hc] at h; cases h
      | nofuel => rw [hc] at h; cases h
    · rw [ret_state h]; exact hrefl e

theorem builtin_def_loop_flag :
    ∀ (syms vals : List lval) (e e' : State) (r : lval),
      builtin_def_loop e syms vals = .ret (e', r) →
      e'.while_var = e.while_var ∧ e'.out = e.out ∧ e'.builtins = e.builtins
  | [], _, e, e', r, h => by
    rw [ret_state h]
    exact ⟨rfl, rfl, rfl⟩
  | k :: syms, vals, e, e', r, h => by
    unfold builtin_def_loop at h
    split at h
    · split at h
      · rw [ret_state h]
        exact ⟨rfl, rfl, rfl⟩
      · split at h
        · obtain ⟨env1, _, h⟩ := bind_ret_inv h
          have hrec := builtin_def_loop_flag syms _ _ e' r h
          exact hrec
        · cases h
    · cases h

theorem builtin_def_flag {e e' : State} {a : List lval} {r : lval}
    (h : builtin_def e a = .ret (e', r)) :
    e'.while_var = e.while_var ∧ e'.out = e.out ∧ e'.builtins = e.builtins := by
  unfold builtin_def at h
  rcases check_ret h with h1 | h
  · rw [h1]; exact ⟨rfl, rfl, rfl⟩
  split at h
  · cases h
  · split at h
    · cases h
    · rcases check_ret h with h1 | h
      · rw [h1]; exact ⟨rfl, rfl, rfl⟩
      rcases check_ret h with h1 | h
      · rw [h1]; exact ⟨rfl, rfl, rfl⟩
      exact builtin_def_loop_flag _ _ _ _ _ h

theorem builtin_values_flag {e e' : State} {a : List lval} {r : lval}
    (h : builtin_values e a = .ret (e', r)) : e'.while_var = e.while_var := by
  unfold builtin_values at h
  rcases check_ret h with h1 | h
  · rw [h1]
  rcases check_ret h with h1 | h
  · rw [h1]
  rcases check_ret h with h1 | h
  · rw [h1]
  simp only [Outcome.ret.injEq, Prod.mk.injEq] at h
  rw [← h.1]

theorem builtin_exit_flag {e e' : State} {a : List lval} {r : lval}
    (h : builtin_exit e a = .ret (e', r)) :
    e'.while_var = e.while_var ∨ e'.while_var = 2 := by
  unfold builtin_exit at h
  rcases check_ret h with h1 | h
  · rw [h1]; exact Or.inl rfl
  rcases check_ret h with h1 | h
  · rw [h1]; exact Or.inl rfl
  rcases check_ret h with h1 | h
  · rw [h1]; exact Or.inl rfl
  simp only [Outcome.ret.injEq, Prod.mk.injEq] at h
  rw [← h.1]
  exact Or.inr rfl

theorem builtin_exit_rejects (e : State) (a : List lval) (h : a ≠ [.sexpr []]) :
    ∃ m, builtin_exit e a = .ret (e, .err m) := by
  by_cases hl : a.length = 1
  · obtain ⟨v, rfl⟩ := List.length_eq_one.1 hl
    by_cases ht : v.type = .LVAL_SEXPR
    · cases v <;> simp only [lval.type, reduceCtorEq] at ht
      rename_i c
      have hc : c ≠ [] := fun hc => h (by rw [hc])
      have hb : (c.length == 0) = false := by simpa using hc
      simp only [builtin_exit, INCARGS_pass [.sexpr c] 1 "values" rfl, check,
        INCTYPE_pass (.sexpr c) [] 0 .LVAL_SEXPR "values" rfl, first_is_empty, lval.cells,
        hb, Outcome.bind_ret, LASSERT, Bool.not_false, if_true, lval_err]
      exact ⟨_, rfl⟩
    · obtain ⟨m, hm⟩ := INCTYPE_fail v [] 0 .LVAL_SEXPR "values" ht
      exact ⟨m, by simp only [builtin_exit, INCARGS_pass [v] 1 "values" rfl, hm, check]⟩
  · obtain ⟨m, hm⟩ := INCARGS_fail a 1 "values" hl
    exact ⟨m, by simp only [builtin_exit, hm, check]⟩

/-- Claim C34. After an evaluation that returns, `while_var` has the value it
had before or the value `2`; among the builtins only `builtin_exit` (and
`builtin_eval`, through the evaluation it starts) can change it.
`builtin_exit` applied to the single argument `()` sets it to `2` and returns
the empty S-Expression; applied to any other arguments it returns an Error and
the state as it was. -/
theorem while_var_changes_through_exit_only :
    (∀ (n : Nat) (e e' : State) (v r : lval), lval_eval n e v = .ret (e', r) →
      e'.while_var = e.while_var ∨ e'.while_var = 2) ∧
    (∀ (ev : State → lval → Outcome (State × lval)) (f : lbuiltin) (e e' : State)
        (a : List lval) (r : lval),
      f ≠ .builtin_exit → f ≠ .builtin_eval → call_fun ev f e a = .ret (e', r) →
      e'.while_var = e.while_var) ∧
    (∀ e : State, builtin_exit e [.sexpr []] = .ret ({ e with while_var := 2 }, .sexpr [])) ∧
    (∀ (e : State) (a : List lval), a ≠ [.sexpr []] →
      ∃ m, builtin_exit e a = .ret (e, .err m)) := by
  refine ⟨fun n e e' v r h => ?_, fun ev f e e' a r hx he h => ?_, fun _ => rfl,
    builtin_exit_rejects⟩
  · exact lval_eval_rel (fun e e' => e'.while_var = e.while_var ∨ e'.while_var = 2)
      (fun _ => Or.inl rfl)
      (fun e1 e2 e3 h12 h23 => by
        rcases h23 with h | h
        · rcases h12 with h' | h'
          · exact Or.inl (h.trans h')
          · exact Or.inr (h.trans h')
        · exact Or.inr h)
      (fun _ _ _ _ h => Or.inl (builtin_def_flag h).1)
      (fun _ _ _ _ h => Or.inl (builtin_values_flag h))
      (fun _ _ _ _ h => builtin_exit_flag h) n e v e' r h
  · have hst : ∀ {e e' : State}, e' = e → e'.while_var = e.while_var := fun hs => hs ▸ rfl
    cases f <;> simp only [call_fun] at h
    · exact hst (builtin_head_state h)
    · exact hst (builtin_tail_state h)
    · exact hst (ret_state h)
    · exact absurd rfl he
    · exact hst (builtin_join_state h)
    · exact hst (builtin_cons_state h)
    · exact hst (builtin_len_state h)
    · exact hst (builtin_init_state h)
    · exact hst (builtin_op_state h)
    · exact hst (builtin_op_state h)
    · exact hst (builtin_op_state h)
    · exact hst (builtin_op_state h)
    · exact hst (builtin_op_state h)
    · exact hst (builtin_op_state h)
    · exact hst (builtin_op_state h)
    · exact hst (builtin_op_state h)
    · exact (builtin_def_flag h).1
    · exact builtin_values_flag h
    · exact absurd rfl hx

/-- The expression `(exit ())` sets the flag to `2`; `(exit 1)` gives an
Error and leaves it at `1`. -/
theorem while_var_changes_through_exit_only_witness :
    (({ State.initial with while_var := 2 } : State).while_var = State.initial.while_var ∨
      ({ State.initial with while_var := 2 } : State).while_var = 2) ∧
    (∃ m, builtin_exit State.initial [.num 1] = .ret (State.initial, .err m)) :=
  ⟨while_var_changes_through_exit_only.1 2 State.initial { State.initial with while_var := 2 }
      (.sexpr [.sym "exit", .sexpr []]) (.sexpr []) (by decide),
   while_var_changes_through_exit_only.2.2.2 State.initial [.num 1] (by decide)⟩

/-! ## The environment changes through calls of `builtin_def` -/

theorem def_steps_changed {e e' : State} (h : def_steps e e') (hne : e'.env ≠ e.env) :
    ∃ (e1 e2 : State) (a : List lval) (r : lval),
      builtin_def e1 a = .ret (e2, r) ∧ e2.env ≠ e1.env := by
  induction h with
  | same e e' henv _ => exact absurd henv hne
  | call e e' a r hcall => exact ⟨e, e', a, r, hcall, hne⟩
  | trans e e1 e' _ _ ih1 ih2 =>
    by_cases h1 : e1.env = e.env
    · exact ih2 (fun hc => hne (hc.trans h1))
    · exact ih1 h1

theorem def_steps_builtins {e e' : State} (h : def_steps e e') : protected_kept e e' := by
  induction h with
  | same e e' henv hb => exact protected_kept_of_env ⟨henv, hb⟩
  | call e e' a r hcall => exact builtin_def_kept hcall
  | trans e e1 e' _ _ ih1 ih2 => exact protected_kept_trans ih1 ih2

/-- Claim C21. A call of a builtin other than `builtin_def` and `builtin_eval`
(list, head, tail, join, cons, len, init, the arithmetic builtins, values,
exit) that returns, returns with the environment and `builtins` as they were
before the call.  Hence `lval_eval` changes the environment through calls of
`builtin_def` only: the state after an evaluation that returns comes from the
state before it by calls of `builtin_def`, none or more, between which the
environment stays as it is; and when the environment after the evaluation
differs from the one before, some call of `builtin_def` has returned a
changed environment. -/
theorem env_changes_through_def_only :
    (∀ (ev : State → lval → Outcome (State × lval)) (f : lbuiltin) (e e' : State)
        (a : List lval) (r : lval),
      f ≠ .builtin_def → f ≠ .builtin_eval → call_fun ev f e a = .ret (e', r) →
      e'.env = e.env ∧ e'.builtins = e.builtins) ∧
    (∀ (n : Nat) (e e' : State) (v r : lval),
      lval_eval n e v = .ret (e', r) → def_steps e e') ∧
    (∀ (n : Nat) (e e' : State) (v r : lval),
      lval_eval n e v = .ret (e', r) → e'.env ≠ e.env →
      ∃ (e1 e2 : State) (a : List lval) (r2 : lval),
        builtin_def e1 a = .ret (e2, r2) ∧ e2.env ≠ e1.env) := by
  have hsteps : ∀ (n : Nat) (e : State) (v : lval) (e' : State) (r : lval),
      lval_eval n e v = .ret (e', r) → def_steps e e' :=
    lval_eval_rel def_steps (fun e => def_steps.same e e rfl rfl)
      (fun e1 e2 e3 h12 h23 => def_steps.trans e1 e2 e3 h12 h23)
      (fun e a e' r h => def_steps.call e e' a r h)
      (fun e a e' r h =>
        def_steps.same e e' (builtin_values_state h).1 (builtin_values_state h).2)
      (fun e a e' r h =>
        def_steps.same e e' (builtin_exit_state h).1 (builtin_exit_state h).2)
  exact ⟨fun _ _ _ _ _ _ hd he h => call_fun_env hd he h,
    fun n e e' v r h => hsteps n e v e' r h,
    fun n e e' v r h hne => def_steps_changed (hsteps n e v e' r h) hne⟩

/-- In the initial state, reached by every run, the call `(exit ())` changes
the run flag and not the environment, `(values ())` evaluates with the
environment unchanged, and `(def {x} 5)` changes it through a call of
`builtin_def`. -/
theorem env_changes_through_def_only_witness :
    ({ State.initial with while_var := 2 } : State).env = State.initial.env ∧
    def_steps State.initial
      { State.initial with env := State.initial.env ++ [("x", .num 5)] } ∧
    (∃ (e1 e2 : State) (a : List lval) (r2 : lval),
      builtin_def e1 a = .ret (e2, r2) ∧ e2.env ≠ e1.env) :=
  ⟨(env_changes_through_def_only.1 (lval_eval 0) .builtin_exit State.initial
      { State.initial with while_var := 2 } [.sexpr []] (.sexpr [])
      (by decide) (by decide) (by decide)).1,
   env_changes_through_def_only.2.1 2 State.initial
      { State.initial with env := State.initial.env ++ [("x", .num 5)] }
      (.sexpr [.sym "def", .qexpr [.sym "x"], .num 5]) (.sexpr []) (by decide),
   env_changes_through_def_only.2.2 2 State.initial
      { State.initial with env := State.initial.env ++ [("x", .num 5)] }
      (.sexpr [.sym "def", .qexpr [.sym "x"], .num 5]) (.sexpr []) (by decide) (by decide)⟩

/-! ## Output of `values` and names in messages -/

/-- Claim C33: the code departs from it.  `lenv_print` writes a name in which
`strstr` finds `%` as `printf("%%")`, a single `%`, not verbatim: after
`(def {a%b} 1)` the last line written by `(values ())` is `%`, not `a%b`.
The names registered before it, `%` among them, are written verbatim and in
order, the empty S-Expression is returned and the environment is as
before. -/
theorem lenv_print_percent_name :
    lval_eval 2 State.initial (.sexpr [.sym "def", .qexpr [.sym "a%b"], .num 1])
      = .ret ({ State.initial with env := State.initial.env ++ [("a%b", .num 1)] },
          .sexpr []) ∧
    lval_eval 2 { State.initial with env := State.initial.env ++ [("a%b", .num 1)] }
        (.sexpr [.sym "values", .sexpr []])
      = .ret ({ State.initial with
                  env := State.initial.env ++ [("a%b", .num 1)],
                  out := "head\ntail\nlist\neval\njoin\ncons\nlen\ninit\n+\nadd\n-\nsub\n*\nmul\n/\ndiv\n%\nmod\n^\npow\nmin\nmax\ndef\nvalues\nexit\n%\n" },
          .sexpr []) ∧
    lenv_print [("x", .num 1), ("a%b", .num 2), ("y", .num 3)] "" = "x\n%\ny\n" := by
  decide

/-- Claim C35: the code departs from it.  `builtin_init` passes the name
`head` to its empty-list check, and `builtin_exit` passes the name `values` to
all its checks: the Error of `(init {})` names `head`, and the Errors of
`(exit 1)` and `(exit 1 2)` name `values`; none of them holds the name of the
builtin that was called. -/
theorem check_errors_wrong_name :
    lval_eval 2 State.initial (.sexpr [.sym "init", .qexpr []])
      = .ret (State.initial, .err "Function 'head' passed empty list \x7b\x7d.") ∧
    strstr "Function 'head' passed empty list \x7b\x7d." "init" = false ∧
    lval_eval 2 State.initial (.sexpr [.sym "exit", .num 1])
      = .ret (State.initial, .err
          "Function 'values' passed incorrect type for argument 0. Got Number, expected S-Expression.") ∧
    strstr
      "Function 'values' passed incorrect type for argument 0. Got Number, expected S-Expression."
      "exit" = false ∧
    lval_eval 2 State.initial (.sexpr [.sym "exit", .num 1, .num 2])
      = .ret (State.initial, .err
          "Function 'values' passed incorrect number of arguments. Got 2, expected 1.") ∧
    strstr "Function 'values' passed incorrect number of arguments. Got 2, expected 1."
      "exit" = false := by
  decide

/-! ## Reading numbers -/

theorem digitChar_digit (k : Nat) (h : k < 10) :
    (Nat.digitChar k).isDigit = true ∧ (Nat.digitChar k).toNat - 48 = k := by
  interval_cases k <;> decide

theorem foldl_digits_acc (l : List Char) :
    ∀ acc : Nat, l.foldl (fun a c => 10 * a + (c.toNat - 48)) acc
      = acc * 10 ^ l.length + l.foldl (fun a c => 10 * a + (c.toNat - 48)) 0 := by
  induction l with
  | nil => intro acc; simp
  | cons c cs ih =>
    intro acc
    simp only [List.foldl_cons, List.length_cons]
    rw [ih (10 * acc + (c.toNat - 48)), ih (10 * 0 + (c.toNat - 48))]
    ring

theorem toDigitsCore_value :
    ∀ (fuel n : Nat) (ds : List Char), n < fuel →
      (Nat.toDigitsCore 10 fuel n ds).foldl (fun a c => 10 * a + (c.toNat - 48)) 0
        = n * 10 ^ ds.length + ds.foldl (fun a c => 10 * a + (c.toNat - 48)) 0
  | 0, n, ds, h => by omega
  | fuel + 1, n, ds, h => by
    have hd := (digitChar_digit (n % 10) (Nat.mod_lt _ (by decide))).2
    unfold Nat.toDigitsCore
    simp only
    split
    · rename_i h0
      have hn : n % 10 = n := by omega
      simp only [List.foldl_cons]
      rw [foldl_digits_acc ds, hd, hn]
      ring
    · rename_i h0
      rw [toDigitsCore_value fuel (n / 10) _ (by omega)]
      simp only [List.foldl_cons, List.length_cons]
      rw [foldl_digits_acc ds (10 * 0 + _), hd]
      conv_rhs => rw [← Nat.div_add_mod n 10]
      rw [pow_succ]
      ring

theorem toDigitsCore_digits :
    ∀ (fuel n : Nat) (ds : List Char), (∀ c ∈ ds, c.isDigit = true) →
      ∀ c ∈ Nat.toDigitsCore 10 fuel n ds, c.isDigit = true
  | 0, _, ds, h => by
    unfold Nat.toDigitsCore
    exact h
  | fuel + 1, n, ds, h => by
    have hd := (digitChar_digit (n % 10) (Nat.mod_lt _ (by decide))).1
    have hcons : ∀ c ∈ Nat.digitChar (n % 10) :: ds, c.isDigit = true := by
      intro c hc
      rcases List.mem_cons.1 hc with hc | hc
      · rw [hc]; exact hd
      · exact h c hc
    unfold Nat.toDigitsCore
    simp only
    split
    · exact hcons
    · exact toDigitsCore_digits fuel (n / 10) _ hcons

theorem repr_value (m : Nat) :
    (Nat.repr m).data.foldl (fun a c => 10 * a + (c.toNat - 48)) 0 = m ∧
    ∀ c ∈ (Nat.repr m).data, c.isDigit = true := by
  have hdata : (Nat.repr m).data = Nat.toDigitsCore 10 (m + 1) m [] := rfl
  rw [hdata]
  refine ⟨?_, toDigitsCore_digits _ _ _ (fun _ hc => absurd hc (List.not_mem_nil _))⟩
  rw [toDigitsCore_value (m + 1) m [] (Nat.lt_succ_self m)]
  simp

theorem digit_not_space (c : Char) (h : c.isDigit = true) :
    isspace c = false ∧ c ≠ '-' ∧ c ≠ '+' := by
  refine ⟨?_, ?_, ?_⟩
  · unfold isspace
    simp only [Bool.or_eq_false_iff, decide_eq_false_iff_not]
    refine ⟨⟨⟨⟨⟨?_, ?_⟩, ?_⟩, ?_⟩, ?_⟩, ?_⟩ <;> (rintro rfl; exact absurd h (by decide))
  · rintro rfl; exact absurd h (by decide)
  · rintro rfl; exact absurd h (by decide)

theorem strtol_digits (l : List Char) (hl : ∀ c ∈ l, c.isDigit = true) (neg : Bool) :
    strtol ⟨if neg then '-' :: l else l⟩
      = (let mag : Nat := l.foldl (fun a c => 10 * a + (c.toNat - 48)) 0
         let v : Int := if neg then -(mag : Int) else (mag : Int)
         if v > LONG_MAX then (LONG_MAX, true)
         else if v < LONG_MIN then (LONG_MIN, true)
         else (v, false)) := by
  have htake : l.takeWhile Char.isDigit = l := by
    rw [List.takeWhile_eq_self_iff]
    exact hl
  have hdrop : l.dropWhile isspace = l := by
    cases l with
    | nil => rfl
    | cons c cs =>
      rw [List.dropWhile_cons_of_neg]
      rw [(digit_not_space c (hl c (List.mem_cons_self _ _))).1]
      exact Bool.false_ne_true
  cases neg with
  | true =>
    have hsp : ('-' :: l).dropWhile isspace = '-' :: l := by
      rw [List.dropWhile_cons_of_neg]
      decide
    simp only [strtol, if_true, hsp, strtol_sign, htake]
  | false =>
    have hsign : strtol_sign l = (false, l) := by
      cases l with
      | nil => rfl
      | cons c cs =>
        have hc := digit_not_space c (hl c (List.mem_cons_self _ _))
        unfold strtol_sign
        split
        · rename_i r heq
          exact absurd (List.cons.inj heq).1 hc.2.1
        · rename_i r heq
          exact absurd (List.cons.inj heq).1 hc.2.2
        · rfl
    simp only [strtol, Bool.false_eq_true, if_false, hdrop, hsign, htake]

theorem strtol_toString (n : Int) :
    strtol (toString n)
      = if n > LONG_MAX then (LONG_MAX, true)
        else if n < LONG_MIN then (LONG_MIN, true)
        else (n, false) := by
  cases n with
  | ofNat m =>
    have hs : toString (Int.ofNat m) = ⟨if false then '-' :: (Nat.repr m).data
        else (Nat.repr m).data⟩ := rfl
    rw [hs, strtol_digits _ (repr_value m).2 false]
    simp only [(repr_value m).1, Bool.false_eq_true, if_false]
    rfl
  | negSucc m =>
    have hs : toString (Int.negSucc m) = ⟨if true then '-' :: (Nat.repr (m + 1)).data
        else (Nat.repr (m + 1)).data⟩ := rfl
    rw [hs, strtol_digits _ (repr_value (m + 1)).2 true]
    simp only [(repr_value (m + 1)).1, if_true]
    rfl

/-- Claim C32. For a node whose tag holds `number` and whose text is the
decimal numeral of an integer `n`: when `n` is in the range of `long`,
`lval_read` returns the Number `n`, which evaluates to itself; when `n` is
outside that range, `lval_read` returns the Error `invalid number`. -/
theorem lval_read_number (tag : String) (children : List mpc_ast_t) (n : Int)
    (htag : strstr tag "number" = true) :
    (LONG_MIN ≤ n ∧ n ≤ LONG_MAX →
      lval_read (.mk tag (toString n) children) = .ret (.num n) ∧
      ∀ (k : Nat) (e : State), lval_eval (k + 1) e (.num n) = .ret (e, .num n)) ∧
    (¬ (LONG_MIN ≤ n ∧ n ≤ LONG_MAX) →
      lval_read (.mk tag (toString n) children) = .ret (.err "invalid number")) := by
  have hread : lval_read (.mk tag (toString n) children)
      = .ret (if !(strtol (toString n)).2 then .num (strtol (toString n)).1
          else lval_err "invalid number") := by
    rw [lval_read]
    simp only [htag, if_true, lval_read_num, mpc_ast_t.contents]
  have herr : lval_err "invalid number" = .err "invalid number" := by decide
  have hst := strtol_toString n
  constructor
  · intro hr
    have h1 : ¬ n > LONG_MAX := by omega
    have h2 : ¬ n < LONG_MIN := by omega
    rw [if_neg h1, if_neg h2] at hst
    refine ⟨?_, fun _ _ => rfl⟩
    rw [hread, hst]
    rfl
  · intro hr
    by_cases h1 : n > LONG_MAX
    · rw [if_pos h1] at hst
      rw [hread, hst, herr]
      rfl
    · have h2 : n < LONG_MIN := by omega
      rw [if_neg h1, if_pos h2] at hst
      rw [hread, hst, herr]
      rfl

/-- The texts `-42` and `9223372036854775807` read as those Numbers, and
`9223372036854775808` reads as the Error. -/
theorem lval_read_number_witness :
    lval_read (.mk "expr|number|regex" "-42" []) = .ret (.num (-42)) ∧
    lval_read (.mk "expr|number|regex" "9223372036854775807" [])
      = .ret (.num 9223372036854775807) ∧
    lval_read (.mk "expr|number|regex" "9223372036854775808" [])
      = .ret (.err "invalid number") :=
  ⟨((lval_read_number "expr|number|regex" [] (-42) (by decide)).1 (by decide)).1,
   ((lval_read_number "expr|number|regex" [] 9223372036854775807 (by decide)).1
      (by decide)).1,
   (lval_read_number "expr|number|regex" [] 9223372036854775808 (by decide)).2 (by decide)⟩

/-! ## Arguments of the builtins -/

theorem first_error_none_iff (v : List lval) :
    first_error v = none ↔ ∀ r ∈ v, r.type ≠ .LVAL_ERR := by
  induction v with
  | nil => simp [first_error]
  | cons c cs ih =>
    by_cases hc : c.type = .LVAL_ERR
    · simp [first_error, hc]
    · simp [first_error, hc, ih]

/-- Claim C37. `lval_eval_sexpr`, once the cells have been evaluated to `rs`
in state `e1`, ends in one of five ways: it returns the first Error of `rs`;
it returns `()` when `rs` is empty; it returns the only item of `rs`; it
returns the Error `First element is not a function!`; or it ends as the call
of the head Function `g` on the remaining items `args` does.  Only in the
last case is a builtin called, and there `args` is not empty and holds
evaluated values none of which is an Error; on such an argument list the
removal of item 0 and the reads of `a->cell[0]` by the check macros `INCTYPE`
and, after a passed `INCTYPE` for a Q-Expression, `EMPLST` are within
bounds. -/
theorem lval_eval_sexpr_calls (ev : State → lval → Outcome (State × lval))
    (e e1 : State) (cell rs : List lval)
    (hev : lval_eval_cells ev e cell = .ret (e1, rs)) :
    ((∃ x, first_error rs = some x ∧ lval_eval_sexpr ev e cell = .ret (e1, x)) ∨
     (rs = [] ∧ lval_eval_sexpr ev e cell = .ret (e1, .sexpr [])) ∨
     (∃ x, rs = [x] ∧ x.type ≠ .LVAL_ERR ∧ lval_eval_sexpr ev e cell = .ret (e1, x)) ∨
     (∃ f args, rs = f :: args ∧ args ≠ [] ∧ f.type ≠ .LVAL_FUN ∧
        lval_eval_sexpr ev e cell = .ret (e1, .err "First element is not a function!")) ∨
     (∃ g args, rs = .func g :: args ∧ args ≠ [] ∧ (∀ a ∈ args, a.type ≠ .LVAL_ERR) ∧
        rs.length = cell.length ∧
        lval_eval_sexpr ev e cell = call_fun ev g e1 args)) ∧
    (∀ args : List lval, args ≠ [] →
      (∃ x rest, lval_pop args 0 = some (x, rest)) ∧
      (∀ (i : Nat) (typ : ltype) (func : String), INCTYPE args i typ func ≠ .crash) ∧
      (∀ (typ : ltype) (func : String) (i n : Nat),
        INCTYPE_loop args typ func i n ≠ .crash) ∧
      (∀ (i : Nat) (func name : String),
        INCTYPE args i .LVAL_QEXPR func = .ret none → EMPLST args name ≠ .crash)) := by
  constructor
  · have hl := lval_eval_cells_length _ _ _ _ _ hev
    cases hfe : first_error rs with
    | some x =>
      left
      exact ⟨x, rfl, by simp only [lval_eval_sexpr, hev, Outcome.bind_ret, hfe]⟩
    | none =>
      right
      have hok := (first_error_none_iff rs).1 hfe
      cases rs with
      | nil =>
        left
        exact ⟨rfl, by simp [lval_eval_sexpr, hev, hfe]⟩
      | cons f args =>
        right
        cases args with
        | nil =>
          left
          exact ⟨f, rfl, hok f (List.mem_cons_self _ _),
            by simp [lval_eval_sexpr, hev, hfe, lval_take, lval_pop]⟩
        | cons a1 as =>
          right
          have h0 : (f :: a1 :: as).length ≠ 0 := by simp
          have h1 : (f :: a1 :: as).length ≠ 1 := by simp
          have herr : lval_err "First element is not a function!"
              = .err "First element is not a function!" := by decide
          cases f with
          | func g =>
            right
            exact ⟨g, a1 :: as, rfl, by simp,
              fun a ha => hok a (List.mem_cons_of_mem _ ha), hl,
              by simp only [lval_eval_sexpr, hev, Outcome.bind_ret, hfe, h0, h1, if_false,
                   lval_pop, List.get?_cons_zero, List.eraseIdx_cons_zero]⟩
          | num n =>
            left
            exact ⟨_, _, rfl, by simp, by simp [lval.type],
              by simp only [lval_eval_sexpr, hev, Outcome.bind_ret, hfe, h0, h1, if_false,
                   lval_pop, List.get?_cons_zero, List.eraseIdx_cons_zero, herr]⟩
          | err m =>
            left
            exact ⟨_, _, rfl, by simp, by simp [lval.type],
              by simp only [lval_eval_sexpr, hev, Outcome.bind_ret, hfe, h0, h1, if_false,
                   lval_pop, List.get?_cons_zero, List.eraseIdx_cons_zero, herr]⟩
          | sym s =>
            left
            exact ⟨_, _, rfl, by simp, by simp [lval.type],
              by simp only [lval_eval_sexpr, hev, Outcome.bind_ret, hfe, h0, h1, if_false,
                   lval_pop, List.get?_cons_zero, List.eraseIdx_cons_zero, herr]⟩
          | sexpr c =>
            left
            exact ⟨_, _, rfl, by simp, by simp [lval.type],
              by simp only [lval_eval_sexpr, hev, Outcome.bind_ret, hfe, h0, h1, if_false,
                   lval_pop, List.get?_cons_zero, List.eraseIdx_cons_zero, herr]⟩
          | qexpr c =>
            left
            exact ⟨_, _, rfl, by simp, by simp [lval.type],
              by simp only [lval_eval_sexpr, hev, Outcome.bind_ret, hfe, h0, h1, if_false,
                   lval_pop, List.get?_cons_zero, List.eraseIdx_cons_zero, herr]⟩
  · intro args hne
    obtain ⟨c, cs, rfl⟩ := List.exists_cons_of_ne_nil hne
    have hinc : ∀ (i : Nat) (typ : ltype) (func : String),
        INCTYPE (c :: cs) i typ func ≠ .crash := by
      intro i typ func
      simp only [INCTYPE]
      split <;> simp
    refine ⟨⟨c, cs, rfl⟩, hinc, fun typ func i n => ?_, fun i func name hq => ?_⟩
    · induction n generalizing i with
      | zero => simp [INCTYPE_loop]
      | succ n ih =>
        unfold INCTYPE_loop
        split
        · exact ih (i + 1)
        · rename_i r hr
          intro hc
          exact hinc i typ func hc
    · cases c with
      | qexpr q =>
        simp only [EMPLST, lval.cells]
        split <;> simp
      | num k => simp [INCTYPE, lval.type] at hq
      | err m => simp [INCTYPE, lval.type] at hq
      | sym s => simp [INCTYPE, lval.type] at hq
      | func f => simp [INCTYPE, lval.type] at hq
      | sexpr q => simp [INCTYPE, lval.type] at hq

/-- In `(+ 1 2)` the builtin is called with the two evaluated arguments. -/
theorem lval_eval_sexpr_calls_witness :
    lval_eval_sexpr (lval_eval 1) State.initial [.sym "+", .num 1, .num 2]
      = call_fun (lval_eval 1) .builtin_add State.initial [.num 1, .num 2] ∧
    (∃ x rest, lval_pop [lval.num 1, .num 2] 0 = some (x, rest)) := by
  have h := lval_eval_sexpr_calls (lval_eval 1) State.initial State.initial
    [.sym "+", .num 1, .num 2] [.func .builtin_add, .num 1, .num 2] (by decide)
  refine ⟨?_, (h.2 [.num 1, .num 2] (by decide)).1⟩
  rcases h.1 with ⟨x, hx, _⟩ | ⟨hx, _⟩ | ⟨x, hx, _⟩ | ⟨f, args, hx, _, hf, _⟩ |
    ⟨g, args, hx, _, _, _, hres⟩
  · have hn : first_error [lval.func .builtin_add, .num 1, .num 2] = none := by decide
    rw [hn] at hx
    cases hx
  · exact absurd hx (by decide)
  · exact absurd hx (by simp)
  · simp only [List.cons.injEq] at hx
    rw [← hx.1] at hf
    exact absurd rfl hf
  · simp only [List.cons.injEq, lval.func.injEq] at hx
    rw [hres, ← hx.1, ← hx.2]

/-! ## Normal forms -/

theorem check_cases {c : Outcome (Option lval)} {e : State} {k : Outcome (State × lval)}
    {e' : State} {r : lval} (h : check c e k = .ret (e', r)) :
    (c = .ret (some r) ∧ e' = e) ∨ (c = .ret none ∧ k = .ret (e', r)) := by
  unfold check at h
  split at h
  · simp only [Outcome.ret.injEq, Prod.mk.injEq] at h
    exact Or.inl ⟨by rw [h.2], h.1.symm⟩
  · exact Or.inr ⟨rfl, h⟩
  · cases h
  · cases h

theorem INCARGS_err (a : List lval) (num : Nat) (func : String) (x : lval)
    (h : INCARGS a num func = .ret (some x)) : x.type = .LVAL_ERR := by
  unfold INCARGS at h
  split at h
  · simp only [Outcome.ret.injEq, Option.some.injEq] at h
    rw [← h]; rfl
  · cases h

theorem INCTYPE_err (a : List lval) (i : Nat) (typ : ltype) (func : String) (x : lval)
    (h : INCTYPE a i typ func = .ret (some x)) : x.type = .LVAL_ERR := by
  unfold INCTYPE at h
  split at h
  · cases h
  · split at h
    · simp only [Outcome.ret.injEq, Option.some.injEq] at h
      rw [← h]; rfl
    · cases h

theorem INCTYPE_none (a : List lval) (i : Nat) (typ : ltype) (func : String)
    (h : INCTYPE a i typ func = .ret none) : ∃ c cs, a = c :: cs ∧ c.type = typ := by
  unfold INCTYPE at h
  split at h
  · cases h
  · rename_i c cs
    split at h
    · cases h
    · rename_i ht
      exact ⟨c, cs, rfl, not_not.1 ht⟩

theorem INCTYPE_loop_err (a : List lval) (typ : ltype) (func : String) (x : lval) :
    ∀ (n i : Nat), INCTYPE_loop a typ func i n = .ret (some x) → x.type = .LVAL_ERR
  | 0, _, h => by cases h
  | n + 1, i, h => by
    unfold INCTYPE_loop at h
    split at h
    · exact INCTYPE_loop_err a typ func x n (i + 1) h
    · exact INCTYPE_err a i typ func x h

theorem INCTYPE_loop_none (a : List lval) (typ : ltype) (func : String) (n i : Nat)
    (h : INCTYPE_loop a typ func i (n + 1) = .ret none) :
    ∃ c cs, a = c :: cs ∧ c.type = typ := by
  unfold INCTYPE_loop at h
  split at h
  · rename_i h0
    exact INCTYPE_none a i typ func h0
  · exact INCTYPE_none a i typ func h

theorem EMPLST_err (a : List lval) (func : String) (x : lval)
    (h : EMPLST a func = .ret (some x)) : x.type = .LVAL_ERR := by
  unfold EMPLST at h
  split at h
  · cases h
  · split at h
    · cases h
    · split at h
      · simp only [Outcome.ret.injEq, Option.some.injEq] at h
        rw [← h]; rfl
      · cases h

theorem LASSERT_err (cond : Bool) (fmt : String) (x : lval)
    (h : LASSERT cond fmt = .ret (some x)) : x.type = .LVAL_ERR := by
  unfold LASSERT at h
  split at h
  · simp only [Outcome.ret.injEq, Option.some.injEq] at h
    rw [← h]; rfl
  · cases h

theorem first_is_empty_err (a : List lval) (fmt : String) (x : lval)
    (h : ((first_is_empty a).bind fun b => LASSERT b fmt) = .ret (some x)) :
    x.type = .LVAL_ERR := by
  cases hf : first_is_empty a with
  | ret b =>
    rw [hf] at h
    exact LASSERT_err b fmt x h
  | crash => rw [hf] at h; cases h
  | nofuel => rw [hf] at h; cases h

theorem is_normal_err {x : lval} (h : x.type = .LVAL_ERR) : is_normal x = true := by
  cases x <;> first | rfl | cases h

theorem is_normal_qexpr {x : lval} (h : x.type = .LVAL_QEXPR) : is_normal x = true := by
  cases x <;> first | rfl | cases h

theorem is_normal_cases (r : lval) (h : is_normal r = true) :
    (∃ k, r = .num k) ∨ (∃ m, r = .err m) ∨ (∃ f, r = .func f) ∨ (∃ c, r = .qexpr c) ∨
      r = .sexpr [] := by
  cases r with
  | num k => exact Or.inl ⟨k, rfl⟩
  | err m => exact Or.inr (Or.inl ⟨m, rfl⟩)
  | sym s => cases h
  | func f => exact Or.inr (Or.inr (Or.inl ⟨f, rfl⟩))
  | sexpr c =>
    cases c with
    | nil => exact Or.inr (Or.inr (Or.inr (Or.inr rfl)))
    | cons x xs => cases h
  | qexpr c => exact Or.inr (Or.inr (Or.inr (Or.inl ⟨c, rfl⟩)))

theorem lval_take_zero (c : lval) (cs : List lval) : lval_take (c :: cs) 0 = some c := rfl

theorem lenv_get_normal (env : lenv) (k : String) (h : env_normal env) (r : lval)
    (hr : lenv_get env k = .ret r) : is_normal r = true := by
  induction env with
  | nil =>
    simp only [lenv_get, Outcome.ret.injEq] at hr
    rw [← hr]; rfl
  | cons p rest ih =>
    obtain ⟨s, v⟩ := p
    simp only [lenv_get] at hr
    split at hr
    · rw [lval_copy_ret v r hr]
      exact h (s, v) (List.mem_cons_self _ _)
    · exact ih (fun q hq => h q (List.mem_cons_of_mem _ hq)) hr

theorem lenv_put_normal {env env' : lenv} {k : String} {v : lval}
    (hput : lenv_put env k v = .ret env') (h : env_normal env)
    (hv : is_normal v = true) : env_normal env' := by
  have hc := lenv_put_copy hput
  induction env generalizing env' with
  | nil =>
    simp only [lenv_put, hc, Outcome.bind_ret, Outcome.ret.injEq] at hput
    intro p hp
    rw [← hput, List.mem_singleton] at hp
    rw [hp]
    exact hv
  | cons q rest ih =>
    obtain ⟨s, x⟩ := q
    simp only [lenv_put] at hput
    split at hput
    · simp only [hc, Outcome.bind_ret, Outcome.ret.injEq] at hput
      intro p hp
      rw [← hput] at hp
      rcases List.mem_cons.1 hp with hp | hp
      · rw [hp]
        exact hv
      · exact h p (List.mem_cons_of_mem _ hp)
    · obtain ⟨r, hr, hput⟩ := bind_ret_inv hput
      simp only [Outcome.ret.injEq] at hput
      intro p hp
      rw [← hput] at hp
      rcases List.mem_cons.1 hp with hp | hp
      · rw [hp]
        exact h (s, x) (List.mem_cons_self _ _)
      · exact ih hr (fun q hq => h q (List.mem_cons_of_mem _ hq)) p hp

theorem builtin_op_loop_normal (op : String) :
    ∀ (rest : List lval) (x : Int) (r : lval),
      builtin_op_loop op x rest = .ret r → is_normal r = true
  | [], x, r, h => by
    simp only [builtin_op_loop, Outcome.ret.injEq] at h
    rw [← h]; rfl
  | y :: rest, x, r, h => by
    unfold builtin_op_loop at h
    split at h
    · repeat' split at h
      all_goals first
        | exact builtin_op_loop_normal op rest _ r h
        | (simp only [Outcome.ret.injEq] at h; rw [← h]; rfl)
        | cases h
    · cases h

theorem builtin_op_normal {e e' : State} {a : List lval} {op : String} {r : lval}
    (h : builtin_op e a op = .ret (e', r)) : is_normal r = true := by
  unfold builtin_op at h
  rcases check_cases h with ⟨hc, _⟩ | ⟨_, h⟩
  · exact is_normal_err (INCTYPE_loop_err _ _ _ _ _ _ hc)
  split at h
  · cases h
  · split at h
    · exact builtin_op_loop_normal op _ _ r (bind_ret_result h)
    · cases h

theorem builtin_head_normal {e e' : State} {a : List lval} {r : lval}
    (h : builtin_head e a = .ret (e', r)) : is_normal r = true := by
  unfold builtin_head at h
  rcases check_cases h with ⟨hc, _⟩ | ⟨_, h⟩
  · exact is_normal_err (INCARGS_err _ _ _ _ hc)
  rcases check_cases h with ⟨hc, _⟩ | ⟨ht, h⟩
  · exact is_normal_err (INCTYPE_err _ _ _ _ _ hc)
  rcases check_cases h with ⟨hc, _⟩ | ⟨_, h⟩
  · exact is_normal_err (EMPLST_err _ _ _ hc)
  obtain ⟨c, cs, rfl, hty⟩ := INCTYPE_none _ _ _ _ ht
  rw [lval_take_zero] at h
  cases c <;> cases hty
  simp only [Outcome.ret.injEq, Prod.mk.injEq] at h
  rw [← h.2]; rfl

theorem builtin_tail_normal {e e' : State} {a : List lval} {r : lval}
    (h : builtin_tail e a = .ret (e', r)) : is_normal r = true := by
  unfold builtin_tail at h
  rcases check_cases h with ⟨hc, _⟩ | ⟨_, h⟩
  · exact is_normal_err (INCARGS_err _ _ _ _ hc)
  rcases check_cases h with ⟨hc, _⟩ | ⟨ht, h⟩
  · exact is_normal_err (INCTYPE_err _ _ _ _ _ hc)
  rcases check_cases h with ⟨hc, _⟩ | ⟨_, h⟩
  · exact is_normal_err (EMPLST_err _ _ _ hc)
  obtain ⟨c, cs, rfl, hty⟩ := INCTYPE_none _ _ _ _ ht
  rw [lval_take_zero] at h
  cases c <;> cases hty
  simp only at h
  split at h
  · simp only [Outcome.ret.injEq, Prod.mk.injEq] at h
    rw [← h.2]; rfl
  · cases h

theorem builtin_init_normal {e e' : State} {a : List lval} {r : lval}
    (h : builtin_init e a = .ret (e', r)) : is_normal r = true := by
  unfold builtin_init at h
  rcases check_cases h with ⟨hc, _⟩ | ⟨_, h⟩
  · exact is_normal_err (INCARGS_err _ _ _ _ hc)
  rcases check_cases h with ⟨hc, _⟩ | ⟨ht, h⟩
  · exact is_normal_err (INCTYPE_err _ _ _ _ _ hc)
  rcases check_cases h with ⟨hc, _⟩ | ⟨_, h⟩
  · exact is_normal_err (EMPLST_err _ _ _ hc)
  obtain ⟨c, cs, rfl, hty⟩ := INCTYPE_none _ _ _ _ ht
  rw [lval_take_zero] at h
  cases c <;> cases hty
  simp only at h
  split at h
  · simp only [Outcome.ret.injEq, Prod.mk.injEq] at h
    rw [← h.2]; rfl
  · cases h

theorem builtin_len_normal {e e' : State} {a : List lval} {r : lval}
    (h : builtin_len e a = .ret (e', r)) : is_normal r = true := by
  unfold builtin_len at h
  rcases check_cases h with ⟨hc, _⟩ | ⟨_, h⟩
  · exact is_normal_err (INCARGS_err _ _ _ _ hc)
  rcases check_cases h with ⟨hc, _⟩ | ⟨ht, h⟩
  · exact is_normal_err (INCTYPE_err _ _ _ _ _ hc)
  split at h
  · split at h
    · simp only [Outcome.ret.injEq, Prod.mk.injEq] at h
      rw [← h.2]; rfl
    · cases h
  · cases h

theorem lval_add_type {v x r : lval} (hv : v.type = .LVAL_QEXPR)
    (h : lval_add v x = .ret r) : r.type = .LVAL_QEXPR := by
  unfold lval_add at h
  split at h
  · cases hv
  · simp only [Outcome.ret.injEq] at h
    rw [← h]; rfl
  · cases h

theorem lval_join_loop_type :
    ∀ (cs : List lval) (x r : lval), x.type = .LVAL_QEXPR →
      lval_join_loop x cs = .ret r → r.type = .LVAL_QEXPR
  | [], x, r, hx, h => by
    simp only [lval_join_loop, Outcome.ret.injEq] at h
    rw [← h]; exact hx
  | c :: cs, x, r, hx, h => by
    unfold lval_join_loop at h
    cases ha : lval_add x c with
    | ret x1 =>
      rw [ha] at h
      exact lval_join_loop_type cs x1 r (lval_add_type hx ha) h
    | crash => rw [ha] at h; cases h
    | nofuel => rw [ha] at h; cases h

theorem lval_join_type {x y r : lval} (hx : x.type = .LVAL_QEXPR)
    (h : lval_join x y = .ret r) : r.type = .LVAL_QEXPR := by
  unfold lval_join at h
  split at h
  · cases h
  · exact lval_join_loop_type _ _ _ hx h

theorem builtin_join_loop_type :
    ∀ (rest : List lval) (x r : lval), x.type = .LVAL_QEXPR →
      builtin_join_loop x rest = .ret r → r.type = .LVAL_QEXPR
  | [], x, r, hx, h => by
    simp only [builtin_join_loop, Outcome.ret.injEq] at h
    rw [← h]; exact hx
  | y :: rest, x, r, hx, h => by
    unfold builtin_join_loop at h
    cases ha : lval_join x y with
    | ret x1 =>
      rw [ha] at h
      exact builtin_join_loop_type rest x1 r (lval_join_type hx ha) h
    | crash => rw [ha] at h; cases h
    | nofuel => rw [ha] at h; cases h

theorem builtin_join_normal {e e' : State} {a : List lval} {r : lval}
    (h : builtin_join e a = .ret (e', r)) : is_normal r = true := by
  unfold builtin_join at h
  rcases check_cases h with ⟨hc, _⟩ | ⟨ht, h⟩
  · exact is_normal_err (INCTYPE_loop_err _ _ _ _ _ _ hc)
  cases a with
  | nil => cases h
  | cons x a1 =>
    obtain ⟨c, cs, hcs, hty⟩ := INCTYPE_loop_none _ _ _ _ _ ht
    simp only [List.cons.injEq] at hcs
    rw [← hcs.1] at hty
    have hp : lval_pop (x :: a1) 0 = some (x, a1) := rfl
    rw [hp] at h
    exact is_normal_qexpr (builtin_join_loop_type a1 x r hty (bind_ret_result h))

theorem builtin_cons_normal {e e' : State} {a : List lval} {r : lval}
    (h : builtin_cons e a = .ret (e', r)) : is_normal r = true := by
  unfold builtin_cons at h
  rcases check_cases h with ⟨hc, _⟩ | ⟨_, h⟩
  · exact is_normal_err (INCARGS_err _ _ _ _ hc)
  rcases check_cases h with ⟨hc, _⟩ | ⟨ht, h⟩
  · exact is_normal_err (INCTYPE_err _ _ _ _ _ hc)
  rcases check_cases h with ⟨hc, _⟩ | ⟨ht2, h⟩
  · exact is_normal_err (INCTYPE_err _ _ _ _ _ hc)
  obtain ⟨c, cs, rfl, hty⟩ := INCTYPE_none _ _ _ _ ht
  obtain ⟨c2, cs2, hcs, hty2⟩ := INCTYPE_none _ _ _ _ ht2
  simp only [List.cons.injEq] at hcs
  rw [← hcs.1, hty] at hty2
  cases hty2

theorem builtin_def_loop_normal :
    ∀ (syms vals : List lval) (e e' : State) (r : lval),
      env_normal e.env → (∀ x ∈ vals, is_normal x = true) →
      builtin_def_loop e syms vals = .ret (e', r) →
      env_normal e'.env ∧ is_normal r = true
  | [], _, e, e', r, henv, _, h => by
    simp only [builtin_def_loop, Outcome.ret.injEq, Prod.mk.injEq] at h
    rw [← h.1, ← h.2]
    exact ⟨henv, rfl⟩
  | k :: syms, vals, e, e', r, henv, hvals, h => by
    unfold builtin_def_loop at h
    split at h
    · rename_i name
      split at h
      · simp only [Outcome.ret.injEq, Prod.mk.injEq] at h
        rw [← h.1, ← h.2]
        exact ⟨henv, rfl⟩
      · split at h
        · rename_i v vals1
          obtain ⟨env1, hput, h⟩ := bind_ret_inv h
          have hrec := builtin_def_loop_normal syms vals1
            { e with env := env1 } e' r
            (lenv_put_normal hput henv (hvals v (List.mem_cons_self _ _)))
            (fun x hx => hvals x (List.mem_cons_of_mem _ hx)) h
          exact hrec
        · cases h
    · cases h

theorem builtin_def_normal {e e' : State} {a : List lval} {r : lval}
    (henv : env_normal e.env) (ha : ∀ x ∈ a, is_normal x = true)
    (h : builtin_def e a = .ret (e', r)) : env_normal e'.env ∧ is_normal r = true := by
  unfold builtin_def at h
  rcases check_cases h with ⟨hc, he⟩ | ⟨_, h⟩
  · rw [he]; exact ⟨henv, is_normal_err (INCTYPE_err _ _ _ _ _ hc)⟩
  split at h
  · cases h
  · rename_i s vals
    split at h
    · cases h
    · rcases check_cases h with ⟨hc, he⟩ | ⟨_, h⟩
      · rw [he]; exact ⟨henv, is_normal_err (INCTYPE_loop_err _ _ _ _ _ _ hc)⟩
      rcases check_cases h with ⟨hc, he⟩ | ⟨_, h⟩
      · rw [he]; exact ⟨henv, is_normal_err (LASSERT_err _ _ _ hc)⟩
      exact builtin_def_loop_normal _ _ _ _ _ henv
        (fun x hx => ha x (List.mem_cons_of_mem _ hx)) h

theorem builtin_values_normal {e e' : State} {a : List lval} {r : lval}
    (h : builtin_values e a = .ret (e', r)) : is_normal r = true := by
  unfold builtin_values at h
  rcases check_cases h with ⟨hc, _⟩ | ⟨_, h⟩
  · exact is_normal_err (INCARGS_err _ _ _ _ hc)
  rcases check_cases h with ⟨hc, _⟩ | ⟨_, h⟩
  · exact is_normal_err (INCTYPE_err _ _ _ _ _ hc)
  rcases check_cases h with ⟨hc, _⟩ | ⟨_, h⟩
  · exact is_normal_err (first_is_empty_err _ _ _ hc)
  simp only [Outcome.ret.injEq, Prod.mk.injEq] at h
  rw [← h.2]; rfl

theorem builtin_exit_normal {e e' : State} {a : List lval} {r : lval}
    (h : builtin_exit e a = .ret (e', r)) : is_normal r = true := by
  unfold builtin_exit at h
  rcases check_cases h with ⟨hc, _⟩ | ⟨_, h⟩
  · exact is_normal_err (INCARGS_err _ _ _ _ hc)
  rcases check_cases h with ⟨hc, _⟩ | ⟨_, h⟩
  · exact is_normal_err (INCTYPE_err _ _ _ _ _ hc)
  rcases check_cases h with ⟨hc, _⟩ | ⟨_, h⟩
  · exact is_normal_err (first_is_empty_err _ _ _ hc)
  simp only [Outcome.ret.injEq, Prod.mk.injEq] at h
  rw [← h.2]; rfl

theorem builtin_eval_normal {ev : State → lval → Outcome (State × lval)}
    (hev : ∀ e v e' r, env_normal e.env → ev e v = .ret (e', r) →
      env_normal e'.env ∧ is_normal r = true)
    {e e' : State} {a : List lval} {r : lval}
    (henv : env_normal e.env)
    (h : builtin_eval ev e a = .ret (e', r)) : env_normal e'.env ∧ is_normal r = true := by
  unfold builtin_eval at h
  rcases check_cases h with ⟨hc, he⟩ | ⟨_, h⟩
  · rw [he]; exact ⟨henv, is_normal_err (INCARGS_err _ _ _ _ hc)⟩
  rcases check_cases h with ⟨hc, he⟩ | ⟨_, h⟩
  · rw [he]; exact ⟨henv, is_normal_err (INCTYPE_err _ _ _ _ _ hc)⟩
  split at h
  · exact hev _ _ _ _ henv h
  · exact hev _ _ _ _ henv h
  · cases h

theorem call_fun_normal {ev : State → lval → Outcome (State × lval)}
    (hev : ∀ e v e' r, env_normal e.env → ev e v = .ret (e', r) →
      env_normal e'.env ∧ is_normal r = true)
    {f : lbuiltin} {e e' : State} {a : List lval} {r : lval}
    (henv : env_normal e.env) (ha : ∀ x ∈ a, is_normal x = true)
    (h : call_fun ev f e a = .ret (e', r)) : env_normal e'.env ∧ is_normal r = true := by
  have hst : ∀ {e1 : State}, e1 = e → env_normal e1.env := fun he => he ▸ henv
  have hst2 : ∀ {e1 : State}, e1.env = e.env ∧ e1.builtins = e.builtins → env_normal e1.env :=
    fun he => by rw [he.1]; exact henv
  cases f <;> simp only [call_fun] at h
  · exact ⟨hst (builtin_head_state h), builtin_head_normal h⟩
  · exact ⟨hst (builtin_tail_state h), builtin_tail_normal h⟩
  · simp only [builtin_list, Outcome.ret.injEq, Prod.mk.injEq] at h
    rw [← h.1, ← h.2]
    exact ⟨henv, rfl⟩
  · exact builtin_eval_normal hev henv h
  · exact ⟨hst (builtin_join_state h), builtin_join_normal h⟩
  · exact ⟨hst (builtin_cons_state h), builtin_cons_normal h⟩
  · exact ⟨hst (builtin_len_state h), builtin_len_normal h⟩
  · exact ⟨hst (builtin_init_state h), builtin_init_normal h⟩
  · exact ⟨hst (builtin_op_state h), builtin_op_normal h⟩
  · exact ⟨hst (builtin_op_state h), builtin_op_normal h⟩
  · exact ⟨hst (builtin_op_state h), builtin_op_normal h⟩
  · exact ⟨hst (builtin_op_state h), builtin_op_normal h⟩
  · exact ⟨hst (builtin_op_state h), builtin_op_normal h⟩
  · exact ⟨hst (builtin_op_state h), builtin_op_normal h⟩
  · exact ⟨hst (builtin_op_state h), builtin_op_normal h⟩
  · exact ⟨hst (builtin_op_state h), builtin_op_normal h⟩
  · exact builtin_def_normal henv ha h
  · exact ⟨hst2 (builtin_values_state h), builtin_values_normal h⟩
  · exact ⟨hst2 (builtin_exit_state h), builtin_exit_normal h⟩

theorem lval_eval_cells_normal {ev : State → lval → Outcome (State × lval)}
    (hev : ∀ e v e' r, env_normal e.env → ev e v = .ret (e', r) →
      env_normal e'.env ∧ is_normal r = true) :
    ∀ (cell : List lval) (e e' : State) (rs : List lval),
      env_normal e.env → lval_eval_cells ev e cell = .ret (e', rs) →
      env_normal e'.env ∧ ∀ r ∈ rs, is_normal r = true
  | [], e, e', rs, henv, h => by
    simp only [lval_eval_cells, Outcome.ret.injEq, Prod.mk.injEq] at h
    rw [← h.1, ← h.2]
    exact ⟨henv, fun _ hr => absurd hr (List.not_mem_nil _)⟩
  | c :: cs, e, e', rs, henv, h => by
    simp only [lval_eval_cells] at h
    cases hc : ev e c with
    | ret p =>
      obtain ⟨e1, r1⟩ := p
      rw [hc] at h
      simp only [Outcome.bind_ret] at h
      have h1 := hev _ _ _ _ henv hc
      cases hcs : lval_eval_cells ev e1 cs with
      | ret q =>
        obtain ⟨e2, rs1⟩ := q
        rw [hcs] at h
        simp only [Outcome.bind_ret, Outcome.ret.injEq, Prod.mk.injEq] at h
        have h2 := lval_eval_cells_normal hev cs e1 e2 rs1 h1.1 hcs
        rw [← h.1, ← h.2]
        refine ⟨h2.1, fun r hr => ?_⟩
        rcases List.mem_cons.1 hr with hr | hr
        · exact hr ▸ h1.2
        · exact h2.2 r hr
      | crash => rw [hcs] at h; cases h
      | nofuel => rw [hcs] at h; cases h
    | crash => rw [hc] at h; cases h
    | nofuel => rw [hc] at h; cases h

theorem lval_eval_sexpr_normal {ev : State → lval → Outcome (State × lval)}
    (hev : ∀ e v e' r, env_normal e.env → ev e v = .ret (e', r) →
      env_normal e'.env ∧ is_normal r = true)
    {e e' : State} {cell : List lval} {r : lval}
    (henv : env_normal e.env)
    (h : lval_eval_sexpr ev e cell = .ret (e', r)) :
    env_normal e'.env ∧ is_normal r = true := by
  unfold lval_eval_sexpr at h
  cases hc : lval_eval_cells ev e cell with
  | ret p =>
    obtain ⟨e1, v⟩ := p
    rw [hc] at h
    simp only [Outcome.bind_ret] at h
    have h1 := lval_eval_cells_normal hev cell e e1 v henv hc
    have hst : ∀ x : lval, is_normal x = true →
        Outcome.ret (e1, x) = Outcome.ret (e', r) →
        env_normal e'.env ∧ is_normal r = true := by
      intro x hx hxr
      simp only [Outcome.ret.injEq, Prod.mk.injEq] at hxr
      rw [← hxr.1, ← hxr.2]
      exact ⟨h1.1, hx⟩
    split at h
    · rename_i x hx
      exact hst x (h1.2 x (first_error_mem v x hx)) h
    · split at h
      · rename_i hl
        have hv : v = [] := List.length_eq_zero.1 hl
        exact hst (.sexpr v) (by rw [hv]; rfl) h
      · split at h
        · split at h
          · rename_i x hx
            exact hst x (h1.2 x (lval_take_mem hx)) h
          · cases h
        · split at h
          · cases h
          · rename_i f args hp
            have hm := lval_pop_mem hp
            have hargs : ∀ x ∈ args, is_normal x = true := fun x hx => h1.2 x (hm.2 x hx)
            split at h
            · exact call_fun_normal hev h1.1 hargs h
            · exact hst (lval_err "First element is not a function!") rfl h
  | crash => rw [hc] at h; cases h
  | nofuel => rw [hc] at h; cases h

theorem lval_eval_normal :
    ∀ (n : Nat) (e : State) (v : lval) (e' : State) (r : lval),
      env_normal e.env → lval_eval n e v = .ret (e', r) →
      env_normal e'.env ∧ is_normal r = true
  | 0, _, _, _, _, _, h => by cases h
  | n + 1, e, v, e', r, henv, h => by
    unfold lval_eval at h
    split at h
    · have hp := bind_pair_ret h
      rw [hp.1]
      exact ⟨henv, lenv_get_normal e.env _ henv r hp.2⟩
    · exact lval_eval_sexpr_normal (lval_eval_normal n) henv h
    · rename_i hs hx
      simp only [Outcome.ret.injEq, Prod.mk.injEq] at h
      rw [← h.1, ← h.2]
      refine ⟨henv, ?_⟩
      cases v with
      | sym s => exact absurd rfl (hs s)
      | sexpr c => exact absurd rfl (hx c)
      | _ => rfl

theorem env_normal_initial : env_normal State.initial.env := by
  unfold env_normal
  decide

theorem reachable_env_normal (e : State) (h : Reachable e) : env_normal e.env := by
  induction h with
  | initial => exact env_normal_initial
  | eval n e e' v r _ hev ih => exact (lval_eval_normal n e v e' r ih hev).1
  | flag e w _ _ ih => exact ih

theorem lval_eval_of_normal (m : Nat) (e : State) (r : lval) (h : is_normal r = true) :
    lval_eval (m + 1) e r = .ret (e, r) := by
  cases r with
  | sym s => cases h
  | sexpr c =>
    cases c with
    | nil => rfl
    | cons x xs => cases h
  | _ => rfl

/-- Claim C36. In every state `e` that the interpreter can reach from the
initial one, every value bound in the environment is in normal form; and when
`lval_eval` on any value `v` returns a result `r` there, `r` is a Number, an
Error, a Function, a Q-Expression or the S-Expression without cells (never a
Symbol, never an S-Expression with cells), every value bound in the
environment after the call is in normal form too, and `lval_eval` on `r`, in
any state and with any fuel above zero, returns `r` and the state unchanged. -/
theorem lval_eval_normal_form (e : State) (he : Reachable e) :
    (∀ p ∈ e.env, is_normal p.2 = true) ∧
    ∀ (n : Nat) (v : lval) (e' : State) (r : lval), lval_eval n e v = .ret (e', r) →
      ((∃ k, r = .num k) ∨ (∃ m, r = .err m) ∨ (∃ f, r = .func f) ∨ (∃ c, r = .qexpr c) ∨
        r = .sexpr []) ∧
      (∀ p ∈ e'.env, is_normal p.2 = true) ∧
      ∀ (m : Nat) (e2 : State), lval_eval (m + 1) e2 r = .ret (e2, r) := by
  have henv := reachable_env_normal e he
  refine ⟨henv, fun n v e' r h => ?_⟩
  have h1 := lval_eval_normal n e v e' r henv h
  exact ⟨is_normal_cases r h1.2, h1.1, fun m e2 => lval_eval_of_normal m e2 r h1.2⟩

/-- In the initial state `(head {(+ 1 2) x})` evaluates to `{(+ 1 2)}`, a
Q-Expression, which evaluates to itself. -/
theorem lval_eval_normal_form_witness :
    Reachable State.initial ∧
    lval_eval 2 State.initial
        (.sexpr [.sym "head", .qexpr [.sexpr [.sym "+", .num 1, .num 2], .sym "x"]])
      = .ret (State.initial, .qexpr [.sexpr [.sym "+", .num 1, .num 2]]) ∧
    lval_eval 1 State.initial (.qexpr [.sexpr [.sym "+", .num 1, .num 2]])
      = .ret (State.initial, .qexpr [.sexpr [.sym "+", .num 1, .num 2]]) :=
  ⟨Reachable.initial, by decide,
   ((lval_eval_normal_form State.initial Reachable.initial).2 2
      (.sexpr [.sym "head", .qexpr [.sexpr [.sym "+", .num 1, .num 2], .sym "x"]])
      State.initial (.qexpr [.sexpr [.sym "+", .num 1, .num 2]]) (by decide)).2.2 0
      State.initial⟩

/-! ## Termination -/

theorem has_eval_fun_cells_false (c : List lval) :
    has_eval_fun_cells c = false ↔ ∀ x ∈ c, has_eval_fun x = false := by
  induction c with
  | nil => simp [has_eval_fun_cells]
  | cons x xs ih => simp [has_eval_fun_cells, ih]

theorem check_no_eval {c : Outcome (Option lval)} {e : State} {k : Outcome (State × lval)}
    {e' : State} {r : lval}
    (hc : ∀ x, c = .ret (some x) → has_eval_fun x = false)
    (hk : k = .ret (e', r) → has_eval_fun r = false)
    (h : check c e k = .ret (e', r)) : has_eval_fun r = false := by
  unfold check at h
  split at h
  · rename_i err
    simp only [Outcome.ret.injEq, Prod.mk.injEq] at h
    exact h.2 ▸ hc err rfl
  · exact hk h
  · cases h
  · cases h

theorem INCARGS_no_eval (a : List lval) (num : Nat) (func : String) (x : lval)
    (h : INCARGS a num func = .ret (some x)) : has_eval_fun x = false := by
  unfold INCARGS at h
  split at h
  · simp only [Outcome.ret.injEq, Option.some.injEq] at h
    rw [← h]; rfl
  · cases h

theorem INCTYPE_no_eval (a : List lval) (i : Nat) (typ : ltype) (func : String) (x : lval)
    (h : INCTYPE a i typ func = .ret (some x)) : has_eval_fun x = false := by
  unfold INCTYPE at h
  split at h
  · cases h
  · split at h
    · simp only [Outcome.ret.injEq, Option.some.injEq] at h
      rw [← h]; rfl
    · cases h

theorem INCTYPE_loop_no_eval (a : List lval) (typ : ltype) (func : String) (x : lval) :
    ∀ (n i : Nat), INCTYPE_loop a typ func i n = .ret (some x) → has_eval_fun x = false
  | 0, _, h => by cases h
  | n + 1, i, h => by
    unfold INCTYPE_loop at h
    split at h
    · exact INCTYPE_loop_no_eval a typ func x n (i + 1) h
    · exact INCTYPE_no_eval a i typ func x h

theorem EMPLST_no_eval (a : List lval) (func : String) (x : lval)
    (h : EMPLST a func = .ret (some x)) : has_eval_fun x = false := by
  unfold EMPLST at h
  split at h
  · cases h
  · split at h
    · cases h
    · split at h
      · simp only [Outcome.ret.injEq, Option.some.injEq] at h
        rw [← h]; rfl
      · cases h

theorem LASSERT_no_eval (cond : Bool) (fmt : String) (x : lval)
    (h : LASSERT cond fmt = .ret (some x)) : has_eval_fun x = false := by
  unfold LASSERT at h
  split at h
  · simp only [Outcome.ret.injEq, Option.some.injEq] at h
    rw [← h]; rfl
  · cases h

theorem first_is_empty_no_eval (a : List lval) (fmt : String) (x : lval)
    (h : ((first_is_empty a).bind fun b => LASSERT b fmt) = .ret (some x)) :
    has_eval_fun x = false := by
  cases hf : first_is_empty a with
  | ret b =>
    rw [hf] at h
    exact LASSERT_no_eval b fmt x h
  | crash => rw [hf] at h; cases h
  | nofuel => rw [hf] at h; cases h

theorem builtin_op_loop_no_eval (op : String) :
    ∀ (l : List lval) (x : Int) (r : lval),
      builtin_op_loop op x l = .ret r → has_eval_fun r = false
  | [], x, r, h => by
    simp only [builtin_op_loop, Outcome.ret.injEq] at h
    rw [← h]; rfl
  | y :: rest, x, r, h => by
    unfold builtin_op_loop at h
    split at h
    · repeat' (split at h)
      all_goals
        first
        | exact builtin_op_loop_no_eval op rest _ r h
        | (simp only [Outcome.ret.injEq] at h; rw [← h]; rfl)
        | cases h
    · cases h

theorem builtin_op_no_eval {e e' : State} {a : List lval} {op : String} {r : lval}
    (h : builtin_op e a op = .ret (e', r)) : has_eval_fun r = false := by
  unfold builtin_op at h
  refine check_no_eval (INCTYPE_loop_no_eval a _ _ · _ _) (fun h => ?_) h
  split at h
  · cases h
  · split at h
    · exact builtin_op_loop_no_eval op _ _ r (bind_ret_result h)
    · cases h

theorem has_eval_fun_cells_append (a b : List lval) :
    has_eval_fun_cells (a ++ b) = (has_eval_fun_cells a || has_eval_fun_cells b) := by
  induction a with
  | nil => simp [has_eval_fun_cells]
  | cons x xs ih => simp [has_eval_fun_cells, ih, Bool.or_assoc]

theorem lval_add_no_eval {v x r : lval} (hv : has_eval_fun v = false)
    (hx : has_eval_fun x = false) (h : lval_add v x = .ret r) : has_eval_fun r = false := by
  unfold lval_add at h
  split at h
  · simp only [Outcome.ret.injEq] at h
    rw [← h]
    simp only [has_eval_fun] at hv ⊢
    simp [has_eval_fun_cells_append, hv, has_eval_fun_cells, hx]
  · simp only [Outcome.ret.injEq] at h
    rw [← h]
    simp only [has_eval_fun] at hv ⊢
    simp [has_eval_fun_cells_append, hv, has_eval_fun_cells, hx]
  · cases h

theorem lval_join_loop_no_eval :
    ∀ (cs : List lval) (x r : lval), has_eval_fun x = false →
      (∀ c ∈ cs, has_eval_fun c = false) → lval_join_loop x cs = .ret r →
      has_eval_fun r = false
  | [], x, r, hx, _, h => by
    simp only [lval_join_loop, Outcome.ret.injEq] at h
    exact h ▸ hx
  | c :: cs, x, r, hx, hcs, h => by
    simp only [lval_join_loop] at h
    cases ha : lval_add x c with
    | ret x1 =>
      rw [ha] at h
      exact lval_join_loop_no_eval cs x1 r
        (lval_add_no_eval hx (hcs c (List.mem_cons_self _ _)) ha)
        (fun d hd => hcs d (List.mem_cons_of_mem _ hd)) h
    | crash => rw [ha] at h; cases h
    | nofuel => rw [ha] at h; cases h

theorem cells_no_eval {y : lval} {cs : List lval} (hy : has_eval_fun y = false)
    (h : y.cells = some cs) : ∀ c ∈ cs, has_eval_fun c = false := by
  cases y <;> simp only [lval.cells, Option.some.injEq, reduceCtorEq] at h
  · rw [← h]
    exact (has_eval_fun_cells_false _).1 hy
  · rw [← h]
    exact (has_eval_fun_cells_false _).1 hy

theorem lval_join_no_eval {x y r : lval} (hx : has_eval_fun x = false)
    (hy : has_eval_fun y = false) (h : lval_join x y = .ret r) : has_eval_fun r = false := by
  unfold lval_join at h
  split at h
  · cases h
  · rename_i cs hcs
    exact lval_join_loop_no_eval cs x r hx (cells_no_eval hy hcs) h

theorem builtin_join_loop_no_eval :
    ∀ (ys : List lval) (x r : lval), has_eval_fun x = false →
      (∀ y ∈ ys, has_eval_fun y = false) → builtin_join_loop x ys = .ret r →
      has_eval_fun r = false
  | [], x, r, hx, _, h => by
    simp only [builtin_join_loop, Outcome.ret.injEq] at h
    exact h ▸ hx
  | y :: ys, x, r, hx, hys, h => by
    simp only [builtin_join_loop] at h
    cases hj : lval_join x y with
    | ret x1 =>
      rw [hj] at h
      exact builtin_join_loop_no_eval ys x1 r
        (lval_join_no_eval hx (hys y (List.mem_cons_self _ _)) hj)
        (fun d hd => hys d (List.mem_cons_of_mem _ hd)) h
    | crash => rw [hj] at h; cases h
    | nofuel => rw [hj] at h; cases h

theorem builtin_join_no_eval {e e' : State} {a : List lval} {r : lval}
    (ha : ∀ x ∈ a, has_eval_fun x = false)
    (h : builtin_join e a = .ret (e', r)) : has_eval_fun r = false := by
  unfold builtin_join at h
  refine check_no_eval (INCTYPE_loop_no_eval a _ _ · _ _) (fun h => ?_) h
  split at h
  · cases h
  · rename_i x a1 hp
    have hm := lval_pop_mem hp
    exact builtin_join_loop_no_eval a1 x r (ha x hm.1) (fun y hy => ha y (hm.2 y hy))
      (bind_ret_result h)

theorem builtin_cons_no_eval {e e' : State} {a : List lval} {r : lval}
    (ha : ∀ x ∈ a, has_eval_fun x = false)
    (h : builtin_cons e a = .ret (e', r)) : has_eval_fun r = false := by
  unfold builtin_cons at h
  refine check_no_eval (INCARGS_no_eval a _ _) (fun h => ?_) h
  refine check_no_eval (INCTYPE_no_eval a _ _ _) (fun h => ?_) h
  refine check_no_eval (INCTYPE_no_eval a _ _ _) (fun h => ?_) h
  split at h
  · cases h
  · rename_i x a1 hp
    have hm := lval_pop_mem hp
    simp only [builtin_list, Outcome.bind_ret] at h
    have hq : has_eval_fun (.qexpr a1) = false := by
      simp only [has_eval_fun]
      exact (has_eval_fun_cells_false a1).2 (fun y hy => ha y (hm.2 y hy))
    exact lval_join_no_eval hq (ha x hm.1) (bind_ret_result h)

theorem builtin_head_no_eval {e e' : State} {a : List lval} {r : lval}
    (ha : ∀ x ∈ a, has_eval_fun x = false)
    (h : builtin_head e a = .ret (e', r)) : has_eval_fun r = false := by
  unfold builtin_head at h
  refine check_no_eval (INCARGS_no_eval a _ _) (fun h => ?_) h
  refine check_no_eval (INCTYPE_no_eval a _ _ _) (fun h => ?_) h
  refine check_no_eval (EMPLST_no_eval a _) (fun h => ?_) h
  split at h
  · rename_i v hv
    have hd := ha _ (lval_take_mem hv)
    simp only [Outcome.ret.injEq, Prod.mk.injEq] at h
    rw [← h.2]
    simp only [has_eval_fun] at hd ⊢
    exact (has_eval_fun_cells_false _).2 (fun x hx =>
      (has_eval_fun_cells_false v).1 hd x (builtin_head_loop_mem _ _ x hx))
  · rename_i v hv
    have hd := ha _ (lval_take_mem hv)
    simp only [Outcome.ret.injEq, Prod.mk.injEq] at h
    rw [← h.2]
    simp only [has_eval_fun] at hd ⊢
    exact (has_eval_fun_cells_false _).2 (fun x hx =>
      (has_eval_fun_cells_false v).1 hd x (builtin_head_loop_mem _ _ x hx))
  · cases h

theorem pop_cells_no_eval {v v1 : List lval} {i : Nat} {x : lval}
    (hd : has_eval_fun_cells v = false) (hp : lval_pop v i = some (x, v1)) :
    has_eval_fun_cells v1 = false :=
  (has_eval_fun_cells_false v1).2 (fun y hy =>
    (has_eval_fun_cells_false v).1 hd y ((lval_pop_mem hp).2 y hy))

theorem builtin_tail_no_eval {e e' : State} {a : List lval} {r : lval}
    (ha : ∀ x ∈ a, has_eval_fun x = false)
    (h : builtin_tail e a = .ret (e', r)) : has_eval_fun r = false := by
  unfold builtin_tail at h
  refine check_no_eval (INCARGS_no_eval a _ _) (fun h => ?_) h
  refine check_no_eval (INCTYPE_no_eval a _ _ _) (fun h => ?_) h
  refine check_no_eval (EMPLST_no_eval a _) (fun h => ?_) h
  split at h
  · rename_i v hv
    have hd := ha _ (lval_take_mem hv)
    split at h
    · rename_i x v1 hp
      simp only [Outcome.ret.injEq, Prod.mk.injEq] at h
      rw [← h.2]
      exact pop_cells_no_eval hd hp
    · cases h
  · rename_i v hv
    have hd := ha _ (lval_take_mem hv)
    split at h
    · rename_i x v1 hp
      simp only [Outcome.ret.injEq, Prod.mk.injEq] at h
      rw [← h.2]
      exact pop_cells_no_eval hd hp
    · cases h
  · cases h

theorem builtin_init_no_eval {e e' : State} {a : List lval} {r : lval}
    (ha : ∀ x ∈ a, has_eval_fun x = false)
    (h : builtin_init e a = .ret (e', r)) : has_eval_fun r = false := by
  unfold builtin_init at h
  refine check_no_eval (INCARGS_no_eval a _ _) (fun h => ?_) h
  refine check_no_eval (INCTYPE_no_eval a _ _ _) (fun h => ?_) h
  refine check_no_eval (EMPLST_no_eval a _) (fun h => ?_) h
  split at h
  · rename_i v hv
    have hd := ha _ (lval_take_mem hv)
    split at h
    · rename_i x v1 hp
      simp only [Outcome.ret.injEq, Prod.mk.injEq] at h
      rw [← h.2]
      exact pop_cells_no_eval hd hp
    · cases h
  · rename_i v hv
    have hd := ha _ (lval_take_mem hv)
    split at h
    · rename_i x v1 hp
      simp only [Outcome.ret.injEq, Prod.mk.injEq] at h
      rw [← h.2]
      exact pop_cells_no_eval hd hp
    · cases h
  · cases h

theorem builtin_len_no_eval {e e' : State} {a : List lval} {r : lval}
    (h : builtin_len e a = .ret (e', r)) : has_eval_fun r = false := by
  unfold builtin_len at h
  refine check_no_eval (INCARGS_no_eval a _ _) (fun h => ?_) h
  refine check_no_eval (INCTYPE_no_eval a _ _ _) (fun h => ?_) h
  split at h
  · split at h
    · simp only [Outcome.ret.injEq, Prod.mk.injEq] at h
      rw [← h.2]; rfl
    · cases h
  · cases h

theorem builtin_values_no_eval {e e' : State} {a : List lval} {r : lval}
    (h : builtin_values e a = .ret (e', r)) : has_eval_fun r = false := by
  unfold builtin_values at h
  refine check_no_eval (INCARGS_no_eval a _ _) (fun h => ?_) h
  refine check_no_eval (INCTYPE_no_eval a _ _ _) (fun h => ?_) h
  refine check_no_eval (first_is_empty_no_eval a _) (fun h => ?_) h
  simp only [Outcome.ret.injEq, Prod.mk.injEq] at h
  rw [← h.2]; rfl

theorem builtin_exit_no_eval {e e' : State} {a : List lval} {r : lval}
    (h : builtin_exit e a = .ret (e', r)) : has_eval_fun r = false := by
  unfold builtin_exit at h
  refine check_no_eval (INCARGS_no_eval a _ _) (fun h => ?_) h
  refine check_no_eval (INCTYPE_no_eval a _ _ _) (fun h => ?_) h
  refine check_no_eval (first_is_empty_no_eval a _) (fun h => ?_) h
  simp only [Outcome.ret.injEq, Prod.mk.injEq] at h
  rw [← h.2]; rfl

theorem no_eval_err {x : lval} (h : x.type = .LVAL_ERR) : has_eval_fun x = false := by
  cases x <;> first | rfl | cases h

theorem check_fuel {c : Outcome (Option lval)} {e : State} {k : Outcome (State × lval)}
    (hc : c ≠ .nofuel) (hk : k ≠ .nofuel) : check c e k ≠ .nofuel := by
  unfold check
  split
  · simp
  · exact hk
  · simp
  · exact absurd rfl hc

theorem bind_fuel {α β : Type} {o : Outcome α} {k : α → Outcome β}
    (ho : o ≠ .nofuel) (hk : ∀ a, k a ≠ .nofuel) : o.bind k ≠ .nofuel := by
  cases o with
  | ret a => exact hk a
  | crash => simp [Outcome.bind]
  | nofuel => exact absurd rfl ho

theorem INCARGS_fuel (a : List lval) (num : Nat) (func : String) :
    INCARGS a num func ≠ .nofuel := by
  unfold INCARGS
  split <;> simp

theorem INCTYPE_fuel (a : List lval) (i : Nat) (typ : ltype) (func : String) :
    INCTYPE a i typ func ≠ .nofuel := by
  unfold INCTYPE
  split
  · simp
  · split <;> simp

theorem INCTYPE_loop_fuel (a : List lval) (typ : ltype) (func : String) :
    ∀ (n i : Nat), INCTYPE_loop a typ func i n ≠ .nofuel
  | 0, _ => by simp [INCTYPE_loop]
  | n + 1, i => by
    unfold INCTYPE_loop
    split
    · exact INCTYPE_loop_fuel a typ func n (i + 1)
    · exact INCTYPE_fuel a i typ func

theorem EMPLST_fuel (a : List lval) (func : String) : EMPLST a func ≠ .nofuel := by
  unfold EMPLST
  split
  · simp
  · split
    · simp
    · split <;> simp

theorem LASSERT_fuel (cond : Bool) (fmt : String) : LASSERT cond fmt ≠ .nofuel := by
  unfold LASSERT
  split <;> simp

theorem first_is_empty_fuel (a : List lval) (fmt : String) :
    ((first_is_empty a).bind fun b => LASSERT b fmt) ≠ .nofuel := by
  refine bind_fuel ?_ (fun b => LASSERT_fuel b fmt)
  unfold first_is_empty
  split
  · simp
  · split <;> simp

theorem power_fuel (x y : Int) : power x y ≠ .nofuel := by
  unfold power
  simp only []
  split_ifs <;> simp

theorem builtin_op_loop_fuel (op : String) :
    ∀ (rest : List lval) (x : Int), builtin_op_loop op x rest ≠ .nofuel
  | [], x => by simp [builtin_op_loop]
  | y :: rest, x => by
    unfold builtin_op_loop
    split
    · repeat' split
      all_goals first
        | exact builtin_op_loop_fuel op rest _
        | (rename_i hp; exact absurd hp (power_fuel _ _))
        | simp
    · simp

theorem builtin_op_fuel (e : State) (a : List lval) (op : String) :
    builtin_op e a op ≠ .nofuel := by
  unfold builtin_op
  refine check_fuel (INCTYPE_loop_fuel _ _ _ _ _) ?_
  split
  · simp
  · split
    · exact bind_fuel (builtin_op_loop_fuel op _ _) (fun _ => by simp)
    · simp

theorem builtin_head_fuel (e : State) (a : List lval) : builtin_head e a ≠ .nofuel := by
  unfold builtin_head
  refine check_fuel (INCARGS_fuel _ _ _) ?_
  refine check_fuel (INCTYPE_fuel _ _ _ _) ?_
  refine check_fuel (EMPLST_fuel _ _) ?_
  split <;> simp

theorem builtin_tail_fuel (e : State) (a : List lval) : builtin_tail e a ≠ .nofuel := by
  unfold builtin_tail
  refine check_fuel (INCARGS_fuel _ _ _) ?_
  refine check_fuel (INCTYPE_fuel _ _ _ _) ?_
  refine check_fuel (EMPLST_fuel _ _) ?_
  split
  · split <;> simp
  · split <;> simp
  · simp

theorem builtin_init_fuel (e : State) (a : List lval) : builtin_init e a ≠ .nofuel := by
  unfold builtin_init
  refine check_fuel (INCARGS_fuel _ _ _) ?_
  refine check_fuel (INCTYPE_fuel _ _ _ _) ?_
  refine check_fuel (EMPLST_fuel _ _) ?_
  split
  · split <;> simp
  · split <;> simp
  · simp

theorem builtin_len_fuel (e : State) (a : List lval) : builtin_len e a ≠ .nofuel := by
  unfold builtin_len
  refine check_fuel (INCARGS_fuel _ _ _) ?_
  refine check_fuel (INCTYPE_fuel _ _ _ _) ?_
  split
  · split <;> simp
  · simp

theorem lval_add_fuel (v x : lval) : lval_add v x ≠ .nofuel := by
  unfold lval_add
  split <;> simp

theorem lval_join_loop_fuel : ∀ (cs : List lval) (x : lval), lval_join_loop x cs ≠ .nofuel
  | [], x => by simp [lval_join_loop]
  | c :: cs, x => by
    unfold lval_join_loop
    exact bind_fuel (lval_add_fuel x c) (fun x1 => lval_join_loop_fuel cs x1)

theorem lval_join_fuel (x y : lval) : lval_join x y ≠ .nofuel := by
  unfold lval_join
  split
  · simp
  · exact lval_join_loop_fuel _ _

theorem builtin_join_loop_fuel :
    ∀ (rest : List lval) (x : lval), builtin_join_loop x rest ≠ .nofuel
  | [], x => by simp [builtin_join_loop]
  | y :: rest, x => by
    unfold builtin_join_loop
    exact bind_fuel (lval_join_fuel x y) (fun x1 => builtin_join_loop_fuel rest x1)

theorem builtin_join_fuel (e : State) (a : List lval) : builtin_join e a ≠ .nofuel := by
  unfold builtin_join
  refine check_fuel (INCTYPE_loop_fuel _ _ _ _ _) ?_
  split
  · simp
  · exact bind_fuel (builtin_join_loop_fuel _ _) (fun _ => by simp)

theorem builtin_cons_fuel (e : State) (a : List lval) : builtin_cons e a ≠ .nofuel := by
  unfold builtin_cons
  refine check_fuel (INCARGS_fuel _ _ _) ?_
  refine check_fuel (INCTYPE_fuel _ _ _ _) ?_
  refine check_fuel (INCTYPE_fuel _ _ _ _) ?_
  split
  · simp
  · simp only [builtin_list, Outcome.bind_ret]
    exact bind_fuel (lval_join_fuel _ _) (fun _ => by simp)

theorem builtin_def_loop_fuel :
    ∀ (syms vals : List lval) (e : State), builtin_def_loop e syms vals ≠ .nofuel
  | [], _, e => by simp [builtin_def_loop]
  | k :: syms, vals, e => by
    unfold builtin_def_loop
    split
    · split
      · simp
      · split
        · exact bind_fuel (lenv_put_fuel _ _ _) (fun env1 => builtin_def_loop_fuel syms _ _)
        · simp
    · simp

theorem builtin_def_fuel (e : State) (a : List lval) : builtin_def e a ≠ .nofuel := by
  unfold builtin_def
  refine check_fuel (INCTYPE_fuel _ _ _ _) ?_
  split
  · simp
  · split
    · simp
    · refine check_fuel (INCTYPE_loop_fuel _ _ _ _ _) ?_
      refine check_fuel (LASSERT_fuel _ _) ?_
      exact builtin_def_loop_fuel _ _ _

theorem builtin_values_fuel (e : State) (a : List lval) : builtin_values e a ≠ .nofuel := by
  unfold builtin_values
  refine check_fuel (INCARGS_fuel _ _ _) ?_
  refine check_fuel (INCTYPE_fuel _ _ _ _) ?_
  refine check_fuel (first_is_empty_fuel _ _) ?_
  simp

theorem builtin_exit_fuel (e : State) (a : List lval) : builtin_exit e a ≠ .nofuel := by
  unfold builtin_exit
  refine check_fuel (INCARGS_fuel _ _ _) ?_
  refine check_fuel (INCTYPE_fuel _ _ _ _) ?_
  refine check_fuel (first_is_empty_fuel _ _) ?_
  simp

theorem call_fun_fuel (ev : State → lval → Outcome (State × lval)) (f : lbuiltin)
    (e : State) (a : List lval) (he : f ≠ .builtin_eval) : call_fun ev f e a ≠ .nofuel := by
  cases f <;> simp only [call_fun]
  · exact builtin_head_fuel e a
  · exact builtin_tail_fuel e a
  · simp [builtin_list]
  · exact absurd rfl he
  · exact builtin_join_fuel e a
  · exact builtin_cons_fuel e a
  · exact builtin_len_fuel e a
  · exact builtin_init_fuel e a
  · exact builtin_op_fuel e a _
  · exact builtin_op_fuel e a _
  · exact builtin_op_fuel e a _
  · exact builtin_op_fuel e a _
  · exact builtin_op_fuel e a _
  · exact builtin_op_fuel e a _
  · exact builtin_op_fuel e a _
  · exact builtin_op_fuel e a _
  · exact builtin_def_fuel e a
  · exact builtin_values_fuel e a
  · exact builtin_exit_fuel e a

theorem eval_free_kept_refl (e : State) : eval_free_kept e e := fun _ h => h

theorem eval_free_kept_trans {e1 e2 e3 : State} (h12 : eval_free_kept e1 e2)
    (h23 : eval_free_kept e2 e3) : eval_free_kept e1 e3 := fun s h => h23 s (h12 s h)

theorem eval_free_kept_of_env {e e' : State} (h : e'.env = e.env) : eval_free_kept e e' :=
  fun s hs => by rw [h]; exact hs

theorem eval_free_kept_put (e : State) (name : String) (v : lval) (env1 : lenv)
    (hput : lenv_put e.env name v = .ret env1) (hv : has_eval_fun v = false) :
    eval_free_kept e { e with env := env1 } := by
  intro s hs x hx
  by_cases hsn : s = name
  · rw [hsn] at hx
    simp only [lenv_get_put_same hput, Outcome.ret.injEq] at hx
    rw [← hx]
    exact hv
  · simp only [lenv_get_put_other s hput hsn] at hx
    exact hs x hx

theorem builtin_def_loop_free :
    ∀ (syms vals : List lval) (e e' : State) (r : lval),
      (∀ x ∈ vals, has_eval_fun x = false) →
      builtin_def_loop e syms vals = .ret (e', r) →
      eval_free_kept e e' ∧ has_eval_fun r = false
  | [], _, e, e', r, _, h => by
    simp only [builtin_def_loop, Outcome.ret.injEq, Prod.mk.injEq] at h
    rw [← h.1, ← h.2]
    exact ⟨eval_free_kept_refl e, rfl⟩
  | k :: syms, vals, e, e', r, hvals, h => by
    unfold builtin_def_loop at h
    split at h
    · rename_i name
      split at h
      · simp only [Outcome.ret.injEq, Prod.mk.injEq] at h
        rw [← h.1, ← h.2]
        exact ⟨eval_free_kept_refl e, rfl⟩
      · split at h
        · rename_i v vals1
          obtain ⟨env1, hput, h⟩ := bind_ret_inv h
          have hrec := builtin_def_loop_free syms vals1
            { e with env := env1 } e' r
            (fun x hx => hvals x (List.mem_cons_of_mem _ hx)) h
          exact ⟨eval_free_kept_trans
            (eval_free_kept_put e name v env1 hput (hvals v (List.mem_cons_self _ _)))
            hrec.1, hrec.2⟩
        · cases h
    · cases h

theorem builtin_def_free {e e' : State} {a : List lval} {r : lval}
    (ha : ∀ x ∈ a, has_eval_fun x = false)
    (h : builtin_def e a = .ret (e', r)) : eval_free_kept e e' ∧ has_eval_fun r = false := by
  unfold builtin_def at h
  rcases check_cases h with ⟨hc, he⟩ | ⟨_, h⟩
  · rw [he]; exact ⟨eval_free_kept_refl e, no_eval_err (INCTYPE_err _ _ _ _ _ hc)⟩
  split at h
  · cases h
  · rename_i s vals
    split at h
    · cases h
    · rcases check_cases h with ⟨hc, he⟩ | ⟨_, h⟩
      · rw [he]; exact ⟨eval_free_kept_refl e, no_eval_err (INCTYPE_loop_err _ _ _ _ _ _ hc)⟩
      rcases check_cases h with ⟨hc, he⟩ | ⟨_, h⟩
      · rw [he]; exact ⟨eval_free_kept_refl e, no_eval_err (LASSERT_err _ _ _ hc)⟩
      exact builtin_def_loop_free _ _ _ _ _
        (fun x hx => ha x (List.mem_cons_of_mem _ hx)) h

theorem call_fun_free {ev : State → lval → Outcome (State × lval)} {f : lbuiltin}
    {e e' : State} {a : List lval} {r : lval}
    (he : f ≠ .builtin_eval) (ha : ∀ x ∈ a, has_eval_fun x = false)
    (h : call_fun ev f e a = .ret (e', r)) :
    eval_free_kept e e' ∧ has_eval_fun r = false := by
  have hst : ∀ {e1 : State}, e1 = e → eval_free_kept e e1 :=
    fun h1 => h1 ▸ eval_free_kept_refl e
  cases f <;> simp only [call_fun] at h
  · exact ⟨hst (builtin_head_state h), builtin_head_no_eval ha h⟩
  · exact ⟨hst (builtin_tail_state h), builtin_tail_no_eval ha h⟩
  · simp only [builtin_list, Outcome.ret.injEq, Prod.mk.injEq] at h
    rw [← h.1, ← h.2]
    exact ⟨eval_free_kept_refl e, (has_eval_fun_cells_false a).2 ha⟩
  · exact absurd rfl he
  · exact ⟨hst (builtin_join_state h), builtin_join_no_eval ha h⟩
  · exact ⟨hst (builtin_cons_state h), builtin_cons_no_eval ha h⟩
  · exact ⟨hst (builtin_len_state h), builtin_len_no_eval h⟩
  · exact ⟨hst (builtin_init_state h), builtin_init_no_eval ha h⟩
  · exact ⟨hst (builtin_op_state h), builtin_op_no_eval h⟩
  · exact ⟨hst (builtin_op_state h), builtin_op_no_eval h⟩
  · exact ⟨hst (builtin_op_state h), builtin_op_no_eval h⟩
  · exact ⟨hst (builtin_op_state h), builtin_op_no_eval h⟩
  · exact ⟨hst (builtin_op_state h), builtin_op_no_eval h⟩
  · exact ⟨hst (builtin_op_state h), builtin_op_no_eval h⟩
  · exact ⟨hst (builtin_op_state h), builtin_op_no_eval h⟩
  · exact ⟨hst (builtin_op_state h), builtin_op_no_eval h⟩
  · exact builtin_def_free ha h
  · exact ⟨eval_free_kept_of_env (builtin_values_state h).1, builtin_values_no_eval h⟩
  · exact ⟨eval_free_kept_of_env (builtin_exit_state h).1, builtin_exit_no_eval h⟩

theorem syms_of_cells_mem (c : List lval) (x : lval) (s : String) (hx : x ∈ c)
    (hs : s ∈ syms_of x) : s ∈ syms_of_cells c := by
  induction c with
  | nil => cases hx
  | cons y ys ih =>
    simp only [syms_of_cells, List.mem_append]
    rcases List.mem_cons.1 hx with hxy | hxy
    · exact Or.inl (hxy ▸ hs)
    · exact Or.inr (ih hxy)

theorem nesting_cells_le (c : List lval) (x : lval) (hx : x ∈ c) :
    nesting x ≤ nesting_cells c := by
  induction c with
  | nil => cases hx
  | cons y ys ih =>
    simp only [nesting_cells]
    rcases List.mem_cons.1 hx with hxy | hxy
    · rw [hxy]; exact le_max_left _ _
    · exact le_trans (ih hxy) (le_max_right _ _)

theorem lval_eval_cells_fuel {ev : State → lval → Outcome (State × lval)} :
    ∀ (cell : List lval) (e : State),
      (∀ c ∈ cell, ∀ e1, eval_free_kept e e1 →
        ev e1 c ≠ .nofuel ∧
        ∀ e' r, ev e1 c = .ret (e', r) → eval_free_kept e1 e' ∧ has_eval_fun r = false) →
      lval_eval_cells ev e cell ≠ .nofuel ∧
      ∀ e' rs, lval_eval_cells ev e cell = .ret (e', rs) →
        eval_free_kept e e' ∧ ∀ r ∈ rs, has_eval_fun r = false
  | [], e, _ => by
    simp only [lval_eval_cells]
    refine ⟨by simp, fun e' rs h => ?_⟩
    simp only [Outcome.ret.injEq, Prod.mk.injEq] at h
    rw [← h.1, ← h.2]
    exact ⟨eval_free_kept_refl e, fun _ hr => absurd hr (List.not_mem_nil _)⟩
  | c :: cs, e, hev => by
    have hc0 := hev c (List.mem_cons_self _ _) e (eval_free_kept_refl e)
    simp only [lval_eval_cells]
    cases hc : ev e c with
    | nofuel => exact absurd hc hc0.1
    | crash =>
      simp only [Outcome.bind_crash]
      exact ⟨by simp, fun _ _ h => by cases h⟩
    | ret p =>
      obtain ⟨e1, r1⟩ := p
      have h1 := hc0.2 e1 r1 hc
      have ih := lval_eval_cells_fuel cs e1 (fun c' hc' e2 hk =>
        hev c' (List.mem_cons_of_mem _ hc') e2 (eval_free_kept_trans h1.1 hk))
      simp only [Outcome.bind_ret]
      cases hcs : lval_eval_cells ev e1 cs with
      | nofuel => exact absurd hcs ih.1
      | crash =>
        simp only [Outcome.bind_crash]
        exact ⟨by simp, fun _ _ h => by cases h⟩
      | ret q =>
        obtain ⟨e2, rs1⟩ := q
        have h2 := ih.2 e2 rs1 hcs
        simp only [Outcome.bind_ret]
        refine ⟨by simp, fun e' rs h => ?_⟩
        simp only [Outcome.ret.injEq, Prod.mk.injEq] at h
        rw [← h.1, ← h.2]
        refine ⟨eval_free_kept_trans h1.1 h2.1, fun r hr => ?_⟩
        rcases List.mem_cons.1 hr with hr | hr
        · exact hr ▸ h1.2
        · exact h2.2 r hr

theorem lval_eval_sexpr_fuel {ev : State → lval → Outcome (State × lval)}
    {e : State} {cell : List lval}
    (hev : ∀ c ∈ cell, ∀ e1, eval_free_kept e e1 →
      ev e1 c ≠ .nofuel ∧
      ∀ e' r, ev e1 c = .ret (e', r) → eval_free_kept e1 e' ∧ has_eval_fun r = false) :
    lval_eval_sexpr ev e cell ≠ .nofuel ∧
    ∀ e' r, lval_eval_sexpr ev e cell = .ret (e', r) →
      eval_free_kept e e' ∧ has_eval_fun r = false := by
  have hcells := lval_eval_cells_fuel cell e hev
  unfold lval_eval_sexpr
  cases hc : lval_eval_cells ev e cell with
  | nofuel => exact absurd hc hcells.1
  | crash =>
    simp only [Outcome.bind_crash]
    exact ⟨by simp, fun _ _ h => by cases h⟩
  | ret p =>
    obtain ⟨e1, v⟩ := p
    have h1 := hcells.2 e1 v hc
    simp only [Outcome.bind_ret]
    have hhead : ∀ (f : lval) (args : List lval) (g : lbuiltin),
        lval_pop v 0 = some (f, args) → f = .func g → g ≠ .builtin_eval := by
      intro f args g hp hf hg
      have hm := h1.2 f (lval_pop_mem hp).1
      rw [hf, hg] at hm
      simp [has_eval_fun] at hm
    constructor
    · intro h
      split at h
      · cases h
      · split at h
        · cases h
        · split at h
          · split at h <;> cases h
          · split at h
            · cases h
            · rename_i f args hp
              split at h
              · rename_i g
                exact call_fun_fuel ev g e1 args (hhead _ _ g hp rfl) h
              · cases h
    · intro e' r h
      have hst : ∀ x : lval, has_eval_fun x = false →
          Outcome.ret (e1, x) = Outcome.ret (e', r) →
          eval_free_kept e e' ∧ has_eval_fun r = false := by
        intro x hx hxr
        simp only [Outcome.ret.injEq, Prod.mk.injEq] at hxr
        rw [← hxr.1, ← hxr.2]
        exact ⟨h1.1, hx⟩
      split at h
      · rename_i x hx
        exact hst x (h1.2 x (first_error_mem v x hx)) h
      · split at h
        · exact hst (.sexpr v) ((has_eval_fun_cells_false v).2 h1.2) h
        · split at h
          · split at h
            · rename_i x hx
              exact hst x (h1.2 x (lval_take_mem hx)) h
            · cases h
          · split at h
            · cases h
            · rename_i f args hp
              have hm := lval_pop_mem hp
              have hargs : ∀ x ∈ args, has_eval_fun x = false :=
                fun x hx => h1.2 x (hm.2 x hx)
              split at h
              · rename_i g
                have h2 := call_fun_free (hhead _ _ g hp rfl) hargs h
                exact ⟨eval_free_kept_trans h1.1 h2.1, h2.2⟩
              · exact hst (lval_err "First element is not a function!") rfl h

theorem ret_fuel_free (e : State) (x : lval) (hx : has_eval_fun x = false) :
    (Outcome.ret (e, x) : Outcome (State × lval)) ≠ .nofuel ∧
    ∀ e' r, (Outcome.ret (e, x) : Outcome (State × lval)) = .ret (e', r) →
      eval_free_kept e e' ∧ has_eval_fun r = false := by
  refine ⟨by simp, fun e' r h => ?_⟩
  simp only [Outcome.ret.injEq, Prod.mk.injEq] at h
  rw [← h.1, ← h.2]
  exact ⟨eval_free_kept_refl e, hx⟩

theorem lval_eval_fuel :
    ∀ (n : Nat) (e : State) (v : lval), has_eval_fun v = false →
      (∀ s ∈ syms_of v, ∀ x, lenv_get e.env s = .ret x → has_eval_fun x = false) →
      nesting v < n →
      lval_eval n e v ≠ .nofuel ∧
      ∀ e' r, lval_eval n e v = .ret (e', r) →
        eval_free_kept e e' ∧ has_eval_fun r = false
  | 0, _, _, _, _, hn => absurd hn (Nat.not_lt_zero _)
  | n + 1, e, v, hv, hs, hn => by
    cases v with
    | sym s =>
      rw [lval_eval_succ_sym]
      refine ⟨bind_fuel (lenv_get_fuel e.env s) (fun _ => by simp), fun e' r h => ?_⟩
      have hp := bind_pair_ret h
      rw [hp.1]
      exact ⟨eval_free_kept_refl e, hs s (by simp [syms_of]) r hp.2⟩
    | sexpr cell =>
      rw [lval_eval_succ_sexpr]
      apply lval_eval_sexpr_fuel
      intro c hc e1 hk
      have hvc : has_eval_fun c = false := by
        simp only [has_eval_fun] at hv
        exact (has_eval_fun_cells_false cell).1 hv c hc
      have hnc : nesting c < n := by
        have := nesting_cells_le cell c hc
        simp only [nesting] at hn
        omega
      exact lval_eval_fuel n e1 c hvc
        (fun s hsc => hk s (hs s (by
          simp only [syms_of]
          exact syms_of_cells_mem cell c s hc hsc))) hnc
    | num k => exact ret_fuel_free e _ hv
    | err m => exact ret_fuel_free e _ hv
    | func f => exact ret_fuel_free e _ hv
    | qexpr c => exact ret_fuel_free e _ hv

theorem eval_self_step (ev : State → lval → Outcome (State × lval)) (e : State)
    (q : List lval)
    (h1 : ev e (.sym "eval") = .ret (e, .func .builtin_eval))
    (h2 : ev e (.sym "a") = .ret (e, .qexpr q)) :
    lval_eval_sexpr ev e [.sym "eval", .sym "a"] = ev e (.sexpr q) := by
  simp [lval_eval_sexpr, lval_eval_cells, h1, h2, first_error, lval.type, lval_pop, call_fun,
    builtin_eval, check, INCARGS, INCTYPE, lval_take]

theorem eval_a_no_fuel :
    ∀ n : Nat, lval_eval n
      { State.initial with
        env := State.initial.env ++ [("a", .qexpr [.sym "eval", .sym "a"])] }
      (.sexpr [.sym "eval", .sym "a"]) = .nofuel
  | 0 => rfl
  | 1 => by decide
  | n + 2 => by
    rw [lval_eval_succ_sexpr, eval_self_step _ _ [.sym "eval", .sym "a"]
      (by rw [lval_eval_succ_sym]; decide) (by rw [lval_eval_succ_sym]; decide)]
    exact eval_a_no_fuel (n + 1)

/-- Claim C38. `lval_eval` ends whenever `builtin_eval` cannot be reached: if
the function pointer `builtin_eval` does not occur in `v`, and every Symbol
that occurs in `v`, at any depth and inside Q-Expressions too, is looked up in
the environment to a value in which it does not occur, then `lval_eval` on `v`
needs no more nested calls than `v` has nested S-Expressions: with any fuel
above `nesting v` it does not run out of fuel, it ends with a result or at one
of the operations that the C standard leaves undefined.  Without the
hypothesis it need not end: `(def {a} {eval a})` in the initial state returns
`()`, and in the state it leaves `(eval a)` runs out of any fuel. -/
theorem lval_eval_terminates_without_eval :
    (∀ (e : State) (v : lval) (n : Nat), has_eval_fun v = false →
      (∀ s ∈ syms_of v, ∀ x, lenv_get e.env s = .ret x → has_eval_fun x = false) →
      nesting v < n →
      lval_eval n e v ≠ .nofuel) ∧
    (∃ e_a : State,
      lval_eval 2 State.initial
        (.sexpr [.sym "def", .qexpr [.sym "a"], .qexpr [.sym "eval", .sym "a"]])
        = .ret (e_a, .sexpr []) ∧
      ∀ n : Nat, lval_eval n e_a (.sexpr [.sym "eval", .sym "a"]) = .nofuel) :=
  ⟨fun e v n hv hs hn => (lval_eval_fuel n e v hv hs hn).1,
   ⟨_, by decide, eval_a_no_fuel⟩⟩

/-- In the initial state `(+ 1 (* 2 3))`, with two nested S-Expressions, is
evaluated with fuel 3. -/
theorem lval_eval_terminates_without_eval_witness :
    nesting (.sexpr [.sym "+", .num 1, .sexpr [.sym "*", .num 2, .num 3]]) < 3 ∧
    lval_eval 3 State.initial (.sexpr [.sym "+", .num 1, .sexpr [.sym "*", .num 2, .num 3]])
      ≠ .nofuel :=
  ⟨by decide,
   lval_eval_terminates_without_eval.1 State.initial
     (.sexpr [.sym "+", .num 1, .sexpr [.sym "*", .num 2, .num 3]]) 3
     (by decide)
     (fun s hs x hx => by
       have hmem : s = "+" ∨ s = "*" := by
         simpa [syms_of, syms_of_cells] using hs
       have hadd : lenv_get State.initial.env "+" = .ret (.func .builtin_add) := by decide
       have hmul : lenv_get State.initial.env "*" = .ret (.func .builtin_mul) := by decide
       rcases hmem with h1 | h1
       · rw [h1, hadd] at hx
         simp only [Outcome.ret.injEq] at hx
         rw [← hx]; rfl
       · rw [h1, hmul] at hx
         simp only [Outcome.ret.injEq] at hx
         rw [← hx]; rfl)
     (by decide)⟩

end Lispy
